import Mathlib

/-!
# BaseLand tile map (`src/main.js`): shallow embedding and verified properties

The development follows the source file top to bottom.

* Numbers that the program keeps integral (tile ids, token ids, block numbers,
  `tilePx`) are `Nat` / `Int`; numbers that may be fractional (canvas size in
  CSS pixels, pan origin, zoom scale, pointer coordinates) are exact rationals.
* Module-level variables become fields of explicit state records.
* Asynchronous code is cut at its suspension points (`await`, `.then`): the
  part of a function that runs before a suspension is one transition, every
  continuation is a suspended task that a later transition settles with a
  signal chosen by the environment (metadata answer, image load result).
-/

namespace BaseLand

/-! ## Tile identifiers (main.js 63, 88, 221, 816-817) -/

/-- `const GRID_SIZE = 100;` -/
def GRID_SIZE : Nat := 100

/-- `function tileId(x, y) { return x * 100 + y; }` -/
def tileId (x y : Nat) : Nat := x * 100 + y

/-- The decoder used by the sync code (`hydrateFromCache`, `handleMintOrTransfer`,
`hydrateOwnedTilesFor`): `x = Math.floor(id / GRID_SIZE), y = id % GRID_SIZE`. -/
def idToCoord (id : Nat) : Nat × Nat := (id / GRID_SIZE, id % GRID_SIZE)

/-! ## Viewport state (main.js 226-238, 480-554, 657-711) -/

/-- The module variables that make up the viewport. `tilePx` is only ever
assigned `Math.max(4, Math.floor(8 * scale))`, so it is an integer. -/
structure Viewport where
  width : ℚ
  height : ℚ
  scale : ℚ
  originX : ℚ
  originY : ℚ
  tilePx : Int
  hasCentered : Bool
  initialZoomApplied : Bool
  hoverTile : Option (Int × Int)
  AUTOPAN_FACTOR : ℚ

/-- The module initialisers: `width = 800, height = 800, scale = 1, originX = 0,
originY = 0, tilePx = 8, hoverTile = null, hasCentered = false,
initialZoomApplied = false, AUTOPAN_FACTOR = 0.015`. -/
def Viewport.initial : Viewport :=
  { width := 800, height := 800, scale := 1, originX := 0, originY := 0, tilePx := 8,
    hasCentered := false, initialZoomApplied := false, hoverTile := none,
    AUTOPAN_FACTOR := 15 / 1000 }

/-- `Math.max(4, Math.floor(8 * scale))` -/
def tilePxOf (scale : ℚ) : Int := max 4 ⌊8 * scale⌋

/-- `centerGrid()` -/
def centerGrid (v : Viewport) : Viewport :=
  let worldW : ℚ := (GRID_SIZE : ℚ) * v.tilePx
  let worldH : ℚ := (GRID_SIZE : ℚ) * v.tilePx
  { v with
    originX := (⌊(v.width - worldW) / 2⌋ : ℚ)
    originY := (⌊(v.height - worldH) / 2⌋ : ℚ) }

/-- `applyInitialZoom(desiredTiles = 30)` -/
def applyInitialZoom (v : Viewport) (desiredTiles : ℚ) : Viewport :=
  let pxPerTileFitW := v.width / desiredTiles
  let pxPerTileFitH := v.height / desiredTiles
  let targetPxPerTile := min pxPerTileFitW pxPerTileFitH
  let targetScale : ℚ := min 6 (max (1 / 2) (targetPxPerTile / 8))
  centerGrid { v with scale := targetScale, tilePx := tilePxOf targetScale }

/-- `clampPan()` -/
def clampPan (v : Viewport) : Viewport :=
  let worldW : ℚ := (GRID_SIZE : ℚ) * v.tilePx
  let worldH : ℚ := (GRID_SIZE : ℚ) * v.tilePx
  let v1 : Viewport :=
    if worldW ≤ v.width then { v with originX := (⌊(v.width - worldW) / 2⌋ : ℚ) }
    else { v with originX := min 0 (max (v.width - worldW) v.originX) }
  if worldH ≤ v1.height then { v1 with originY := (⌊(v1.height - worldH) / 2⌋ : ℚ) }
  else { v1 with originY := min 0 (max (v1.height - worldH) v1.originY) }

/-- `screenToTile(sx, sy)` -/
def screenToTile (v : Viewport) (sx sy : ℚ) : Int × Int :=
  (⌊(sx - v.originX) / v.tilePx⌋, ⌊(sy - v.originY) / v.tilePx⌋)

/-- The only write `drawGrid()` makes to the viewport (line 561):
`tilePx = Math.max(4, Math.floor(8 * scale))`. Everything else in `drawGrid`
paints. The canvas context exists whenever the callers below run. -/
def drawGridViewport (v : Viewport) : Viewport :=
  { v with tilePx := tilePxOf v.scale }

/-- The `onPan: (x, y) => ...` callback handed to the map controller. -/
def onPan (v : Viewport) (x y : ℚ) : Viewport :=
  drawGridViewport (clampPan { v with originX := x, originY := y })

/-- The `onZoom: (s, x, y) => ...` callback handed to the map controller. -/
def onZoom (v : Viewport) (s x y : ℚ) : Viewport :=
  drawGridViewport
    (clampPan { v with scale := s, originX := x, originY := y, tilePx := tilePxOf s })

/-- The `pointermove` listener of `hookPointerEvents` for a mouse pointer at
canvas coordinates `(cx, cy)`; `AUTOPAN_ENABLED` is the constant `true`. -/
def onMouseMove (v : Viewport) (cx cy : ℚ) : Viewport :=
  let dxCenter := cx - v.width / 2
  let dyCenter := cy - v.height / 2
  let v1 := clampPan { v with
    originX := v.originX - dxCenter * v.AUTOPAN_FACTOR
    originY := v.originY - dyCenter * v.AUTOPAN_FACTOR }
  let t := screenToTile v1 cx cy
  if 0 ≤ t.1 ∧ t.1 < (GRID_SIZE : Int) ∧ 0 ≤ t.2 ∧ t.2 < (GRID_SIZE : Int) then
    if v1.hoverTile = some t then v1
    else drawGridViewport { v1 with hoverTile := some t }
  else
    match v1.hoverTile with
    | some _ => drawGridViewport { v1 with hoverTile := none }
    | none => v1

/-- `resizeCanvas()`. `rectW`, `rectH` are the canvas's bounding-rect size,
`innerW`, `innerH` are `window.innerWidth`, `window.innerHeight`. The device
pixel ratio only sizes the backing stores. -/
def resizeCanvas (v : Viewport) (rectW rectH innerW innerH : ℚ) : Viewport :=
  let width : ℚ := if rectW ≠ 0 ∧ rectW > 10 then rectW else (if innerW ≠ 0 then innerW else 800)
  let height : ℚ := if rectH ≠ 0 ∧ rectH > 10 then rectH else (if innerH ≠ 0 then innerH else 800)
  let v1 : Viewport := { v with width := width, height := height, tilePx := tilePxOf v.scale }
  let v2 : Viewport :=
    if !v1.initialZoomApplied then
      { applyInitialZoom v1 30 with initialZoomApplied := true, hasCentered := true }
    else if !v1.hasCentered then
      { centerGrid v1 with hasCentered := true }
    else
      clampPan v1
  drawGridViewport v2

/-- The clamping rule on one axis: the grid is centred (to the pixel the code
rounds to) when it is no larger than the canvas, otherwise the canvas lies
within the grid. -/
def ClampedAxis (extent world origin : ℚ) : Prop :=
  (world ≤ extent → origin = (⌊(extent - world) / 2⌋ : ℚ)) ∧
  (extent < world → extent - world ≤ origin ∧ origin ≤ 0)

/-- The clamping rule on both axes of a viewport. -/
def Clamped (v : Viewport) : Prop :=
  ClampedAxis v.width ((GRID_SIZE : ℚ) * v.tilePx) v.originX ∧
  ClampedAxis v.height ((GRID_SIZE : ℚ) * v.tilePx) v.originY

/-- The relation every assignment to `scale` re-establishes. -/
def TilePxSynced (v : Viewport) : Prop := v.tilePx = tilePxOf v.scale

/-- A canvas 801 pixels wide with the smallest tiles: the grid (400 pixels) is
narrower than the canvas by an odd number of pixels. -/
def vOdd : Viewport :=
  { Viewport.initial with width := 801, height := 801, scale := 1 / 2, tilePx := 4 }

/-- The first `resizeCanvas()` of a session on a canvas whose bounding rect is
399.5 by 100 CSS pixels. -/
def vFirstResize : Viewport := resizeCanvas Viewport.initial (799 / 2) 100 0 0

/-- On neither axis does the grid overhang the canvas by less than one pixel. -/
def NoSubpixelOverhang (v : Viewport) : Prop :=
  ¬ (-1 < v.width - (GRID_SIZE : ℚ) * v.tilePx ∧ v.width - (GRID_SIZE : ℚ) * v.tilePx < 0) ∧
  ¬ (-1 < v.height - (GRID_SIZE : ℚ) * v.tilePx ∧ v.height - (GRID_SIZE : ℚ) * v.tilePx < 0)

/-! ## Values shared by the ownership code -/

/-- An image handle (a loaded `Image` object), identified by a number. Every
handle is truthy. -/
abbrev Img := Nat

/-- JavaScript truthiness of a value that is a string, `null` or `undefined`:
only a non-empty string is truthy. -/
def truthy : Option String → Bool
  | some u => !(u == "")
  | none => false

/-- `v || null` for a value that is a string, `null` or `undefined`. -/
def orNull (v : Option String) : Option String :=
  if truthy v then v else none

/-- `Set.prototype.add`: insertion order is kept, a present element stays put. -/
def setAdd (xs : List Nat) (x : Nat) : List Nat :=
  if x ∈ xs then xs else xs ++ [x]

/-- `Set.prototype.delete` -/
def setDelete (xs : List Nat) (x : Nat) : List Nat :=
  xs.filter (fun y => !(y == x))

/-- `Map.prototype.set`: an existing key keeps its position. -/
def mapSet {α β : Type} [DecidableEq α] : List (α × β) → α → β → List (α × β)
  | [], k, v => [(k, v)]
  | (k', v') :: rest, k, v =>
    if k' = k then (k, v) :: rest else (k', v') :: mapSet rest k v

/-- `Map.prototype.get` -/
def mapGet {α β : Type} [DecidableEq α] : List (α × β) → α → Option β
  | [], _ => none
  | (k', v') :: rest, k => if k' = k then some v' else mapGet rest k

/-- Assignment `obj[key] = value` on an object with integer keys; such keys
enumerate in ascending numeric order. -/
def objSet : List (Nat × Option String) → Nat → Option String → List (Nat × Option String)
  | [], k, v => [(k, v)]
  | (k', v') :: rest, k, v =>
    if k' = k then (k, v) :: rest
    else if k < k' then (k, v) :: (k', v') :: rest
    else (k', v') :: objSet rest k v

/-! ## Persistent ownership cache (main.js 75-84) -/

/-- `setCachedImage(tokenId, url)`: `imageCachePersist[tokenId] = url || null`.
The write-through to `localStorage` is fire-and-forget. -/
def setCachedImage (imageCachePersist : List (Nat × Option String)) (tokenId : Nat)
    (url : Option String) : List (Nat × Option String) :=
  objSet imageCachePersist tokenId (orNull url)

/-- `getCachedImage(tokenId)`: `imageCachePersist?.[tokenId] || null` -/
def getCachedImage (imageCachePersist : List (Nat × Option String)) (tokenId : Nat) :
    Option String :=
  match mapGet imageCachePersist tokenId with
  | some v => orNull v
  | none => none

/-! ## Placeholder classification (main.js 101-106) -/

/-- `const PLACEHOLDER_HINTS = [...]` -/
def PLACEHOLDER_HINTS : List String := ["placeholder", "unrevealed", "pre-reveal", "prereveal"]

/-- `String.prototype.toLowerCase` on the letters A-Z. A character outside
ASCII is left as it is: none lower-cases to a character that occurs in a
placeholder hint, so hint matching is not affected. -/
def toLowerCase (s : String) : String := ⟨s.data.map Char.toLower⟩

/-- Whether the character list `h` occurs as a contiguous block of `cs`. -/
def includesChars (h : List Char) : List Char → Bool
  | [] => h.isEmpty
  | c :: cs => h.isPrefixOf (c :: cs) || includesChars h cs

/-- `String.prototype.includes` -/
def includes (s h : String) : Bool := includesChars h.data s.data

/-- `isPlaceholderUrl(u)` -/
def isPlaceholderUrl (u : Option String) : Bool :=
  match u with
  | none => true
  | some str =>
    if str == "" then true
    else PLACEHOLDER_HINTS.any (fun h => includes (toLowerCase str) h)

/-! ## Image loader (main.js 131-145) -/

/-- What a call `loadImage(url)` hands back before any event-loop turn: a
promise that is already settled (falsy url, or a hit in `imageCache`), or an
image request that is now in flight. -/
inductive LoadHandle
  | settled (img : Option Img)
  | inflight
  deriving DecidableEq, Repr

/-- `loadImage(url)` up to the point where it returns its promise. -/
def loadImage (imageCache : List (String × Img)) (url : String) : LoadHandle :=
  if url == "" then LoadHandle.settled none
  else
    match mapGet imageCache url with
    | some cachedImg => LoadHandle.settled (some cachedImg)
    | none => LoadHandle.inflight

/-! ## Ownership state and suspended continuations -/

/-- A continuation waiting at an `await` / `.then`. -/
inductive Task
  /-- `loadImage(url).then((img) => { if (img) tileImages.set(id, img); drawGrid(); })`
  of `markTileAsOwned` and of `hydrateFromCache`. -/
  | thenLoad (id : Nat) (url : String) (h : LoadHandle)
  /-- `handleMintOrTransfer` at `await fetchTokenMetadata(idNum)`. -/
  | mintMeta (idNum : Nat)
  /-- `handleMintOrTransfer` at `await loadImage(imgUrl)`. -/
  | mintLoad (idNum : Nat) (url : String) (h : LoadHandle)
  /-- `handleMintOrTransfer` at `await preloadSoldImage()`, with `drawGrid()` and
  `showToast(...)` still to run inside the `try`. -/
  | mintSold (idNum : Nat)
  /-- A task of `refreshPendingReveals`, queued in the pool or at
  `await fetchTokenMetadata(id)`. -/
  | refreshMeta (id : Nat)
  /-- A task of `refreshPendingReveals` at `await loadImage(newUrl)`. -/
  | refreshLoad (id : Nat) (url : String) (h : LoadHandle)
  /-- A task of `loadMintedTilesOnStartup` whose log has been parsed, queued in
  the pool or at `await fetchTokenMetadata(tokenId)`. -/
  | replayMeta (x y tokenId : Nat)
  deriving DecidableEq, Repr

/-- The module variables `ownedSet`, `tileImages`, `logoTiles`,
`imageCachePersist`, `imageCache`, and the continuations currently suspended. -/
structure State where
  ownedSet : List Nat
  tileImages : List (Nat × Img)
  logoTiles : List Nat
  imageCachePersist : List (Nat × Option String)
  imageCache : List (String × Img)
  tasks : List Task
  deriving DecidableEq, Repr

/-- The state of a fresh session with an empty persisted cache. -/
def State.empty : State :=
  { ownedSet := [], tileImages := [], logoTiles := [], imageCachePersist := [],
    imageCache := [], tasks := [] }

/-- `tileImages.has(id)` -/
def State.hasImage (s : State) (id : Nat) : Bool := (mapGet s.tileImages id).isSome

/-- What the environment delivers when a suspended continuation resumes. -/
inductive Signal
  /-- `fetchTokenMetadata` resolved; the payload is `meta?.imageUrl`. -/
  | meta (imageUrl : Option String)
  /-- An image request ended with `onload` (`some img`) or `onerror` (`none`).
  `thenRaises` says that the statements the continuation runs after its state
  updates (`drawGrid()`, `showToast(...)`, `preloadSoldImage()`) throw. -/
  | image (img : Option Img) (thenRaises : Bool)
  /-- `preloadSoldImage()` resolved and the rest of the body ran to its end. -/
  | done
  /-- The awaited call rejected, or a statement before the next suspension threw. -/
  | raise
  deriving DecidableEq, Repr

/-- The image a load continuation receives, given what `loadImage` returned at
call time and how the image request (if one was dispatched) ended. -/
def LoadHandle.result (h : LoadHandle) (arrived : Option Img) : Option Img :=
  match h with
  | LoadHandle.settled img => img
  | LoadHandle.inflight => arrived

/-- `img.onload = () => { imageCache.set(url, img); resolve(img); }` -/
def onloadCache (imageCache : List (String × Img)) (url : String) (h : LoadHandle)
    (arrived : Option Img) : List (String × Img) :=
  match h, arrived with
  | LoadHandle.inflight, some img => mapSet imageCache url img
  | _, _ => imageCache

/-! ## Operations on the ownership state -/

/-- `markTileAsOwned(x, y, imageUrl = null)` up to its return. -/
def markTileAsOwned (s : State) (x y : Nat) (imageUrl : Option String) : State :=
  let id := tileId x y
  let s1 := { s with ownedSet := setAdd s.ownedSet id }
  match orNull imageUrl with
  | some url =>
    { s1 with
      imageCachePersist := setCachedImage s1.imageCachePersist id (some url)
      tasks := s1.tasks ++ [Task.thenLoad id url (loadImage s1.imageCache url)] }
  | none =>
    { s1 with
      imageCachePersist := setCachedImage s1.imageCachePersist id none
      logoTiles := setAdd s1.logoTiles id }

/-- One iteration of the loop of `hydrateFromCache`, for the entry `[idStr, url]`. -/
def hydrateEntry (s : State) (entry : Nat × Option String) : State :=
  let id := entry.1
  let s1 := { s with ownedSet := setAdd s.ownedSet id }
  match orNull entry.2 with
  | some url =>
    { s1 with tasks := s1.tasks ++ [Task.thenLoad id url (loadImage s1.imageCache url)] }
  | none => { s1 with logoTiles := setAdd s1.logoTiles id }

/-- `hydrateFromCache()` -/
def hydrateFromCache (s : State) : State :=
  s.imageCachePersist.foldl hydrateEntry s

/-- `handleMintOrTransfer(to, tokenId)` up to `await fetchTokenMetadata(idNum)`. -/
def handleMintOrTransfer (s : State) (tokenId : Nat) : State :=
  let idNum := tokenId
  { s with
    ownedSet := setAdd s.ownedSet idNum
    tasks := s.tasks ++ [Task.mintMeta idNum] }

/-- The `catch (_)` block of `handleMintOrTransfer`. -/
def mintCatch (s : State) (tokenId : Nat) : State :=
  let idNum := tokenId
  { s with
    ownedSet := setAdd s.ownedSet idNum
    imageCachePersist := setCachedImage s.imageCachePersist idNum none
    logoTiles := setAdd s.logoTiles idNum }

/-- `handleMintOrTransfer` from the metadata answer to the next suspension. -/
def mintAfterMeta (s : State) (idNum : Nat) (imageUrl : Option String) : State :=
  let imgUrl := orNull imageUrl
  match imgUrl with
  | some url =>
    { s with
      imageCachePersist := setCachedImage s.imageCachePersist idNum (some url)
      tasks := s.tasks ++ [Task.mintLoad idNum url (loadImage s.imageCache url)] }
  | none =>
    { s with
      imageCachePersist := setCachedImage s.imageCachePersist idNum none
      logoTiles := setAdd s.logoTiles idNum
      tasks := s.tasks ++ [Task.mintSold idNum] }

/-- `handleMintOrTransfer` from the image answer on. -/
def mintAfterLoad (s : State) (idNum : Nat) (url : String) (h : LoadHandle)
    (arrived : Option Img) (thenRaises : Bool) : State :=
  let s1 := { s with imageCache := onloadCache s.imageCache url h arrived }
  match h.result arrived with
  | some img =>
    let s2 := { s1 with tileImages := mapSet s1.tileImages idNum img }
    if thenRaises then mintCatch s2 idNum else s2
  | none =>
    let s2 := { s1 with logoTiles := setAdd s1.logoTiles idNum }
    if thenRaises then mintCatch s2 idNum
    else { s2 with tasks := s2.tasks ++ [Task.mintSold idNum] }

/-- The `.then` continuation of `markTileAsOwned` / `hydrateFromCache`. -/
def thenLoadContinue (s : State) (id : Nat) (url : String) (h : LoadHandle)
    (arrived : Option Img) : State :=
  let s1 := { s with imageCache := onloadCache s.imageCache url h arrived }
  match h.result arrived with
  | some img => { s1 with tileImages := mapSet s1.tileImages id img }
  | none => s1

/-- The filter of `refreshPendingReveals`. -/
def isPending (s : State) (id : Nat) : Bool :=
  let cachedUrl := getCachedImage s.imageCachePersist id
  !s.hasImage id || !truthy cachedUrl || isPlaceholderUrl cachedUrl

/-- `refreshPendingReveals()` up to its first suspension: one pool task per
pending tile. -/
def refreshPendingReveals (s : State) : State :=
  let pending := s.ownedSet.filter (isPending s)
  { s with tasks := s.tasks ++ pending.map Task.refreshMeta }

/-- A task of `refreshPendingReveals` from the metadata answer (`null` when the
fetch rejected) to the next suspension. -/
def refreshAfterMeta (s : State) (id : Nat) (imageUrl : Option String) : State :=
  let newUrl := orNull imageUrl
  match newUrl with
  | some url =>
    if !isPlaceholderUrl (some url) && !(some url == getCachedImage s.imageCachePersist id) then
      { s with
        imageCachePersist := setCachedImage s.imageCachePersist id (some url)
        tasks := s.tasks ++ [Task.refreshLoad id url (loadImage s.imageCache url)] }
    else s
  | none => s

/-- A task of `refreshPendingReveals` from the image answer on. -/
def refreshAfterLoad (s : State) (id : Nat) (url : String) (h : LoadHandle)
    (arrived : Option Img) : State :=
  let s1 := { s with imageCache := onloadCache s.imageCache url h arrived }
  match h.result arrived with
  | some img =>
    { s1 with
      tileImages := mapSet s1.tileImages id img
      logoTiles := setDelete s1.logoTiles id }
  | none => s1
/-! ## Retried RPC calls and historical replay (main.js 941-988) -/

/-- What a run of `rpcCallWithRetry` did: its result (a value, or the error it
rethrows), how many times it called `fn`, and the delays it slept, in order. -/
structure RetryRun (ε α : Type) where
  result : Except ε α
  calls : Nat
  delays : List Int

/-- The `while (true)` loop of `rpcCallWithRetry`, entered with `attempt`
failures so far. `fn k` is how the call made after `k` failures ends and
`random k` is the value of `Math.random()` drawn after the `k`-th failure. -/
def rpcCallWithRetryLoop {ε α : Type} (fn : Nat → Except ε α) (retries baseDelay : Nat)
    (random : Nat → ℚ) (attempt : Nat) (delays : List Int) : RetryRun ε α :=
  match fn attempt with
  | Except.ok v => { result := Except.ok v, calls := attempt + 1, delays := delays }
  | Except.error err =>
    if attempt + 1 > retries then
      { result := Except.error err, calls := attempt + 1, delays := delays }
    else
      let delay : Int := (baseDelay : Int) * 2 ^ (attempt + 1 - 1) + ⌊random (attempt + 1) * 150⌋
      rpcCallWithRetryLoop fn retries baseDelay random (attempt + 1) (delays ++ [delay])
termination_by retries + 1 - attempt

/-- `rpcCallWithRetry(fn, { retries = 4, baseDelay = 400 } = {})` -/
def rpcCallWithRetry {ε α : Type} (fn : Nat → Except ε α) (retries baseDelay : Nat)
    (random : Nat → ℚ) : RetryRun ε α :=
  rpcCallWithRetryLoop fn retries baseDelay random 0 []

/-- The arguments of a decoded `Minted` event. -/
structure MintedArgs where
  tokenId : Nat
  x : Nat
  y : Nat
  deriving DecidableEq, Repr

/-- A log as far as the replay looks at it: what `iface.parseLog(l)` gives, or
`none` when reading `parsed.args` throws. -/
structure Log where
  parsed : Option MintedArgs
  deriving DecidableEq, Repr

/-- The read-only provider as the replay sees it: `getBlockNumber k` is how the
call made after `k` failures ends, `getLogs fromBlock toBlock k` likewise for a
log query of that block range. -/
structure RpcEnv where
  getBlockNumber : Nat → Except String Nat
  getLogs : Int → Int → Nat → Except String (List Log)
  random : Nat → ℚ

/-- The `for` loop of `getLogsBatched`, entered at `start` with `logs`
collected so far. Each iteration spends one unit of `fuel`; `none` means the
fuel ran out before the loop ended. -/
def getLogsBatchedLoop (rpc : RpcEnv) (toBlock step : Int) :
    Nat → Int → List Log → Option (Except String (List Log))
  | 0, _, _ => none
  | fuel + 1, start, logs =>
    if start ≤ toBlock then
      let end_ : Int := if start + step - 1 > toBlock then toBlock else start + step - 1
      match (rpcCallWithRetry (fun k => rpc.getLogs start end_ k) 4 400 rpc.random).result with
      | Except.ok batchLogs =>
        getLogsBatchedLoop rpc toBlock step fuel (start + step) (logs ++ batchLogs)
      | Except.error err => some (Except.error err)
    else some (Except.ok logs)

/-- `getLogsBatched(filter, fromBlock, toBlock, step = 200_000n)` -/
def getLogsBatched (rpc : RpcEnv) (fuel : Nat) (fromBlock toBlock step : Int) :
    Option (Except String (List Log)) :=
  getLogsBatchedLoop rpc toBlock step fuel fromBlock []

/-- The pool tasks `loadMintedTilesOnStartup` creates from the fetched logs. A
task whose log does not parse rejects at once and leaves nothing behind. -/
def replayTasks (logs : List Log) : List Task :=
  logs.filterMap (fun l => l.parsed.map (fun a => Task.replayMeta a.x a.y a.tokenId))

/-- `loadMintedTilesOnStartup()` up to `await Promise.allSettled(tasks)`. The
loop over `[0, latest]` in steps of 200000 gets more fuel than it has
iterations. -/
def loadMintedTilesOnStartup (s : State) (rpc : RpcEnv) : State :=
  match (rpcCallWithRetry rpc.getBlockNumber 4 400 rpc.random).result with
  | Except.error _ => s
  | Except.ok latest =>
    match getLogsBatched rpc (latest / 200000 + 2) 0 latest 200000 with
    | none => s
    | some (Except.error _) => s
    | some (Except.ok logs) =>
      if logs.isEmpty then s
      else { s with tasks := s.tasks ++ replayTasks logs }

/-! ## The transition system -/

/-- Continuation `t`, taken off the list of suspended tasks, receives `sig`:
the state after it has run to its next suspension or to its end, or `none`
when `t` is not waiting for a signal of that kind. -/
def resume (s0 : State) : Task → Signal → Option State
  | Task.thenLoad id url h, Signal.image arrived _ => some (thenLoadContinue s0 id url h arrived)
  | Task.mintMeta idNum, Signal.meta u => some (mintAfterMeta s0 idNum u)
  | Task.mintMeta idNum, Signal.raise => some (mintCatch s0 idNum)
  | Task.mintLoad idNum url h, Signal.image arrived r =>
    some (mintAfterLoad s0 idNum url h arrived r)
  | Task.mintSold _, Signal.done => some s0
  | Task.mintSold idNum, Signal.raise => some (mintCatch s0 idNum)
  | Task.refreshMeta id, Signal.meta u => some (refreshAfterMeta s0 id u)
  | Task.refreshMeta id, Signal.raise => some (refreshAfterMeta s0 id none)
  | Task.refreshLoad id url h, Signal.image arrived _ =>
    some (refreshAfterLoad s0 id url h arrived)
  | Task.replayMeta x y _, Signal.meta u => some (markTileAsOwned s0 x y (orNull u))
  | _, _ => none

/-- Task `i` receives `sig`. A missing task, or a signal the task is not
waiting for, leaves the state as it is. -/
def settle (s : State) (i : Nat) (sig : Signal) : State :=
  match s.tasks.get? i with
  | none => s
  | some t =>
    match resume { s with tasks := s.tasks.eraseIdx i } t sig with
    | some s' => s'
    | none => s

/-- Everything that can happen to the ownership state: a call of one of the
entry points, or the resumption of a suspended continuation. -/
inductive Event
  | markTileAsOwned (x y : Nat) (imageUrl : Option String)
  | hydrateFromCache
  | handleMintOrTransfer (tokenId : Nat)
  | refreshPendingReveals
  | loadMintedTilesOnStartup (rpc : RpcEnv)
  | settle (i : Nat) (sig : Signal)

/-- One transition. -/
def step (s : State) : Event → State
  | Event.markTileAsOwned x y imageUrl => markTileAsOwned s x y imageUrl
  | Event.hydrateFromCache => hydrateFromCache s
  | Event.handleMintOrTransfer tokenId => handleMintOrTransfer s tokenId
  | Event.refreshPendingReveals => refreshPendingReveals s
  | Event.loadMintedTilesOnStartup rpc => loadMintedTilesOnStartup s rpc
  | Event.settle i sig => settle s i sig

/-- A sequence of transitions. -/
def run (s : State) (events : List Event) : State := events.foldl step s

/-- A non-placeholder image URL used in the concrete scenarios. -/
def artUrl : String := "https://example.org/art/7.png"

/-- The session in which `markTileAsOwned(0, 0, artUrl)` ran and the image
request then failed. -/
def sLoadFailed : State :=
  run State.empty [Event.markTileAsOwned 0 0 (some artUrl), Event.settle 0 (Signal.image none false)]

/-- The session in which tile 0 failed to load and the next re-resolution pass
got the same URL from the resolver. -/
def sRefreshSameUrl : State :=
  run sLoadFailed [Event.refreshPendingReveals, Event.settle 0 (Signal.meta (some artUrl))]

/-- The session in which `handleMintOrTransfer` ran for token 7, the resolver
gave `artUrl`, the image loaded as handle 1, and the redraw then threw. -/
def sMintThrewAfterLoad : State :=
  run State.empty [Event.handleMintOrTransfer 7, Event.settle 0 (Signal.meta (some artUrl)),
    Event.settle 0 (Signal.image (some 1) true)]

/-- The session in which tile 0 was marked owned without an image and a
re-resolution pass has started. -/
def sRefreshing : State :=
  run State.empty [Event.markTileAsOwned 0 0 none, Event.refreshPendingReveals]

/-- What the `catch` path of `handleMintOrTransfer` promises about a tile:
owned, shown with the placeholder, cache entry `null`. -/
def Degraded (s : State) (id : Nat) : Prop :=
  id ∈ s.ownedSet ∧ id ∈ s.logoTiles ∧ getCachedImage s.imageCachePersist id = none

/-- How the fetch of the sub-range that starts at `start` ends when the replay
covers `[0, latest]` in steps of 200000: the value
`rpcCallWithRetry(() => publicProvider.getLogs(...))` resolves to, or the error
it rethrows after its last retry. -/
def fetchChunk (rpc : RpcEnv) (latest : Int) (start : Int) : Except String (List Log) :=
  (rpcCallWithRetry
    (fun k => rpc.getLogs start
      (if start + 200000 - 1 > latest then latest else start + 200000 - 1) k)
    4 400 rpc.random).result

/-- A provider at block 300000: the log query for blocks 0..199999 succeeds at
once with one `Minted` log for tile (5, 12); every log query that starts at
block 200000 fails. -/
def rpcOneBad : RpcEnv :=
  { getBlockNumber := fun _ => Except.ok 300000
    getLogs := fun fromBlock _ _ =>
      if fromBlock = 0 then Except.ok [{ parsed := some { tokenId := 512, x := 5, y := 12 } }]
      else Except.error "rate limited"
    random := fun _ => 0 }

/-! ## Locator normalisation (main.js 147-159) -/

/-- The characters `String.prototype.trim` strips: white space and line
terminators. -/
def isTrimChar (c : Char) : Bool :=
  let n := c.toNat
  (9 ≤ n && n ≤ 13) || n == 32 || n == 160 || n == 5760 || (8192 ≤ n && n ≤ 8202) ||
    n == 8232 || n == 8233 || n == 8239 || n == 8287 || n == 12288 || n == 65279

/-- `String.prototype.trim` -/
def trimChars (cs : List Char) : List Char :=
  ((cs.dropWhile isTrimChar).reverse.dropWhile isTrimChar).reverse

/-- The double-quote character. -/
def isQuote (c : Char) : Bool := c == Char.ofNat 34

/-- `.replace(/^"+|"+$/g, "")`: the leading run and the trailing run of double
quotes are removed. -/
def stripQuotes (cs : List Char) : List Char :=
  ((cs.dropWhile isQuote).reverse.dropWhile isQuote).reverse

/-- `String.prototype.startsWith` -/
def startsWith (s p : String) : Bool := p.data.isPrefixOf s.data

/-- `String.prototype.replace` with a string pattern: only the first
occurrence is replaced. (The replacement strings used here contain no `$`.) -/
def replaceFirstChars (pat rep : List Char) : List Char → List Char
  | [] => if pat.isEmpty then rep else []
  | c :: cs =>
    if pat.isPrefixOf (c :: cs) then rep ++ (c :: cs).drop pat.length
    else c :: replaceFirstChars pat rep cs

/-- `s.replace(pat, rep)` -/
def replaceFirst (s pat rep : String) : String :=
  ⟨replaceFirstChars pat.data rep.data s.data⟩

/-- `resolveIPFS(u)` for a string `u`. -/
def resolveIPFS (u : String) : String :=
  if u == "" then u
  else if startsWith u "ipfs://" then
    let path := replaceFirst u "ipfs://" ""
    "https://ipfs.io/ipfs/" ++ path
  else ⟨stripQuotes (trimChars u.data)⟩

/-- `toERC1155Hex(tokenId)` -/
def toERC1155Hex (tokenId : Nat) : String :=
  let hex := Nat.toDigits 16 tokenId
  let hex := if hex.length < 64 then List.replicate (64 - hex.length) '0' ++ hex else hex
  toLowerCase ⟨hex⟩

/-! ## Metadata resolver (main.js 171-219) -/

/-- A JSON / JavaScript value as far as the resolver tells values apart: a
string, a falsy value that is not a string (`undefined`, `null`, `0`,
`false`), or a truthy value that is not a string. -/
inductive JsVal
  | falsy
  | str (s : String)
  | other
  deriving DecidableEq, Repr

/-- JavaScript truthiness. -/
def JsVal.truthy : JsVal → Bool
  | JsVal.falsy => false
  | JsVal.str s => !(s == "")
  | JsVal.other => true

/-- `a || b` -/
def JsVal.or (a b : JsVal) : JsVal := if a.truthy then a else b

/-- A parsed metadata document: its `image` and `image_url` members. -/
structure JsonDoc where
  image : JsVal
  image_url : JsVal
  deriving DecidableEq, Repr

/-- An entry of the indexing service's list: `String(n.tokenId)` and `n.imageUrl`. -/
structure NftItem where
  tokenId : String
  imageUrl : JsVal
  deriving DecidableEq, Repr

/-- The object `fetchTokenMetadata` returns. `imageUrl` is `none` for
`null`, `undefined` and any other falsy value that is not a string. -/
structure TokenMetadata where
  imageUrl : Option String
  raw : Option (JsonDoc ⊕ NftItem)
  source : String
  deriving DecidableEq, Repr

/-- What the resolver reads from its surroundings. `walletTokenURI` and
`walletUri` are `cached.contract.tokenURI` and `cached.contract.uri` when a
wallet contract with such a function is attached; an accessor returns the
locator or throws. `fetchJson url` is how `fetchJson(url)` ends: it rejects,
or resolves to a falsy value (`none`) or to a document. -/
structure MetaEnv where
  walletTokenURI : Option (Nat → Except String String)
  walletUri : Option (Nat → Except String String)
  readOnlyTokenURI : Nat → Except String String
  fetchJson : String → Except String (Option JsonDoc)
  address : Option String
  fetchNFTsForAddress : String → Except String (List NftItem)

/-- `resolveIPFS(v)` for the value of `json.image || json.image_url` or of
`hit.imageUrl`: a falsy value is returned as it is, a string is normalised,
and on any other value `u.startsWith` is not a function, which throws. -/
def resolveIPFSValue (v : JsVal) : Except String (Option String) :=
  match v with
  | JsVal.falsy => Except.ok none
  | JsVal.str s => Except.ok (some (resolveIPFS s))
  | JsVal.other => Except.error "TypeError: u.startsWith is not a function"

/-- `await fetchJson(url).catch(() => null)` followed by the test `if (json)`. -/
def fetchJsonOrNull (env : MetaEnv) (url : String) : Option JsonDoc :=
  match env.fetchJson url with
  | Except.ok (some json) => some json
  | _ => none

/-- The body of the first `try` block: `some r` when it executes
`return r`, `none` when it falls through, an error when it throws. -/
def tryWalletTokenURI (env : MetaEnv) (tokenId : Nat) : Except String (Option TokenMetadata) :=
  match env.walletTokenURI with
  | none => Except.ok none
  | some tokenURI =>
    match tokenURI tokenId with
    | Except.error e => Except.error e
    | Except.ok uri =>
      let url := resolveIPFS uri
      match fetchJsonOrNull env url with
      | none => Except.ok none
      | some json =>
        match resolveIPFSValue (json.image.or json.image_url) with
        | Except.error e => Except.error e
        | Except.ok imageUrl =>
          Except.ok (some { imageUrl := imageUrl, raw := some (Sum.inl json),
                            source := "erc721:tokenURI" })

/-- The body of the second `try` block. -/
def tryWalletUri (env : MetaEnv) (tokenId : Nat) : Except String (Option TokenMetadata) :=
  match env.walletUri with
  | none => Except.ok none
  | some uriOf =>
    match uriOf tokenId with
    | Except.error e => Except.error e
    | Except.ok uri0 =>
      let uri :=
        if !(uri0 == "") && includes uri0 "\x7bid\x7d"
        then replaceFirst uri0 "\x7bid\x7d" (toERC1155Hex tokenId) else uri0
      let url := resolveIPFS uri
      match fetchJsonOrNull env url with
      | none => Except.ok none
      | some json =>
        match resolveIPFSValue (json.image.or json.image_url) with
        | Except.error e => Except.error e
        | Except.ok imageUrl =>
          Except.ok (some { imageUrl := imageUrl, raw := some (Sum.inl json),
                            source := "erc1155:uri" })

/-- The body of the third `try` block. -/
def tryReadOnlyTokenURI (env : MetaEnv) (tokenId : Nat) : Except String (Option TokenMetadata) :=
  match env.readOnlyTokenURI tokenId with
  | Except.error e => Except.error e
  | Except.ok uri =>
    let url := resolveIPFS uri
    match fetchJsonOrNull env url with
    | none => Except.ok none
    | some json =>
      match resolveIPFSValue (json.image.or json.image_url) with
      | Except.error e => Except.error e
      | Except.ok imageUrl =>
        Except.ok (some { imageUrl := imageUrl, raw := some (Sum.inl json),
                          source := "readonly:tokenURI" })

/-- The body of the fourth `try` block. -/
def tryWalletList (env : MetaEnv) (tokenId : Nat) : Except String (Option TokenMetadata) :=
  match orNull env.address with
  | none => Except.ok none
  | some address =>
    match env.fetchNFTsForAddress address with
    | Except.error e => Except.error e
    | Except.ok list =>
      match list.find? (fun n => n.tokenId == toString tokenId) with
      | none => Except.ok none
      | some hit =>
        if hit.imageUrl.truthy then
          match resolveIPFSValue hit.imageUrl with
          | Except.error e => Except.error e
          | Except.ok imageUrl =>
            Except.ok (some { imageUrl := imageUrl, raw := some (Sum.inr hit),
                              source := "wallet:list" })
        else Except.ok none

/-- `{ imageUrl: null, raw: null, source: "none" }` -/
def noMetadata : TokenMetadata := { imageUrl := none, raw := none, source := "none" }

/-- `fetchTokenMetadata(tokenId)`: each `try { ... } catch (_) {}` either
returns from the function or hands over to the next statement. -/
def fetchTokenMetadata (env : MetaEnv) (tokenId : Nat) : Except String TokenMetadata :=
  match tryWalletTokenURI env tokenId with
  | Except.ok (some r) => Except.ok r
  | _ =>
    match tryWalletUri env tokenId with
    | Except.ok (some r) => Except.ok r
    | _ =>
      match tryReadOnlyTokenURI env tokenId with
      | Except.ok (some r) => Except.ok r
      | _ =>
        match tryWalletList env tokenId with
        | Except.ok (some r) => Except.ok r
        | _ => Except.ok noMetadata

/-- The resolver as the specification words it: the attempts are tried in
order, the first one that succeeds gives the result, and when none succeeds
the result is `imageUrl = null` with source "none". -/
def firstSuccess : List (Except String (Option TokenMetadata)) → TokenMetadata
  | [] => noMetadata
  | Except.ok (some r) :: _ => r
  | _ :: rest => firstSuccess rest

/-- A metadata document with neither an `image` nor an `image_url` member. -/
def bareDoc : JsonDoc := { image := JsVal.falsy, image_url := JsVal.falsy }

/-- A metadata document whose `image` member is an image URL. -/
def artDoc : JsonDoc := { image := JsVal.str artUrl, image_url := JsVal.falsy }

/-- A session with a wallet attached: the wallet contract's `tokenURI` points
at a document without image members, the read-only contract's `tokenURI` at a
document with an `image`. -/
def envBareFirst : MetaEnv :=
  { walletTokenURI := some (fun _ => Except.ok "https://meta.example.org/wallet.json")
    walletUri := none
    readOnlyTokenURI := fun _ => Except.ok "https://meta.example.org/readonly.json"
    fetchJson := fun url =>
      if url == "https://meta.example.org/wallet.json" then Except.ok (some bareDoc)
      else Except.ok (some artDoc)
    address := none
    fetchNFTsForAddress := fun _ => Except.ok [] }

/-! ## Hit testing (main.js 519-526) -/

/-- The `onTap: (sx, sy) => ...` callback handed to the map controller: the
tile that becomes `selected` (and for which the buy modal opens), or `none`
when the handler does nothing. -/
def onTap (v : Viewport) (sx sy : ℚ) : Option (Int × Int) :=
  let t := screenToTile v sx sy
  if t.1 ≥ 0 ∧ t.1 < (GRID_SIZE : Int) ∧ t.2 ≥ 0 ∧ t.2 < (GRID_SIZE : Int) then some t
  else none

/-- Two strings differ at most in the case of their letters. -/
def SameUpToCase (u v : String) : Prop :=
  List.Forall₂ (fun a b => a.toLower = b.toLower) u.data v.data

/-! ## Reading numerals -/

/-- The value of a digit character `0`-`9`, `a`-`f`. -/
def digitValue (c : Char) : Nat :=
  if 48 ≤ c.toNat ∧ c.toNat ≤ 57 then c.toNat - 48
  else if 97 ≤ c.toNat ∧ c.toNat ≤ 102 then c.toNat - 87
  else 0

/-- The number a string of digits denotes in the given base. -/
def numeralValue (base : Nat) (cs : List Char) : Nat :=
  cs.foldl (fun acc c => acc * base + digitValue c) 0

/-- The lower-case hexadecimal digits. -/
def hexDigits : List Char :=
  ['0', '1', '2', '3', '4', '5', '6', '7', '8', '9', 'a', 'b', 'c', 'd', 'e', 'f']

/-! ## The sub-ranges of `getLogsBatched` (main.js 955-965) -/

/-- The call `rpcCallWithRetry(() => publicProvider.getLogs({ ...filter,
fromBlock: start, toBlock: end }))` of the loop body, for the sub-range
`(start, end)`: the batch it resolves to, or the error it rethrows. -/
def fetchRange (rpc : RpcEnv) (range : Int × Int) : Except String (List Log) :=
  (rpcCallWithRetry (fun k => rpc.getLogs range.1 range.2 k) 4 400 rpc.random).result

/-- The `for` loop of `getLogsBatched` once more, recording the sub-ranges
`(start, end)` it requests, in the order it requests them. The loop stops
after a request that fails. -/
def getLogsBatchedRequests (rpc : RpcEnv) (toBlock step : Int) : Nat → Int → List (Int × Int)
  | 0, _ => []
  | fuel + 1, start =>
    if start ≤ toBlock then
      let end_ : Int := if start + step - 1 > toBlock then toBlock else start + step - 1
      match fetchRange rpc (start, end_) with
      | Except.ok _ => (start, end_) :: getLogsBatchedRequests rpc toBlock step fuel (start + step)
      | Except.error _ => [(start, end_)]
    else []

/-- A provider at block 500 whose log queries all succeed with one log that
records the first block of the queried range. -/
def rpcEcho : RpcEnv :=
  { getBlockNumber := fun _ => Except.ok 500
    getLogs := fun fromBlock _ _ =>
      Except.ok [{ parsed := some { tokenId := fromBlock.toNat, x := 0, y := 0 } }]
    random := fun _ => 0 }

/-! ## The visible window of `drawGrid` (main.js 561-570) -/

/-- The tile-coordinate window `drawGrid` iterates: `startX`, `startY`, `endX`,
`endY`, all inclusive (`for (let x = startX; x <= endX; x++)`). -/
structure TileWindow where
  startX : Int
  startY : Int
  endX : Int
  endY : Int
  deriving DecidableEq, Repr

/-- Lines 561-565 of `drawGrid`: `tilePx` is recomputed from `scale`, then the
window is computed from the origin, the tile size and the canvas size. -/
def drawGridWindow (v : Viewport) : TileWindow :=
  let tilePx : Int := tilePxOf v.scale
  { startX := max 0 ⌊-v.originX / (tilePx : ℚ)⌋
    startY := max 0 ⌊-v.originY / (tilePx : ℚ)⌋
    endX := min ((GRID_SIZE : Int) - 1) ⌈(v.width - v.originX) / (tilePx : ℚ)⌉
    endY := min ((GRID_SIZE : Int) - 1) ⌈(v.height - v.originY) / (tilePx : ℚ)⌉ }

/-- Tile `(x, y)` is visited by the loops of `drawGrid`. -/
def TileWindow.iterates (w : TileWindow) (x y : Int) : Prop :=
  w.startX ≤ x ∧ x ≤ w.endX ∧ w.startY ≤ y ∧ y ≤ w.endY

/-- The pixel rectangle of tile `(x, y)` meets the canvas
`[0, width) x [0, height)`. -/
def onScreen (v : Viewport) (x y : Int) : Prop :=
  v.originX + (x : ℚ) * v.tilePx < v.width ∧ 0 < v.originX + ((x : ℚ) + 1) * v.tilePx ∧
  v.originY + (y : ℚ) * v.tilePx < v.height ∧ 0 < v.originY + ((y : ℚ) + 1) * v.tilePx

/-- A 400 x 400 canvas showing the top-left corner of the grid at scale 1
(8-pixel tiles): exactly the tiles 0..49 x 0..49 are on screen. -/
def vCorner : Viewport := { Viewport.initial with width := 400, height := 400 }

/-! ## Dispatched image requests (main.js 133-145) -/

/-- The image requests for `url` that are in flight: the suspended
continuations whose `loadImage(url)` created a new `Image` and set its `src`. -/
def inflightRequests (s : State) (url : String) : Nat :=
  (s.tasks.filter (fun t =>
    match t with
    | Task.thenLoad _ u LoadHandle.inflight => u == url
    | Task.mintLoad _ u LoadHandle.inflight => u == url
    | Task.refreshLoad _ u LoadHandle.inflight => u == url
    | _ => false)).length

/-- The session in which `markTileAsOwned` ran for tiles (0, 0) and (0, 1)
with the same image URL before either image request ended. -/
def sTwoLoads : State :=
  run State.empty [Event.markTileAsOwned 0 0 (some artUrl), Event.markTileAsOwned 0 1 (some artUrl)]

/-! ## The concurrency limiter `pLimit` (main.js 928-939) -/

/-- The closure state of `pLimit(concurrency)`: `active` and `queue` are its
variables; `started` lists the tasks in the order their `fn()` was called and
`running` the tasks started and not yet settled. Tasks are named by numbers. -/
structure Pool where
  concurrency : Nat
  active : Nat
  queue : List Nat
  started : List Nat
  running : List Nat
  deriving DecidableEq, Repr

/-- `pLimit(concurrency)` -/
def pLimit (concurrency : Nat) : Pool :=
  { concurrency := concurrency, active := 0, queue := [], started := [], running := [] }

/-- The inner function `next` up to the call `fn()`; the callbacks attached to
the task's promise run when the task settles. -/
def Pool.next (p : Pool) : Pool :=
  match p.queue with
  | [] => p
  | task :: rest =>
    if p.active ≥ p.concurrency then p
    else
      { p with
        active := p.active + 1
        queue := rest
        started := p.started ++ [task]
        running := p.running ++ [task] }

/-- The returned function `(fn) => new Promise(... queue.push(...); next(); )`. -/
def Pool.submit (p : Pool) (task : Nat) : Pool :=
  Pool.next { p with queue := p.queue ++ [task] }

/-- A started task settles (fulfilled or rejected): `active--`, the outer
promise is settled, `next()`. Only a running task can settle. -/
def Pool.settled (p : Pool) (task : Nat) : Pool :=
  if task ∈ p.running then
    Pool.next { p with active := p.active - 1, running := p.running.erase task }
  else p

/-- What happens to a pool. -/
inductive PoolEvent
  | submit (task : Nat)
  | settled (task : Nat)
  deriving DecidableEq, Repr

/-- One pool transition. -/
def Pool.step (p : Pool) : PoolEvent → Pool
  | PoolEvent.submit task => p.submit task
  | PoolEvent.settled task => p.settled task

/-- A sequence of pool transitions. -/
def Pool.run (p : Pool) (events : List PoolEvent) : Pool := events.foldl Pool.step p

/-- The tasks submitted by a sequence of events, in submission order. -/
def submissions : List PoolEvent → List Nat
  | [] => []
  | PoolEvent.submit task :: rest => task :: submissions rest
  | PoolEvent.settled _ :: rest => submissions rest

/-! ## Reloading the persisted cache (main.js 75-99) -/

/-- `Number(idStr)` for the decimal key of a cache entry. -/
def Number (idStr : String) : Nat := numeralValue 10 idStr.data

/-- The record written by `localStorage.setItem(IMAGE_CACHE_KEY,
JSON.stringify(imageCachePersist))` as `JSON.parse` gives it back in the next
session: the keys are the decimal strings of the ids, the values are the URL
strings or `null`. -/
def persistedRecord (imageCachePersist : List (Nat × Option String)) :
    List (String × Option String) :=
  imageCachePersist.map (fun e => (toString e.1, e.2))

/-- The next session right after `hydrateFromCache()`: all module variables
are fresh, `imageCachePersist` is the parsed record, and the loop reads each
id with `Number(idStr)`. -/
def reloadSession (record : List (String × Option String)) : State :=
  hydrateFromCache
    { State.empty with imageCachePersist := record.map (fun e => (Number e.1, e.2)) }

/-- The keys of a cache come in strictly ascending order, as the integer keys
of an object do; in particular no key occurs twice. -/
def WellKeyed (imageCachePersist : List (Nat × Option String)) : Prop :=
  (imageCachePersist.map Prod.fst).Pairwise (fun a b => a < b)

/-- The session in which `handleMintOrTransfer` ran for token 7, the resolver
gave `artUrl` and the image request failed. -/
def sMintLoadFailed : State :=
  run State.empty [Event.handleMintOrTransfer 7, Event.settle 0 (Signal.meta (some artUrl)),
    Event.settle 0 (Signal.image none false)]


/-! ## The sub-ranges of `getLogsBatched` in closed form -/

/-- The sub-ranges of `[fromBlock, toBlock]` as the specification words them:
the k-th one starts `k * step` blocks after `fromBlock` and holds `step`
blocks, except that the last one is cut at `toBlock`; there are
`(toBlock - fromBlock) / step + 1` of them. -/
def subRanges (fromBlock toBlock step : Int) : List (Int × Int) :=
  (List.range ((toBlock - fromBlock) / step + 1).toNat).map
    (fun (k : Nat) =>
      (fromBlock + (k : Int) * step, min toBlock (fromBlock + ((k : Int) + 1) * step - 1)))

/-- What the specification says `getLogsBatched` returns for a list of
sub-ranges: the batches of the sub-ranges concatenated in order, or the error
of the first sub-range whose fetch fails. -/
def collectBatches (rpc : RpcEnv) : List (Int × Int) → Except String (List Log)
  | [] => Except.ok []
  | range :: rest =>
    match fetchRange rpc range with
    | Except.error err => Except.error err
    | Except.ok batch =>
      match collectBatches rpc rest with
      | Except.error err => Except.error err
      | Except.ok logs => Except.ok (batch ++ logs)

/-- The sub-ranges of a list that get requested when they are requested in
order and nothing is requested after a fetch that fails. -/
def requestedPrefix (rpc : RpcEnv) : List (Int × Int) → List (Int × Int)
  | [] => []
  | range :: rest =>
    match fetchRange rpc range with
    | Except.error _ => [range]
    | Except.ok _ => range :: requestedPrefix rpc rest

/-- A provider whose log queries all succeed with no logs. -/
def rpcQuiet : RpcEnv :=
  { getBlockNumber := fun _ => Except.ok 0
    getLogs := fun _ _ _ => Except.ok []
    random := fun _ => 0 }

/-! ## Operations on one tile and interleavings -/

/-- The tile a suspended continuation works on. -/
def Task.tile : Task → Nat
  | Task.thenLoad id _ _ => id
  | Task.mintMeta idNum => idNum
  | Task.mintLoad idNum _ _ => idNum
  | Task.mintSold idNum => idNum
  | Task.refreshMeta id => id
  | Task.refreshLoad id _ _ => id
  | Task.replayMeta x y _ => tileId x y

/-- What the ownership state holds about one tile: `ownedSet.has(id)`,
`tileImages.get(id)`, `logoTiles.has(id)` and `getCachedImage(id)`. -/
structure TileView where
  owned : Bool
  image : Option Img
  placeholder : Bool
  cached : Option String
  deriving DecidableEq, Repr

/-- The view of tile `id` in state `s`. -/
def tileView (s : State) (id : Nat) : TileView :=
  { owned := decide (id ∈ s.ownedSet)
    image := mapGet s.tileImages id
    placeholder := decide (id ∈ s.logoTiles)
    cached := getCachedImage s.imageCachePersist id }

/-- Event `e`, happening in state `s`, is an operation on tile `id`: a call of
`markTileAsOwned` or `handleMintOrTransfer` for that tile, a call of
`hydrateFromCache` while the cache has an entry for it, or the resumption of a
continuation that works on it. `refreshPendingReveals` and
`loadMintedTilesOnStartup` only queue continuations; their operations on a
tile are the resumptions of those. -/
def touches (s : State) (id : Nat) : Event → Bool
  | Event.markTileAsOwned x y _ => tileId x y == id
  | Event.hydrateFromCache => decide (id ∈ s.imageCachePersist.map Prod.fst)
  | Event.handleMintOrTransfer tokenId => tokenId == id
  | Event.refreshPendingReveals => false
  | Event.loadMintedTilesOnStartup _ => false
  | Event.settle i _ =>
    match s.tasks.get? i with
    | some t => t.tile == id
    | none => false

/-- None of the events `es`, happening one after the other from state `s`, is
an operation on tile `id`. -/
def Untouched (id : Nat) : State → List Event → Prop
  | _, [] => True
  | s, e :: rest => touches s id e = false ∧ Untouched id (step s e) rest

/-- The state after the events `es` have happened from state `s` and then the
suspended continuation number `j` has received `sig`. -/
def resumeAfter (s : State) (es : List Event) (j : Nat) (sig : Signal) : State :=
  settle (run s es) j sig

/-- While continuation `t`, part of an operation on tile `id`, is suspended in
state `s`, the events `es` happen, none of them an operation on tile `id`;
after them `t` is the suspended continuation number `j`. -/
def Undisturbed (id : Nat) (s : State) (es : List Event) (j : Nat) (t : Task) : Prop :=
  Untouched id s es ∧ (run s es).tasks.get? j = some t

/-- The session in which tile 0 was marked owned without an image, a
re-resolution task for it got `artUrl` from the resolver and requested the
image, then `handleMintOrTransfer` ran for token 0 with a resolver answer
without image URL, and then the image of the re-resolution task loaded as
handle 1. -/
def sRefreshRaced : State :=
  run sRefreshing [Event.settle 0 (Signal.meta (some artUrl)), Event.handleMintOrTransfer 0,
    Event.settle 1 (Signal.meta none), Event.settle 0 (Signal.image (some 1) false)]

/-- The session in which tile 0 was marked owned without an image and a
re-resolution pass queued a task for it; then `handleMintOrTransfer` ran for
token 0 and got a resolver answer without image URL; while the handler waited
at `preloadSoldImage()`, the re-resolution task got `artUrl` and its image
loaded as handle 1; then the handler ran to its end without throwing. -/
def sMintRacedByRefresh : State :=
  run sRefreshing [Event.handleMintOrTransfer 0, Event.settle 1 (Signal.meta none),
    Event.settle 0 (Signal.meta (some artUrl)), Event.settle 1 (Signal.image (some 1) false),
    Event.settle 0 Signal.done]
/-! ## Theorems -/

section ViewportLemmas

theorem clampPan_originX (v : Viewport) :
    (clampPan v).originX =
      if (GRID_SIZE : ℚ) * v.tilePx ≤ v.width
      then (⌊(v.width - (GRID_SIZE : ℚ) * v.tilePx) / 2⌋ : ℚ)
      else min 0 (max (v.width - (GRID_SIZE : ℚ) * v.tilePx) v.originX) := by
  unfold clampPan
  by_cases h1 : (GRID_SIZE : ℚ) * v.tilePx ≤ v.width <;>
    by_cases h2 : (GRID_SIZE : ℚ) * v.tilePx ≤ v.height <;> simp [h1, h2]

theorem clampPan_originY (v : Viewport) :
    (clampPan v).originY =
      if (GRID_SIZE : ℚ) * v.tilePx ≤ v.height
      then (⌊(v.height - (GRID_SIZE : ℚ) * v.tilePx) / 2⌋ : ℚ)
      else min 0 (max (v.height - (GRID_SIZE : ℚ) * v.tilePx) v.originY) := by
  unfold clampPan
  by_cases h1 : (GRID_SIZE : ℚ) * v.tilePx ≤ v.width <;>
    by_cases h2 : (GRID_SIZE : ℚ) * v.tilePx ≤ v.height <;> simp [h1, h2]

theorem clampPan_frame (v : Viewport) :
    (clampPan v).width = v.width ∧ (clampPan v).height = v.height ∧
    (clampPan v).tilePx = v.tilePx ∧ (clampPan v).scale = v.scale ∧
    (clampPan v).hoverTile = v.hoverTile := by
  unfold clampPan
  by_cases h1 : (GRID_SIZE : ℚ) * v.tilePx ≤ v.width <;>
    by_cases h2 : (GRID_SIZE : ℚ) * v.tilePx ≤ v.height <;> simp [h1, h2]

/-- What one axis of `clampPan` computes satisfies the clamping rule. -/
theorem clampedAxis_clamp (extent world origin : ℚ) :
    ClampedAxis extent world
      (if world ≤ extent then (⌊(extent - world) / 2⌋ : ℚ)
       else min 0 (max (extent - world) origin)) := by
  unfold ClampedAxis
  constructor
  · intro h
    simp [h]
  · intro h
    have h' : ¬ world ≤ extent := not_le.mpr h
    simp only [h', if_false]
    constructor
    · apply le_min
      · linarith
      · exact le_max_left _ _
    · exact min_le_left _ _

theorem clampPan_clamped (v : Viewport) : Clamped (clampPan v) := by
  obtain ⟨hw, hh, ht, -, -⟩ := clampPan_frame v
  unfold Clamped
  rw [hw, hh, ht, clampPan_originX, clampPan_originY]
  exact ⟨clampedAxis_clamp _ _ _, clampedAxis_clamp _ _ _⟩

/-- Rounding a half-difference down: the centring formula shared by
`centerGrid` and `clampPan` obeys the clamping rule unless the grid overhangs
the canvas by less than one pixel. -/
theorem clampedAxis_center (extent world : ℚ)
    (h : ¬ (-1 < extent - world ∧ extent - world < 0)) :
    ClampedAxis extent world (⌊(extent - world) / 2⌋ : ℚ) := by
  unfold ClampedAxis
  refine ⟨fun _ => rfl, fun hlt => ?_⟩
  have hd : extent - world ≤ -1 := by
    by_contra hc
    exact h ⟨by linarith [not_le.mp hc], by linarith⟩
  constructor
  · have h1 : ((-1 : Int) : ℚ) ≤ (⌊(extent - world) / 2⌋ : ℚ) ∨
        (extent - world) / 2 < -1 := by
      by_cases hc : (extent - world) / 2 < -1
      · exact Or.inr hc
      · left
        have : (-1 : Int) ≤ ⌊(extent - world) / 2⌋ := by
          apply Int.le_floor.mpr
          push_cast
          linarith [not_lt.mp hc]
        exact_mod_cast this
    rcases h1 with h1 | h1
    · push_cast at h1
      linarith
    · have := Int.lt_floor_add_one ((extent - world) / 2)
      linarith
  · have := Int.floor_le ((extent - world) / 2)
    linarith

theorem clamped_congr (a b : Viewport) (hw : b.width = a.width) (hh : b.height = a.height)
    (ht : b.tilePx = a.tilePx) (hx : b.originX = a.originX) (hy : b.originY = a.originY)
    (h : Clamped a) : Clamped b := by
  unfold Clamped at *
  rw [hw, hh, ht, hx, hy]
  exact h

theorem clampPan_synced (v : Viewport) (h : TilePxSynced v) : TilePxSynced (clampPan v) := by
  obtain ⟨-, -, ht, hs, -⟩ := clampPan_frame v
  unfold TilePxSynced at *
  rw [ht, hs, h]

theorem drawGridViewport_synced (v : Viewport) : TilePxSynced (drawGridViewport v) := rfl

theorem drawGridViewport_clamped (v : Viewport) (hs : TilePxSynced v) (h : Clamped v) :
    Clamped (drawGridViewport v) :=
  clamped_congr v _ rfl rfl hs.symm rfl rfl h

theorem centerGrid_clamped (v : Viewport) (h : NoSubpixelOverhang v) :
    Clamped (centerGrid v) :=
  ⟨clampedAxis_center _ _ h.1, clampedAxis_center _ _ h.2⟩

/-- A canvas whose size is a whole number of pixels never has a sub-pixel overhang. -/
theorem noSubpixelOverhang_of_int (v : Viewport) (w h : Int) (hw : v.width = w)
    (hh : v.height = h) : NoSubpixelOverhang v := by
  have key : ∀ n : Int, ¬ (-1 < (n : ℚ) - (GRID_SIZE : ℚ) * v.tilePx ∧
      (n : ℚ) - (GRID_SIZE : ℚ) * v.tilePx < 0) := by
    rintro n ⟨h1, h2⟩
    have e : (n : ℚ) - (GRID_SIZE : ℚ) * v.tilePx = ((n - 100 * v.tilePx : Int) : ℚ) := by
      simp [GRID_SIZE]
    rw [e] at h1 h2
    have h1' : (-1 : Int) < n - 100 * v.tilePx := by exact_mod_cast h1
    have h2' : n - 100 * v.tilePx < (0 : Int) := by exact_mod_cast h2
    omega
  unfold NoSubpixelOverhang
  rw [hw, hh]
  exact ⟨key w, key h⟩

end ViewportLemmas

/-- C1: for 0 <= x, y < 100 decoding `tileId x y` with `floor(id / 100)`,
`id mod 100` gives back `(x, y)`, and for 0 <= id < 10000 re-encoding the
decoded pair gives back `id`. -/
theorem tileId_idToCoord_roundtrip (x y id : Nat) (_hx : x < 100) (hy : y < 100)
    (_hid : id < 10000) :
    idToCoord (tileId x y) = (x, y) ∧
      tileId (idToCoord id).1 (idToCoord id).2 = id := by
  unfold idToCoord tileId GRID_SIZE
  refine ⟨?_, ?_⟩
  · have h1 : (x * 100 + y) / 100 = x := by omega
    have h2 : (x * 100 + y) % 100 = y := by omega
    rw [h1, h2]
  · show id / 100 * 100 + id % 100 = id
    omega

theorem tileId_idToCoord_roundtrip_witness :
    (5 < 100 ∧ 12 < 100 ∧ 9999 < 10000) ∧
      idToCoord (tileId 5 12) = (5, 12) ∧
      tileId (idToCoord 9999).1 (idToCoord 9999).2 = 9999 :=
  ⟨by decide, tileId_idToCoord_roundtrip 5 12 9999 (by decide) (by decide) (by decide)⟩

/-- C4 (as stated, refuted): on a canvas 801 wide with 400-pixel grid the grid
is no larger than the canvas, yet after `clampPan` the origin is 200, not
(801 - 400) / 2. -/
theorem clampPan_not_exactly_centered :
    ((GRID_SIZE : ℚ) * vOdd.tilePx ≤ vOdd.width) ∧
      (clampPan vOdd).originX = 200 ∧
      (clampPan vOdd).originX ≠ (vOdd.width - (GRID_SIZE : ℚ) * vOdd.tilePx) / 2 := by
  have hf : ⌊((801 : ℚ) - 100 * 4) / 2⌋ = 200 := by
    rw [Int.floor_eq_iff]
    constructor <;> norm_num
  rw [clampPan_originX]
  simp only [vOdd, Viewport.initial, GRID_SIZE]
  norm_num [hf]

/-- C4 (amended): for a canvas with positive width and height and tilePx >= 4,
after `clampPan` on each axis, with world = 100 * tilePx: if world <= extent the
origin is floor((extent - world) / 2), less than one pixel left of (above) the
exact centre; otherwise extent - world <= origin <= 0; in both cases the grid
box [origin, origin + world] meets the canvas [0, extent]. -/
theorem clampPan_spec (v : Viewport) (hw : 0 < v.width) (hh : 0 < v.height)
    (ht : 4 ≤ v.tilePx) :
    ((((GRID_SIZE : ℚ) * v.tilePx ≤ v.width →
          (clampPan v).originX = (⌊(v.width - (GRID_SIZE : ℚ) * v.tilePx) / 2⌋ : ℚ) ∧
          0 ≤ (v.width - (GRID_SIZE : ℚ) * v.tilePx) / 2 - (clampPan v).originX ∧
          (v.width - (GRID_SIZE : ℚ) * v.tilePx) / 2 - (clampPan v).originX < 1) ∧
        (v.width < (GRID_SIZE : ℚ) * v.tilePx →
          v.width - (GRID_SIZE : ℚ) * v.tilePx ≤ (clampPan v).originX ∧
          (clampPan v).originX ≤ 0)) ∧
      ((clampPan v).originX ≤ v.width ∧
        0 ≤ (clampPan v).originX + (GRID_SIZE : ℚ) * v.tilePx)) ∧
    ((((GRID_SIZE : ℚ) * v.tilePx ≤ v.height →
          (clampPan v).originY = (⌊(v.height - (GRID_SIZE : ℚ) * v.tilePx) / 2⌋ : ℚ) ∧
          0 ≤ (v.height - (GRID_SIZE : ℚ) * v.tilePx) / 2 - (clampPan v).originY ∧
          (v.height - (GRID_SIZE : ℚ) * v.tilePx) / 2 - (clampPan v).originY < 1) ∧
        (v.height < (GRID_SIZE : ℚ) * v.tilePx →
          v.height - (GRID_SIZE : ℚ) * v.tilePx ≤ (clampPan v).originY ∧
          (clampPan v).originY ≤ 0)) ∧
      ((clampPan v).originY ≤ v.height ∧
        0 ≤ (clampPan v).originY + (GRID_SIZE : ℚ) * v.tilePx)) := by
  have key : ∀ (extent origin : ℚ), 0 < extent →
      let world : ℚ := (GRID_SIZE : ℚ) * v.tilePx
      let o := if world ≤ extent then (⌊(extent - world) / 2⌋ : ℚ)
               else min 0 (max (extent - world) origin)
      ((world ≤ extent → o = (⌊(extent - world) / 2⌋ : ℚ) ∧
          0 ≤ (extent - world) / 2 - o ∧ (extent - world) / 2 - o < 1) ∧
        (extent < world → extent - world ≤ o ∧ o ≤ 0)) ∧
      (o ≤ extent ∧ 0 ≤ o + world) := by
    intro extent origin he
    have hworld : (0 : ℚ) < (GRID_SIZE : ℚ) * v.tilePx := by
      have : (4 : ℚ) ≤ (v.tilePx : ℚ) := by exact_mod_cast ht
      simp only [GRID_SIZE]
      push_cast
      linarith
    intro world o
    have hrule := clampedAxis_clamp extent world origin
    by_cases hc : world ≤ extent
    · have ho : o = (⌊(extent - world) / 2⌋ : ℚ) := by simp [o, hc]
      have h1 := Int.floor_le ((extent - world) / 2)
      have h2 := Int.lt_floor_add_one ((extent - world) / 2)
      have h3 : (0 : ℚ) ≤ (⌊(extent - world) / 2⌋ : ℚ) := by
        have : (0 : Int) ≤ ⌊(extent - world) / 2⌋ :=
          Int.floor_nonneg.mpr (by linarith)
        exact_mod_cast this
      have hw' : 0 < world := hworld
      refine ⟨⟨fun _ => ⟨ho, by rw [ho]; linarith, by rw [ho]; linarith⟩,
        fun hlt => absurd hc (not_le.mpr hlt)⟩, by rw [ho]; linarith, by rw [ho]; linarith⟩
    · have hb := hrule.2 (not_le.mp hc)
      have hb' : extent - world ≤ o ∧ o ≤ 0 := hb
      refine ⟨⟨fun h => absurd h hc, fun _ => hb'⟩, by linarith [hb'.2], by linarith [hb'.1]⟩
  rw [clampPan_originX, clampPan_originY]
  exact ⟨key v.width v.originX hw, key v.height v.originY hh⟩

theorem clampPan_spec_witness :
    (0 < vOdd.width ∧ 0 < vOdd.height ∧ 4 ≤ vOdd.tilePx) ∧
      (clampPan vOdd).originX ≤ vOdd.width :=
  have hw : 0 < vOdd.width := by norm_num [vOdd, Viewport.initial]
  have hh : 0 < vOdd.height := by norm_num [vOdd, Viewport.initial]
  have ht : 4 ≤ vOdd.tilePx := by norm_num [vOdd, Viewport.initial]
  ⟨⟨hw, hh, ht⟩, (clampPan_spec vOdd hw hh ht).1.2.1⟩

theorem vFirstResize_fields :
    vFirstResize.width = 799 / 2 ∧ vFirstResize.tilePx = 4 ∧ vFirstResize.originX = -1 := by
  have h8 : tilePxOf 1 = 8 := by
    unfold tilePxOf
    have : ⌊(8 : ℚ) * 1⌋ = 8 := by
      rw [Int.floor_eq_iff]; constructor <;> norm_num
    rw [this]; rfl
  have hmin : min (6 : ℚ) (max (1 / 2) (min ((799 / 2 : ℚ) / 30) ((100 : ℚ) / 30) / 8)) = 1 / 2 := by
    have h1 : min ((799 / 2 : ℚ) / 30) ((100 : ℚ) / 30) = 10 / 3 := by
      rw [min_eq_right (by norm_num)]; norm_num
    rw [h1, max_eq_left (by norm_num), min_eq_right (by norm_num)]
  have h4 : tilePxOf (1 / 2) = 4 := by
    unfold tilePxOf
    have : ⌊(8 : ℚ) * (1 / 2)⌋ = 4 := by
      rw [Int.floor_eq_iff]; constructor <;> norm_num
    rw [this]; rfl
  have hf : ⌊((799 / 2 : ℚ) - (100 : ℚ) * 4) / 2⌋ = -1 := by
    rw [Int.floor_eq_iff]; constructor <;> norm_num
  simp only [vFirstResize, resizeCanvas, Viewport.initial, applyInitialZoom, centerGrid,
    drawGridViewport, GRID_SIZE]
  norm_num [h8, hmin, h4, hf]

/-- C5 (as stated, refuted): the first `resizeCanvas()` of a session (the
`applyInitialZoom` branch) on a 399.5 x 100 canvas leaves the 400-pixel grid
wider than the canvas with originX = -1, below width - world = -0.5. -/
theorem resizeCanvas_first_not_clamped : ¬ Clamped vFirstResize := by
  obtain ⟨hw, ht, hx⟩ := vFirstResize_fields
  intro h
  have h1 := h.1.2
  rw [hw, ht, hx] at h1
  have h2 := (h1 (by norm_num [GRID_SIZE])).1
  norm_num [GRID_SIZE] at h2

/-- C5 (amended): from a viewport whose `tilePx` matches its `scale`, the
clamping rule (with centring rounded down to a whole pixel) holds after `onPan`,
`onZoom`, the mouse-move autopan nudge and the `clampPan` branch of
`resizeCanvas`, for all arguments and canvas sizes; after a `resizeCanvas`
that takes one of the two `centerGrid` branches it holds whenever the grid
does not overhang the canvas by less than one pixel on an axis. Each
operation keeps `tilePx` matched to `scale`. -/
theorem clamped_after_origin_mutation (v : Viewport) (hs : TilePxSynced v) :
    (∀ x y : ℚ, Clamped (onPan v x y) ∧ TilePxSynced (onPan v x y)) ∧
    (∀ s x y : ℚ, Clamped (onZoom v s x y) ∧ TilePxSynced (onZoom v s x y)) ∧
    (∀ cx cy : ℚ, Clamped (onMouseMove v cx cy) ∧ TilePxSynced (onMouseMove v cx cy)) ∧
    (∀ rectW rectH innerW innerH : ℚ,
      TilePxSynced (resizeCanvas v rectW rectH innerW innerH) ∧
      (v.initialZoomApplied = true → v.hasCentered = true →
        Clamped (resizeCanvas v rectW rectH innerW innerH)) ∧
      (NoSubpixelOverhang (resizeCanvas v rectW rectH innerW innerH) →
        Clamped (resizeCanvas v rectW rectH innerW innerH))) := by
  refine ⟨?_, ?_, ?_, ?_⟩
  · intro x y
    refine ⟨?_, drawGridViewport_synced _⟩
    exact drawGridViewport_clamped _ (clampPan_synced _ hs) (clampPan_clamped _)
  · intro s x y
    refine ⟨?_, drawGridViewport_synced _⟩
    exact drawGridViewport_clamped _ (clampPan_synced _ rfl) (clampPan_clamped _)
  · intro cx cy
    have hs1 : TilePxSynced (clampPan { v with
        originX := v.originX - (cx - v.width / 2) * v.AUTOPAN_FACTOR
        originY := v.originY - (cy - v.height / 2) * v.AUTOPAN_FACTOR }) :=
      clampPan_synced _ hs
    have hc1 := clampPan_clamped { v with
        originX := v.originX - (cx - v.width / 2) * v.AUTOPAN_FACTOR
        originY := v.originY - (cy - v.height / 2) * v.AUTOPAN_FACTOR }
    have hover : ∀ (w : Viewport) (t : Option (Int × Int)), TilePxSynced w → Clamped w →
        Clamped (drawGridViewport { w with hoverTile := t }) ∧
          TilePxSynced (drawGridViewport { w with hoverTile := t }) := by
      intro w t hsw hcw
      exact ⟨clamped_congr w _ rfl rfl hsw.symm rfl rfl hcw, rfl⟩
    unfold onMouseMove
    simp only
    split
    · split
      · exact ⟨hc1, hs1⟩
      · exact hover _ _ hs1 hc1
    · split
      · exact hover _ _ hs1 hc1
      · exact ⟨hc1, hs1⟩
  · intro rectW rectH innerW innerH
    refine ⟨drawGridViewport_synced _, ?_, ?_⟩
    · intro hz hc
      unfold resizeCanvas
      simp only [hz, hc, Bool.not_true, Bool.false_eq_true, if_false]
      exact drawGridViewport_clamped _ (clampPan_synced _ rfl) (clampPan_clamped _)
    · unfold resizeCanvas
      simp only
      by_cases hz : v.initialZoomApplied = true
      · by_cases hc : v.hasCentered = true
        · intro _
          simp only [hz, hc, Bool.not_true, Bool.false_eq_true, if_false]
          exact drawGridViewport_clamped _ (clampPan_synced _ rfl) (clampPan_clamped _)
        · simp only [hz, hc, Bool.not_true, Bool.not_false, Bool.false_eq_true, if_false,
            if_true]
          intro hn
          exact clamped_congr (centerGrid _) _ rfl rfl rfl rfl rfl
            (centerGrid_clamped _ hn)
      · simp only [hz, Bool.not_false, if_true]
        intro hn
        exact clamped_congr (centerGrid _) _ rfl rfl rfl rfl rfl
          (centerGrid_clamped _ hn)

theorem clamped_after_origin_mutation_witness :
    TilePxSynced vOdd ∧ Clamped (onPan vOdd 7 (-3)) :=
  have hs : TilePxSynced vOdd := by
    show (4 : Int) = max 4 ⌊(8 : ℚ) * (1 / 2)⌋
    have : ⌊(8 : ℚ) * (1 / 2)⌋ = 4 := by
      rw [Int.floor_eq_iff]; constructor <;> norm_num
    rw [this]; rfl
  ⟨hs, ((clamped_after_origin_mutation vOdd hs).1 7 (-3)).1⟩


section OwnershipLemmas

theorem mem_setAdd (xs : List Nat) (x y : Nat) : y ∈ setAdd xs x ↔ y ∈ xs ∨ y = x := by
  unfold setAdd
  by_cases h : x ∈ xs
  · simp only [h, if_true]
    constructor
    · exact Or.inl
    · rintro (h1 | h1)
      · exact h1
      · rw [h1]; exact h
  · simp [h]

theorem subset_setAdd (xs : List Nat) (x : Nat) : xs ⊆ setAdd xs x :=
  fun _ h => (mem_setAdd xs x _).mpr (Or.inl h)

theorem self_mem_setAdd (xs : List Nat) (x : Nat) : x ∈ setAdd xs x :=
  (mem_setAdd xs x x).mpr (Or.inr rfl)

theorem mem_setDelete (xs : List Nat) (x y : Nat) : y ∈ setDelete xs x ↔ y ∈ xs ∧ y ≠ x := by
  unfold setDelete
  simp [List.mem_filter]

theorem mapGet_mapSet_self {α β : Type} [DecidableEq α] (m : List (α × β)) (k : α) (v : β) :
    mapGet (mapSet m k v) k = some v := by
  induction m with
  | nil => simp [mapSet, mapGet]
  | cons p rest ih =>
    obtain ⟨k', v'⟩ := p
    by_cases h : k' = k
    · simp [mapSet, mapGet, h]
    · simp [mapSet, mapGet, h, ih]

theorem mapGet_mapSet_ne {α β : Type} [DecidableEq α] (m : List (α × β)) (k j : α) (v : β)
    (h : j ≠ k) : mapGet (mapSet m k v) j = mapGet m j := by
  induction m with
  | nil => simp [mapSet, mapGet, Ne.symm h]
  | cons p rest ih =>
    obtain ⟨k', v'⟩ := p
    by_cases h1 : k' = k
    · subst h1
      simp [mapSet, mapGet, Ne.symm h]
    · by_cases h2 : k' = j
      · subst h2
        simp [mapSet, mapGet, h1]
      · simp [mapSet, mapGet, h1, h2, ih]

theorem mapGet_objSet_self (m : List (Nat × Option String)) (k : Nat) (v : Option String) :
    mapGet (objSet m k v) k = some v := by
  induction m with
  | nil => simp [objSet, mapGet]
  | cons p rest ih =>
    obtain ⟨k', v'⟩ := p
    by_cases h : k' = k
    · simp [objSet, mapGet, h]
    · by_cases h2 : k < k'
      · simp [objSet, mapGet, h, h2]
      · simp [objSet, mapGet, h, h2, ih]

theorem mapGet_objSet_ne (m : List (Nat × Option String)) (k j : Nat) (v : Option String)
    (h : j ≠ k) : mapGet (objSet m k v) j = mapGet m j := by
  induction m with
  | nil => simp [objSet, mapGet, Ne.symm h]
  | cons p rest ih =>
    obtain ⟨k', v'⟩ := p
    by_cases h1 : k' = k
    · subst h1
      simp [objSet, mapGet, Ne.symm h]
    · by_cases h2 : k < k'
      · simp [objSet, mapGet, h1, h2, Ne.symm h]
      · by_cases h3 : k' = j
        · subst h3
          simp [objSet, mapGet, h1, h2]
        · simp [objSet, mapGet, h1, h2, h3, ih]

theorem orNull_of_not_truthy (v : Option String) (h : ¬ truthy v = true) : orNull v = none := by
  unfold orNull
  rw [if_neg h]

theorem orNull_of_truthy (v : Option String) (h : truthy v = true) : orNull v = v := by
  unfold orNull
  rw [if_pos h]

theorem orNull_orNull (v : Option String) : orNull (orNull v) = orNull v := by
  by_cases h : truthy v = true
  · rw [orNull_of_truthy v h, orNull_of_truthy v h]
  · rw [orNull_of_not_truthy v h]
    rfl

theorem truthy_orNull (v : Option String) : truthy (orNull v) = truthy v := by
  by_cases h : truthy v = true
  · rw [orNull_of_truthy v h]
  · rw [orNull_of_not_truthy v h]
    simp only [Bool.not_eq_true] at h
    rw [h]
    rfl

theorem orNull_eq_some (v : Option String) (u : String) (h : orNull v = some u) :
    v = some u ∧ truthy (some u) = true := by
  unfold orNull at h
  by_cases ht : truthy v = true
  · simp only [ht, if_true] at h
    subst h
    exact ⟨rfl, ht⟩
  · simp [ht] at h

theorem getCachedImage_setCachedImage_self (c : List (Nat × Option String)) (k : Nat)
    (v : Option String) : getCachedImage (setCachedImage c k v) k = orNull v := by
  unfold getCachedImage setCachedImage
  rw [mapGet_objSet_self]
  exact orNull_orNull v

theorem getCachedImage_setCachedImage_ne (c : List (Nat × Option String)) (k j : Nat)
    (v : Option String) (h : j ≠ k) :
    getCachedImage (setCachedImage c k v) j = getCachedImage c j := by
  unfold getCachedImage setCachedImage
  rw [mapGet_objSet_ne _ _ _ _ h]

theorem markTileAsOwned_ownedSet (s : State) (x y : Nat) (u : Option String) :
    (markTileAsOwned s x y u).ownedSet = setAdd s.ownedSet (tileId x y) := by
  unfold markTileAsOwned
  cases orNull u <;> rfl

theorem hydrateEntry_ownedSet (s : State) (e : Nat × Option String) :
    (hydrateEntry s e).ownedSet = setAdd s.ownedSet e.1 := by
  unfold hydrateEntry
  cases orNull e.2 <;> rfl

theorem hydrate_foldl_ownedSet (entries : List (Nat × Option String)) (s : State) :
    s.ownedSet ⊆ (entries.foldl hydrateEntry s).ownedSet := by
  induction entries generalizing s with
  | nil => exact fun _ h => h
  | cons e rest ih =>
    intro a ha
    apply ih (hydrateEntry s e)
    rw [hydrateEntry_ownedSet]
    exact subset_setAdd _ _ ha

theorem thenLoadContinue_ownedSet (s : State) (id : Nat) (url : String) (h : LoadHandle)
    (a : Option Img) : (thenLoadContinue s id url h a).ownedSet = s.ownedSet := by
  unfold thenLoadContinue
  cases h.result a <;> rfl

theorem mintAfterMeta_ownedSet (s : State) (id : Nat) (u : Option String) :
    (mintAfterMeta s id u).ownedSet = s.ownedSet := by
  unfold mintAfterMeta
  cases orNull u <;> rfl

theorem mintAfterLoad_ownedSet (s : State) (id : Nat) (url : String) (h : LoadHandle)
    (a : Option Img) (r : Bool) :
    s.ownedSet ⊆ (mintAfterLoad s id url h a r).ownedSet := by
  unfold mintAfterLoad
  cases h.result a <;> cases r <;> simp [mintCatch, subset_setAdd]

theorem refreshAfterMeta_ownedSet (s : State) (id : Nat) (u : Option String) :
    (refreshAfterMeta s id u).ownedSet = s.ownedSet := by
  unfold refreshAfterMeta
  cases orNull u with
  | none => rfl
  | some url =>
    simp only
    split <;> rfl

theorem refreshAfterLoad_ownedSet (s : State) (id : Nat) (url : String) (h : LoadHandle)
    (a : Option Img) : (refreshAfterLoad s id url h a).ownedSet = s.ownedSet := by
  unfold refreshAfterLoad
  cases h.result a <;> rfl

theorem loadMintedTilesOnStartup_ownedSet (s : State) (rpc : RpcEnv) :
    (loadMintedTilesOnStartup s rpc).ownedSet = s.ownedSet := by
  unfold loadMintedTilesOnStartup
  split
  · rfl
  · split
    · rfl
    · rfl
    · split <;> rfl

theorem resume_ownedSet (s0 s1 : State) (t : Task) (sig : Signal)
    (h : resume s0 t sig = some s1) : s0.ownedSet ⊆ s1.ownedSet := by
  cases t <;> cases sig <;> simp only [resume, Option.some.injEq] at h <;>
    first
      | exact absurd h (by simp)
      | (subst h
         first
           | exact fun _ h => h
           | exact subset_setAdd _ _
           | exact mintAfterLoad_ownedSet _ _ _ _ _ _
           | (simp only [thenLoadContinue_ownedSet, mintAfterMeta_ownedSet,
                refreshAfterMeta_ownedSet, refreshAfterLoad_ownedSet, markTileAsOwned_ownedSet,
                mintCatch]
              first
                | exact fun _ h => h
                | exact subset_setAdd _ _))

theorem settle_ownedSet (s : State) (i : Nat) (sig : Signal) :
    s.ownedSet ⊆ (settle s i sig).ownedSet := by
  unfold settle
  cases s.tasks.get? i with
  | none => exact fun _ h => h
  | some t =>
    simp only
    cases hr : resume { s with tasks := s.tasks.eraseIdx i } t sig with
    | none => exact fun _ h => h
    | some s1 =>
      exact resume_ownedSet { s with tasks := s.tasks.eraseIdx i } s1 t sig hr

theorem settle_append_last (s : State) (t : Task) (sig : Signal) :
    settle { s with tasks := s.tasks ++ [t] } s.tasks.length sig =
      match resume s t sig with
      | some s1 => s1
      | none => { s with tasks := s.tasks ++ [t] } := by
  unfold settle
  have h1 : (s.tasks ++ [t]).get? s.tasks.length = some t := by simp
  have h2 : (s.tasks ++ [t]).eraseIdx s.tasks.length = s.tasks := by
    rw [List.eraseIdx_append_of_length_le (le_refl _)]
    simp
  simp only [h1, h2]

theorem step_ownedSet (s : State) (e : Event) : s.ownedSet ⊆ (step s e).ownedSet := by
  cases e with
  | markTileAsOwned x y u =>
    show s.ownedSet ⊆ (markTileAsOwned s x y u).ownedSet
    rw [markTileAsOwned_ownedSet]
    exact subset_setAdd _ _
  | hydrateFromCache => exact hydrate_foldl_ownedSet _ s
  | handleMintOrTransfer t => exact subset_setAdd _ _
  | refreshPendingReveals => exact fun _ h => h
  | loadMintedTilesOnStartup rpc =>
    show s.ownedSet ⊆ (loadMintedTilesOnStartup s rpc).ownedSet
    rw [loadMintedTilesOnStartup_ownedSet]
    exact fun _ h => h
  | settle i sig => exact settle_ownedSet s i sig

end OwnershipLemmas

/-- C2: every transition of the ownership state (a call of `markTileAsOwned`,
`hydrateFromCache`, `handleMintOrTransfer`, `refreshPendingReveals`,
`loadMintedTilesOnStartup`, or the resumption of any of their continuations,
the `catch` path of `handleMintOrTransfer` included) keeps `ownedSet` a
superset of what it was, so no sequence of them removes a tile id. -/
theorem ownedSet_monotone (s : State) (events : List Event) :
    s.ownedSet ⊆ (run s events).ownedSet := by
  induction events generalizing s with
  | nil => exact fun _ h => h
  | cons e rest ih =>
    exact fun a ha => ih (step s e) (step_ownedSet s e ha)

/-- C3 (the code at the failing input): after `markTileAsOwned(0, 0, artUrl)`
whose image request fails, no load is pending and tile 0 is owned but neither
in `tileImages` nor in `logoTiles`, so it is in none of the three classes. -/
theorem markTileAsOwned_load_failure_unclassified :
    sLoadFailed.tasks = [] ∧ 0 ∈ sLoadFailed.ownedSet ∧
      sLoadFailed.hasImage 0 = false ∧ 0 ∉ sLoadFailed.logoTiles := by
  decide

section RefreshLemmas

theorem settle_of_get (s : State) (i : Nat) (t : Task) (sig : Signal)
    (ht : s.tasks.get? i = some t) :
    settle s i sig =
      match resume { s with tasks := s.tasks.eraseIdx i } t sig with
      | some s1 => s1
      | none => s := by
  unfold settle
  rw [ht]

/-- The guard of line 118 in terms of the resolver's answer. -/
theorem refreshAfterMeta_skip (s : State) (id : Nat) (u : Option String)
    (h : ¬ (truthy u = true ∧ isPlaceholderUrl u = false ∧
      orNull u ≠ getCachedImage s.imageCachePersist id)) :
    refreshAfterMeta s id u = s := by
  unfold refreshAfterMeta
  cases ho : orNull u with
  | none => rfl
  | some url =>
    obtain ⟨hu, htr⟩ := orNull_eq_some u url ho
    subst hu
    simp only
    split
    · rename_i hc
      exfalso
      apply h
      simp only [Bool.and_eq_true, Bool.not_eq_true', beq_eq_false_iff_ne, ne_eq] at hc
      exact ⟨htr, hc.1, by rw [ho]; exact hc.2⟩
    · rfl

theorem refreshAfterMeta_update (s : State) (id : Nat) (url : String)
    (ht : truthy (some url) = true) (hp : isPlaceholderUrl (some url) = false)
    (hd : some url ≠ getCachedImage s.imageCachePersist id) :
    refreshAfterMeta s id (some url) =
      { s with
        imageCachePersist := setCachedImage s.imageCachePersist id (some url)
        tasks := s.tasks ++ [Task.refreshLoad id url (loadImage s.imageCache url)] } := by
  unfold refreshAfterMeta
  rw [orNull_of_truthy _ ht]
  simp only [hp, Bool.not_false, Bool.true_and, Bool.not_eq_true', beq_eq_false_iff_ne, ne_eq]
  rw [if_pos hd]

theorem refreshAfterLoad_success (s : State) (id : Nat) (url : String) (h : LoadHandle)
    (arrived : Option Img) (img : Img) (hr : h.result arrived = some img) :
    mapGet (refreshAfterLoad s id url h arrived).tileImages id = some img ∧
      id ∉ (refreshAfterLoad s id url h arrived).logoTiles ∧
      (refreshAfterLoad s id url h arrived).imageCachePersist = s.imageCachePersist := by
  unfold refreshAfterLoad
  rw [hr]
  refine ⟨mapGet_mapSet_self _ _ _, ?_, rfl⟩
  intro hmem
  exact ((mem_setDelete _ _ _).mp hmem).2 rfl

end RefreshLemmas

/-- C6 (as stated, refuted): tile 0 is owned, its cached URL `artUrl` is not a
placeholder and its image failed to load. The next pass selects tile 0, the
resolver returns `artUrl` again, and the pass ends without having requested
the image: no continuation is left that could receive a loaded image, and
tile 0 is still absent from `tileImages`. -/
theorem refresh_same_url_does_not_retry :
    (0 ∈ sLoadFailed.ownedSet ∧
      getCachedImage sLoadFailed.imageCachePersist 0 = some artUrl ∧
      isPlaceholderUrl (some artUrl) = false ∧ sLoadFailed.hasImage 0 = false) ∧
    (refreshPendingReveals sLoadFailed).tasks = [Task.refreshMeta 0] ∧
    sRefreshSameUrl.tasks = [] ∧ sRefreshSameUrl.hasImage 0 = false ∧
    (∀ (i : Nat) (img : Img) (r : Bool),
      (settle sRefreshSameUrl i (Signal.image (some img) r)).hasImage 0 = false) := by
  refine ⟨by decide, by decide, by decide, by decide, ?_⟩
  intro i img r
  have h : sRefreshSameUrl.tasks.get? i = none := by
    have : sRefreshSameUrl.tasks = [] := by decide
    rw [this]
    rfl
  unfold settle
  rw [h]
  show sRefreshSameUrl.hasImage 0 = false
  decide

/-- C6 (amended): for a tile whose cached URL is `u`, a re-resolution task to
which the resolver returns `u` again ends without touching the state and
without requesting the image, so a tile whose load of `u` failed stays out of
`tileImages`; the image is requested only for a non-placeholder URL different
from `u`, and if that load succeeds the tile is in `tileImages` afterwards. -/
theorem refresh_retries_only_new_url (s : State) (i id : Nat) (u : String)
    (ht : s.tasks.get? i = some (Task.refreshMeta id))
    (hc : getCachedImage s.imageCachePersist id = some u) :
    settle s i (Signal.meta (some u)) = { s with tasks := s.tasks.eraseIdx i } ∧
    (∀ (v : String) (arrived : Option Img) (r : Bool) (img : Img),
      truthy (some v) = true → isPlaceholderUrl (some v) = false → v ≠ u →
      (loadImage s.imageCache v).result arrived = some img →
      (settle (settle s i (Signal.meta (some v)))
        ((settle s i (Signal.meta (some v))).tasks.length - 1)
        (Signal.image arrived r)).hasImage id = true) := by
  constructor
  · rw [settle_of_get s i _ _ ht]
    simp only [resume]
    apply refreshAfterMeta_skip
    rintro ⟨h1, -, h3⟩
    apply h3
    rw [orNull_of_truthy _ h1]
    exact hc.symm
  · intro v arrived r img hv hp hne hload
    rw [settle_of_get s i _ _ ht]
    simp only [resume]
    rw [refreshAfterMeta_update { s with tasks := s.tasks.eraseIdx i } id v hv hp (by
      show some v ≠ getCachedImage s.imageCachePersist id
      rw [hc]
      intro h
      exact hne (Option.some.inj h))]
    simp only [List.length_append, List.length_singleton, Nat.add_sub_cancel]
    have := settle_append_last
      { s with
        tasks := s.tasks.eraseIdx i
        imageCachePersist := setCachedImage s.imageCachePersist id (some v) }
      (Task.refreshLoad id v (loadImage s.imageCache v)) (Signal.image arrived r)
    simp only [resume] at this
    rw [this]
    unfold State.hasImage
    rw [(refreshAfterLoad_success _ id v _ arrived img hload).1]
    rfl

theorem refresh_retries_only_new_url_witness :
    (sLoadFailed.tasks ++ [Task.refreshMeta 0]).get? 0 = some (Task.refreshMeta 0) ∧
      getCachedImage sLoadFailed.imageCachePersist 0 = some artUrl ∧
      settle (refreshPendingReveals sLoadFailed) 0 (Signal.meta (some artUrl)) =
        { refreshPendingReveals sLoadFailed with
          tasks := (refreshPendingReveals sLoadFailed).tasks.eraseIdx 0 } :=
  ⟨by decide, by decide,
    (refresh_retries_only_new_url (refreshPendingReveals sLoadFailed) 0 0 artUrl
      (by decide) (by decide)).1⟩

section ReplayLemmas

/-- When every call from the current attempt up to the last retry fails,
`rpcCallWithRetry` rethrows. -/
theorem rpcCallWithRetryLoop_all_fail {ε α : Type} (fn : Nat → Except ε α)
    (retries baseDelay : Nat) (random : Nat → ℚ) :
    ∀ (n attempt : Nat) (delays : List Int), retries - attempt = n → attempt ≤ retries →
      (∀ a, attempt ≤ a → a ≤ retries → ∃ e, fn a = Except.error e) →
      ∃ e, (rpcCallWithRetryLoop fn retries baseDelay random attempt delays).result =
        Except.error e := by
  intro n
  induction n with
  | zero =>
    intro attempt delays hn hle hfail
    obtain ⟨e, he⟩ := hfail attempt (le_refl _) hle
    rw [rpcCallWithRetryLoop, he]
    have : attempt + 1 > retries := by omega
    simp only [this, if_true]
    exact ⟨e, rfl⟩
  | succ n ih =>
    intro attempt delays hn hle hfail
    obtain ⟨e, he⟩ := hfail attempt (le_refl _) hle
    rw [rpcCallWithRetryLoop, he]
    have : ¬ attempt + 1 > retries := by omega
    simp only [this, if_false]
    exact ih (attempt + 1) _ (by omega) (by omega)
      (fun a h1 h2 => hfail a (by omega) h2)

theorem rpcCallWithRetry_all_fail {ε α : Type} (fn : Nat → Except ε α)
    (retries baseDelay : Nat) (random : Nat → ℚ)
    (hfail : ∀ a, a ≤ retries → ∃ e, fn a = Except.error e) :
    ∃ e, (rpcCallWithRetry fn retries baseDelay random).result = Except.error e :=
  rpcCallWithRetryLoop_all_fail fn retries baseDelay random retries 0 [] rfl (Nat.zero_le _)
    (fun a _ h => hfail a h)

theorem rpcCallWithRetry_first_ok {ε α : Type} (fn : Nat → Except ε α)
    (retries baseDelay : Nat) (random : Nat → ℚ) (v : α) (h : fn 0 = Except.ok v) :
    (rpcCallWithRetry fn retries baseDelay random).result = Except.ok v := by
  unfold rpcCallWithRetry
  rw [rpcCallWithRetryLoop, h]

/-- One iteration of the loop of `getLogsBatched` with the chunk size of the replay. -/
theorem getLogsBatchedLoop_succ (rpc : RpcEnv) (latest : Int) (fuel : Nat) (start : Int)
    (logs : List Log) :
    getLogsBatchedLoop rpc latest 200000 (fuel + 1) start logs =
      if start ≤ latest then
        match fetchChunk rpc latest start with
        | Except.ok batchLogs =>
          getLogsBatchedLoop rpc latest 200000 fuel (start + 200000) (logs ++ batchLogs)
        | Except.error err => some (Except.error err)
      else some (Except.ok logs) := rfl

/-- A sub-range whose fetch fails makes the loop end with an error (its own
or that of an earlier sub-range). -/
theorem getLogsBatchedLoop_error (rpc : RpcEnv) (latest : Int) :
    ∀ (j fuel : Nat) (start : Int) (logs : List Log), j + 1 ≤ fuel →
      start + (j : Int) * 200000 ≤ latest →
      (∃ e, fetchChunk rpc latest (start + (j : Int) * 200000) = Except.error e) →
      ∃ e, getLogsBatchedLoop rpc latest 200000 fuel start logs = some (Except.error e) := by
  intro j
  induction j with
  | zero =>
    intro fuel start logs hf hle hfail
    obtain ⟨f, rfl⟩ : ∃ f, fuel = f + 1 := ⟨fuel - 1, by omega⟩
    simp only [Nat.cast_zero, zero_mul, add_zero] at hle hfail
    obtain ⟨e, he⟩ := hfail
    rw [getLogsBatchedLoop_succ, if_pos hle, he]
    exact ⟨e, rfl⟩
  | succ j ih =>
    intro fuel start logs hf hle hfail
    obtain ⟨f, rfl⟩ : ∃ f, fuel = f + 1 := ⟨fuel - 1, by omega⟩
    have hstart : start ≤ latest := by
      have : (0 : Int) ≤ ((j + 1 : Nat) : Int) * 200000 := by positivity
      linarith
    rw [getLogsBatchedLoop_succ, if_pos hstart]
    cases hc : fetchChunk rpc latest start with
    | error e => exact ⟨e, rfl⟩
    | ok batch =>
      simp only
      have e1 : start + 200000 + (j : Int) * 200000 = start + ((j + 1 : Nat) : Int) * 200000 := by
        push_cast; ring
      apply ih f (start + 200000) _ (by omega)
      · rw [e1]; exact hle
      · rw [e1]; exact hfail

/-- When the loop ends normally, the logs of every sub-range it covered are in
its result. -/
theorem getLogsBatchedLoop_ok (rpc : RpcEnv) (latest : Int) :
    ∀ (fuel : Nat) (start : Int) (acc logs : List Log),
      getLogsBatchedLoop rpc latest 200000 fuel start acc = some (Except.ok logs) →
      acc ⊆ logs ∧
      ∀ (j : Nat) (batch : List Log), start + (j : Int) * 200000 ≤ latest →
        fetchChunk rpc latest (start + (j : Int) * 200000) = Except.ok batch → batch ⊆ logs := by
  intro fuel
  induction fuel with
  | zero =>
    intro start acc logs h
    simp [getLogsBatchedLoop] at h
  | succ f ih =>
    intro start acc logs h
    rw [getLogsBatchedLoop_succ] at h
    by_cases hs : start ≤ latest
    · rw [if_pos hs] at h
      cases hc : fetchChunk rpc latest start with
      | error e =>
        rw [hc] at h
        simp at h
      | ok b =>
        rw [hc] at h
        simp only at h
        obtain ⟨h1, h2⟩ := ih (start + 200000) (acc ++ b) logs h
        refine ⟨fun x hx => h1 (List.mem_append_left _ hx), ?_⟩
        intro j batch hle hb
        cases j with
        | zero =>
          simp only [Nat.cast_zero, zero_mul, add_zero] at hb
          rw [hc] at hb
          cases hb
          exact fun x hx => h1 (List.mem_append_right _ hx)
        | succ j =>
          have e1 : start + ((j + 1 : Nat) : Int) * 200000 = start + 200000 + (j : Int) * 200000 := by
            push_cast; ring
          rw [e1] at hle hb
          exact h2 j batch hle hb
    · rw [if_neg hs] at h
      cases h
      refine ⟨fun _ hx => hx, ?_⟩
      intro j batch hle _
      exfalso
      have : (0 : Int) ≤ (j : Int) * 200000 := by positivity
      exact hs (by linarith)

/-- With every sub-range fetched successfully and fuel for every iteration and
the final test, the loop ends normally. -/
theorem getLogsBatchedLoop_terminates (rpc : RpcEnv) (latest : Int) :
    ∀ (fuel : Nat) (start : Int) (acc : List Log), 1 ≤ fuel →
      latest - start < ((fuel : Int) - 1) * 200000 →
      (∀ j : Nat, start + (j : Int) * 200000 ≤ latest →
        ∃ batch, fetchChunk rpc latest (start + (j : Int) * 200000) = Except.ok batch) →
      ∃ logs, getLogsBatchedLoop rpc latest 200000 fuel start acc = some (Except.ok logs) := by
  intro fuel
  induction fuel with
  | zero =>
    intro start acc h1
    omega
  | succ f ih =>
    intro start acc _ hlt hall
    rw [getLogsBatchedLoop_succ]
    push_cast at hlt
    by_cases hs : start ≤ latest
    · rw [if_pos hs]
      obtain ⟨b, hb⟩ := hall 0 (by simp only [Nat.cast_zero, zero_mul, add_zero]; exact hs)
      simp only [Nat.cast_zero, zero_mul, add_zero] at hb
      rw [hb]
      simp only
      have hf : 1 ≤ f := by
        by_contra hc
        have : f = 0 := by omega
        subst this
        simp only [Nat.cast_zero] at hlt
        linarith
      apply ih (start + 200000) _ hf
      · linarith
      · intro j hj
        have e1 : start + 200000 + (j : Int) * 200000 = start + ((j + 1 : Nat) : Int) * 200000 := by
          push_cast; ring
        rw [e1] at hj ⊢
        exact hall (j + 1) hj
    · rw [if_neg hs]
      exact ⟨acc, rfl⟩

theorem fetchChunk_error_of_all_fail (rpc : RpcEnv) (latest start : Int)
    (hfail : ∀ a : Nat, a ≤ 4 → ∃ e, rpc.getLogs start
      (if start + 200000 - 1 > latest then latest else start + 200000 - 1) a =
        Except.error e) :
    ∃ e, fetchChunk rpc latest start = Except.error e :=
  rpcCallWithRetry_all_fail _ 4 400 rpc.random hfail

/-- A sub-range whose fetch fails makes `loadMintedTilesOnStartup` return
without touching the state. -/
theorem loadMintedTilesOnStartup_abandons (s : State) (rpc : RpcEnv) (latest k : Nat)
    (hl : (rpcCallWithRetry rpc.getBlockNumber 4 400 rpc.random).result = Except.ok latest)
    (hk : (k : Int) * 200000 ≤ latest)
    (hfail : ∃ e, fetchChunk rpc latest ((k : Int) * 200000) = Except.error e) :
    loadMintedTilesOnStartup s rpc = s := by
  unfold loadMintedTilesOnStartup
  rw [hl]
  simp only
  have hk' : k * 200000 ≤ latest := by exact_mod_cast hk
  have hfuel : k + 1 ≤ latest / 200000 + 2 := by
    have : k ≤ latest / 200000 := (Nat.le_div_iff_mul_le (by norm_num)).mpr hk'
    omega
  obtain ⟨e, he⟩ := getLogsBatchedLoop_error rpc latest k (latest / 200000 + 2) 0 [] hfuel
    (by rw [zero_add]; exact hk) (by rw [zero_add]; exact hfail)
  unfold getLogsBatched
  rw [he]

/-- With every sub-range fetched successfully, `loadMintedTilesOnStartup`
queues a task for every parsable log of every sub-range. -/
theorem loadMintedTilesOnStartup_tasks (s : State) (rpc : RpcEnv) (latest : Nat)
    (hl : (rpcCallWithRetry rpc.getBlockNumber 4 400 rpc.random).result = Except.ok latest)
    (hall : ∀ k : Nat, (k : Int) * 200000 ≤ latest →
      ∃ batch, fetchChunk rpc latest ((k : Int) * 200000) = Except.ok batch)
    (k : Nat) (batch : List Log) (a : MintedArgs) (hk : (k : Int) * 200000 ≤ latest)
    (hb : fetchChunk rpc latest ((k : Int) * 200000) = Except.ok batch)
    (ha : ({ parsed := some a } : Log) ∈ batch) :
    Task.replayMeta a.x a.y a.tokenId ∈ (loadMintedTilesOnStartup s rpc).tasks := by
  have hfuel : (latest : Int) - 0 < (((latest / 200000 + 2 : Nat) : Int) - 1) * 200000 := by
    have h1 : latest < (latest / 200000 + 1) * 200000 := by
      have := Nat.div_add_mod latest 200000
      have := Nat.mod_lt latest (show 0 < 200000 by norm_num)
      omega
    have h2 : ((latest : Nat) : Int) < (((latest / 200000 + 1) * 200000 : Nat) : Int) := by
      exact_mod_cast h1
    push_cast at h2 ⊢
    linarith
  obtain ⟨logs, hlogs⟩ := getLogsBatchedLoop_terminates rpc latest (latest / 200000 + 2) 0 []
    (by omega) hfuel (by
      intro j hj
      rw [zero_add] at hj ⊢
      exact hall j hj)
  obtain ⟨-, hsub⟩ := getLogsBatchedLoop_ok rpc latest _ _ _ _ hlogs
  have hmem : ({ parsed := some a } : Log) ∈ logs :=
    hsub k batch (by rw [zero_add]; exact hk) (by rw [zero_add]; exact hb) ha
  unfold loadMintedTilesOnStartup
  rw [hl]
  simp only
  unfold getLogsBatched
  rw [hlogs]
  simp only
  have hne : logs.isEmpty = false := by
    cases logs with
    | nil => cases hmem
    | cons _ _ => rfl
  rw [hne]
  simp only [Bool.false_eq_true, if_false]
  apply List.mem_append_right
  unfold replayTasks
  rw [List.mem_filterMap]
  exact ⟨_, hmem, rfl⟩

theorem thenLoadContinue_tasks (s : State) (id : Nat) (url : String) (h : LoadHandle)
    (a : Option Img) : (thenLoadContinue s id url h a).tasks = s.tasks := by
  unfold thenLoadContinue
  cases h.result a <;> rfl

theorem mintAfterMeta_tasks (s : State) (id : Nat) (u : Option String) :
    s.tasks ⊆ (mintAfterMeta s id u).tasks := by
  unfold mintAfterMeta
  cases orNull u <;> exact fun _ h => List.mem_append_left _ h

theorem mintAfterLoad_tasks (s : State) (id : Nat) (url : String) (h : LoadHandle)
    (a : Option Img) (r : Bool) : s.tasks ⊆ (mintAfterLoad s id url h a r).tasks := by
  unfold mintAfterLoad
  cases h.result a <;> cases r <;>
    first
      | exact fun _ h => h
      | exact fun _ h => List.mem_append_left _ h

theorem refreshAfterMeta_tasks (s : State) (id : Nat) (u : Option String) :
    s.tasks ⊆ (refreshAfterMeta s id u).tasks := by
  unfold refreshAfterMeta
  cases orNull u with
  | none => exact fun _ h => h
  | some url =>
    simp only
    split
    · exact fun _ h => List.mem_append_left _ h
    · exact fun _ h => h

theorem refreshAfterLoad_tasks (s : State) (id : Nat) (url : String) (h : LoadHandle)
    (a : Option Img) : (refreshAfterLoad s id url h a).tasks = s.tasks := by
  unfold refreshAfterLoad
  cases h.result a <;> rfl

theorem markTileAsOwned_tasks (s : State) (x y : Nat) (u : Option String) :
    s.tasks ⊆ (markTileAsOwned s x y u).tasks := by
  unfold markTileAsOwned
  cases orNull u with
  | none => exact fun _ h => h
  | some url => exact fun _ h => List.mem_append_left _ h

theorem resume_tasks (s0 s1 : State) (t : Task) (sig : Signal)
    (h : resume s0 t sig = some s1) : s0.tasks ⊆ s1.tasks := by
  cases t <;> cases sig <;> simp only [resume, Option.some.injEq] at h <;>
    first
      | exact absurd h (by simp)
      | (subst h
         first
           | exact fun _ h => h
           | exact mintAfterMeta_tasks _ _ _
           | exact mintAfterLoad_tasks _ _ _ _ _ _
           | exact refreshAfterMeta_tasks _ _ _
           | exact markTileAsOwned_tasks _ _ _ _
           | (rw [thenLoadContinue_tasks]; exact fun _ h => h)
           | (rw [refreshAfterLoad_tasks]; exact fun _ h => h))

theorem resume_replayMeta_owned (s0 s1 : State) (x y tk : Nat) (sig : Signal)
    (h : resume s0 (Task.replayMeta x y tk) sig = some s1) : tileId x y ∈ s1.ownedSet := by
  cases sig <;> simp only [resume, Option.some.injEq] at h <;>
    first
      | exact absurd h (by simp)
      | (subst h
         rw [markTileAsOwned_ownedSet]
         exact self_mem_setAdd _ _)

theorem hydrate_foldl_tasks (entries : List (Nat × Option String)) (s : State) :
    s.tasks ⊆ (entries.foldl hydrateEntry s).tasks := by
  induction entries generalizing s with
  | nil => exact fun _ h => h
  | cons e rest ih =>
    intro a ha
    apply ih (hydrateEntry s e)
    unfold hydrateEntry
    cases orNull e.2 with
    | none => exact ha
    | some url => exact List.mem_append_left _ ha

/-- A queued replay task stays queued until it has marked its tile owned. -/
theorem step_replay_progress (s : State) (e : Event) (x y tk : Nat)
    (h : Task.replayMeta x y tk ∈ s.tasks) :
    tileId x y ∈ (step s e).ownedSet ∨ Task.replayMeta x y tk ∈ (step s e).tasks := by
  cases e with
  | markTileAsOwned x' y' u =>
    exact Or.inr (markTileAsOwned_tasks s x' y' u h)
  | hydrateFromCache => exact Or.inr (hydrate_foldl_tasks _ s h)
  | handleMintOrTransfer t => exact Or.inr (List.mem_append_left _ h)
  | refreshPendingReveals => exact Or.inr (List.mem_append_left _ h)
  | loadMintedTilesOnStartup rpc =>
    right
    show _ ∈ (loadMintedTilesOnStartup s rpc).tasks
    unfold loadMintedTilesOnStartup
    split
    · exact h
    · split
      · exact h
      · exact h
      · split
        · exact h
        · exact List.mem_append_left _ h
  | settle i sig =>
    show _ ∈ (settle s i sig).ownedSet ∨ _ ∈ (settle s i sig).tasks
    unfold settle
    cases hg : s.tasks.get? i with
    | none => exact Or.inr h
    | some t =>
      simp only
      cases hr : resume { s with tasks := s.tasks.eraseIdx i } t sig with
      | none => exact Or.inr h
      | some s1 =>
        simp only
        by_cases ht : t = Task.replayMeta x y tk
        · subst ht
          exact Or.inl (resume_replayMeta_owned _ _ _ _ _ _ hr)
        · right
          apply resume_tasks _ _ _ _ hr
          show Task.replayMeta x y tk ∈ s.tasks.eraseIdx i
          rw [List.mem_eraseIdx_iff_getElem?]
          obtain ⟨j, hj⟩ := List.mem_iff_get?.mp h
          refine ⟨j, ?_, by rw [← List.get?_eq_getElem?]; exact hj⟩
          intro hji
          subst hji
          rw [hj] at hg
          exact ht (Option.some.inj hg).symm

theorem run_replay_progress (events : List Event) :
    ∀ (s : State) (x y tk : Nat),
      (tileId x y ∈ s.ownedSet ∨ Task.replayMeta x y tk ∈ s.tasks) →
      tileId x y ∈ (run s events).ownedSet ∨ Task.replayMeta x y tk ∈ (run s events).tasks := by
  induction events with
  | nil => exact fun _ _ _ _ h => h
  | cons e rest ih =>
    intro s x y tk h
    apply ih (step s e)
    rcases h with h | h
    · exact Or.inl (step_ownedSet s e h)
    · exact step_replay_progress s e x y tk h

end ReplayLemmas

/-- C8 (as stated, refuted): the provider is at block 300000; the fetch of
blocks 0..199999 succeeds with a log minting tile (5, 12), the fetch of blocks
200000..300000 fails on every attempt. The replay then returns with nothing
queued and tile 512 is not owned. -/
theorem replay_one_failed_chunk_drops_all :
    fetchChunk rpcOneBad 300000 0 =
        Except.ok [{ parsed := some { tokenId := 512, x := 5, y := 12 } }] ∧
      (∀ a : Nat, rpcOneBad.getLogs 200000 300000 a = Except.error "rate limited") ∧
      (loadMintedTilesOnStartup State.empty rpcOneBad).tasks = [] ∧
      tileId 5 12 ∉ (loadMintedTilesOnStartup State.empty rpcOneBad).ownedSet := by
  have h0 : fetchChunk rpcOneBad 300000 0 =
      Except.ok [{ parsed := some { tokenId := 512, x := 5, y := 12 } }] :=
    rpcCallWithRetry_first_ok _ 4 400 _ _ rfl
  have hl : (rpcCallWithRetry rpcOneBad.getBlockNumber 4 400 rpcOneBad.random).result =
      Except.ok 300000 := rpcCallWithRetry_first_ok _ 4 400 _ _ rfl
  have hbad : ∃ e, fetchChunk rpcOneBad ((300000 : Nat) : Int) (((1 : Nat) : Int) * 200000) =
      Except.error e :=
    fetchChunk_error_of_all_fail rpcOneBad _ _ (fun a _ => ⟨"rate limited", rfl⟩)
  have hs := loadMintedTilesOnStartup_abandons State.empty rpcOneBad 300000 1 hl
    (by norm_num) hbad
  refine ⟨h0, fun a => rfl, ?_, ?_⟩
  · rw [hs]; rfl
  · rw [hs]; decide

/-- C8 (amended): let the replay cover `[0, latest]` in sub-ranges of 200000
blocks. If the fetch of one sub-range fails on every attempt (the first call
and its four retries), `loadMintedTilesOnStartup` leaves the Ownership State
unchanged and queues nothing, whatever the other sub-ranges returned. If every
sub-range is fetched successfully, then for every parsable log of every
sub-range the minted tile is owned once no replay task for that log is left
suspended, whatever else happened in between. -/
theorem replay_all_or_nothing (s : State) (rpc : RpcEnv) (latest : Nat)
    (hl : (rpcCallWithRetry rpc.getBlockNumber 4 400 rpc.random).result = Except.ok latest) :
    (∀ k : Nat, (k : Int) * 200000 ≤ latest →
      (∀ a : Nat, a ≤ 4 → ∃ e, rpc.getLogs ((k : Int) * 200000)
        (if (k : Int) * 200000 + 200000 - 1 > latest then (latest : Int)
         else (k : Int) * 200000 + 200000 - 1) a = Except.error e) →
      loadMintedTilesOnStartup s rpc = s) ∧
    ((∀ k : Nat, (k : Int) * 200000 ≤ latest →
        ∃ batch, fetchChunk rpc latest ((k : Int) * 200000) = Except.ok batch) →
      ∀ (k : Nat) (batch : List Log) (a : MintedArgs), (k : Int) * 200000 ≤ latest →
        fetchChunk rpc latest ((k : Int) * 200000) = Except.ok batch →
        ({ parsed := some a } : Log) ∈ batch →
        ∀ events : List Event,
          Task.replayMeta a.x a.y a.tokenId ∉
            (run (loadMintedTilesOnStartup s rpc) events).tasks →
          tileId a.x a.y ∈ (run (loadMintedTilesOnStartup s rpc) events).ownedSet) := by
  constructor
  · intro k hk hfail
    exact loadMintedTilesOnStartup_abandons s rpc latest k hl hk
      (fetchChunk_error_of_all_fail rpc _ _ hfail)
  · intro hall k batch a hk hb ha events hdone
    have hq := loadMintedTilesOnStartup_tasks s rpc latest hl hall k batch a hk hb ha
    rcases run_replay_progress events _ a.x a.y a.tokenId (Or.inr hq) with h | h
    · exact h
    · exact absurd h hdone

theorem replay_all_or_nothing_witness :
    (rpcCallWithRetry rpcOneBad.getBlockNumber 4 400 rpcOneBad.random).result =
        Except.ok 300000 ∧
      loadMintedTilesOnStartup sLoadFailed rpcOneBad = sLoadFailed :=
  have hl : (rpcCallWithRetry rpcOneBad.getBlockNumber 4 400 rpcOneBad.random).result =
      Except.ok 300000 := rpcCallWithRetry_first_ok _ 4 400 _ _ rfl
  ⟨hl, (replay_all_or_nothing sLoadFailed rpcOneBad 300000 hl).1 1 (by norm_num)
    (fun a _ => ⟨"rate limited", rfl⟩)⟩

/-- C9 (as stated, refuted): the wallet contract's `tokenURI` yields a document
with neither `image` nor `image_url`, the read-only contract's `tokenURI` would
yield a document with an image. `fetchTokenMetadata` returns the first
source's outcome, without an image URL, and does not try the next source. -/
theorem fetchTokenMetadata_stops_at_document_without_image :
    tryReadOnlyTokenURI envBareFirst 7 =
        Except.ok (some { imageUrl := some artUrl, raw := some (Sum.inl artDoc),
                          source := "readonly:tokenURI" }) ∧
      fetchTokenMetadata envBareFirst 7 =
        Except.ok { imageUrl := none, raw := some (Sum.inl bareDoc),
                    source := "erc721:tokenURI" } := by
  constructor <;> rfl

section MetadataLemmas

theorem fetchJsonOrNull_eq_some (env : MetaEnv) (url : String) (json : JsonDoc) :
    fetchJsonOrNull env url = some json ↔ env.fetchJson url = Except.ok (some json) := by
  unfold fetchJsonOrNull
  constructor
  · intro h
    split at h
    · rename_i j hj
      cases h
      exact hj
    · cases h
  · intro h
    rw [h]

/-- The first attempt returns exactly when the wallet contract's `tokenURI`
gives a locator, the document behind it parses, and its image value can be
normalised. -/
theorem tryWalletTokenURI_eq_some (env : MetaEnv) (tokenId : Nat) (r : TokenMetadata) :
    tryWalletTokenURI env tokenId = Except.ok (some r) ↔
      ∃ (tokenURI : Nat → Except String String) (uri : String) (json : JsonDoc)
          (imageUrl : Option String),
        env.walletTokenURI = some tokenURI ∧ tokenURI tokenId = Except.ok uri ∧
        env.fetchJson (resolveIPFS uri) = Except.ok (some json) ∧
        resolveIPFSValue (json.image.or json.image_url) = Except.ok imageUrl ∧
        r = { imageUrl := imageUrl, raw := some (Sum.inl json), source := "erc721:tokenURI" } := by
  constructor
  · intro h
    unfold tryWalletTokenURI at h
    split at h
    · cases h
    · rename_i tokenURI h1
      split at h
      · cases h
      · rename_i uri h2
        simp only at h
        split at h
        · cases h
        · rename_i json h3
          split at h
          · cases h
          · rename_i imageUrl h4
            simp only [Except.ok.injEq, Option.some.injEq] at h
            exact ⟨tokenURI, uri, json, imageUrl, h1, h2,
              (fetchJsonOrNull_eq_some env _ json).mp h3, h4, h.symm⟩
  · rintro ⟨tokenURI, uri, json, imageUrl, h1, h2, h3, h4, rfl⟩
    unfold tryWalletTokenURI
    simp only [h1, h2, fetchJsonOrNull, h3, h4]

/-- The second attempt returns exactly when the wallet contract's `uri` gives
a locator, the document behind it (after the id substitution) parses, and its
image value can be normalised. -/
theorem tryWalletUri_eq_some (env : MetaEnv) (tokenId : Nat) (r : TokenMetadata) :
    tryWalletUri env tokenId = Except.ok (some r) ↔
      ∃ (uriOf : Nat → Except String String) (uri : String) (json : JsonDoc)
          (imageUrl : Option String),
        env.walletUri = some uriOf ∧ uriOf tokenId = Except.ok uri ∧
        env.fetchJson (resolveIPFS
          (if !(uri == "") && includes uri "\x7bid\x7d"
           then replaceFirst uri "\x7bid\x7d" (toERC1155Hex tokenId) else uri)) =
          Except.ok (some json) ∧
        resolveIPFSValue (json.image.or json.image_url) = Except.ok imageUrl ∧
        r = { imageUrl := imageUrl, raw := some (Sum.inl json), source := "erc1155:uri" } := by
  constructor
  · intro h
    unfold tryWalletUri at h
    split at h
    · cases h
    · rename_i uriOf h1
      split at h
      · cases h
      · rename_i uri h2
        simp only at h
        split at h
        · cases h
        · rename_i json h3
          split at h
          · cases h
          · rename_i imageUrl h4
            simp only [Except.ok.injEq, Option.some.injEq] at h
            exact ⟨uriOf, uri, json, imageUrl, h1, h2,
              (fetchJsonOrNull_eq_some env _ json).mp h3, h4, h.symm⟩
  · rintro ⟨uriOf, uri, json, imageUrl, h1, h2, h3, h4, rfl⟩
    unfold tryWalletUri
    simp only [h1, h2, fetchJsonOrNull, h3, h4]

/-- The third attempt returns exactly when the read-only contract's `tokenURI`
gives a locator, the document behind it parses, and its image value can be
normalised. -/
theorem tryReadOnlyTokenURI_eq_some (env : MetaEnv) (tokenId : Nat) (r : TokenMetadata) :
    tryReadOnlyTokenURI env tokenId = Except.ok (some r) ↔
      ∃ (uri : String) (json : JsonDoc) (imageUrl : Option String),
        env.readOnlyTokenURI tokenId = Except.ok uri ∧
        env.fetchJson (resolveIPFS uri) = Except.ok (some json) ∧
        resolveIPFSValue (json.image.or json.image_url) = Except.ok imageUrl ∧
        r = { imageUrl := imageUrl, raw := some (Sum.inl json),
              source := "readonly:tokenURI" } := by
  constructor
  · intro h
    unfold tryReadOnlyTokenURI at h
    split at h
    · cases h
    · rename_i uri h2
      simp only at h
      split at h
      · cases h
      · rename_i json h3
        split at h
        · cases h
        · rename_i imageUrl h4
          simp only [Except.ok.injEq, Option.some.injEq] at h
          exact ⟨uri, json, imageUrl, h2, (fetchJsonOrNull_eq_some env _ json).mp h3, h4, h.symm⟩
  · rintro ⟨uri, json, imageUrl, h2, h3, h4, rfl⟩
    unfold tryReadOnlyTokenURI
    simp only [h2, fetchJsonOrNull, h3, h4]

/-- The fourth attempt returns exactly when an address is connected, the
indexing service answers with a list, and the first entry of that list whose
token id prints like the requested one has a non-empty string `imageUrl`. -/
theorem tryWalletList_eq_some (env : MetaEnv) (tokenId : Nat) (r : TokenMetadata) :
    tryWalletList env tokenId = Except.ok (some r) ↔
      ∃ (address : String) (list before : List NftItem) (hit : NftItem)
          (after : List NftItem) (s : String),
        orNull env.address = some address ∧
        env.fetchNFTsForAddress address = Except.ok list ∧
        list = before ++ hit :: after ∧
        (∀ n ∈ before, n.tokenId ≠ toString tokenId) ∧
        hit.tokenId = toString tokenId ∧
        hit.imageUrl = JsVal.str s ∧ s ≠ "" ∧
        r = { imageUrl := some (resolveIPFS s), raw := some (Sum.inr hit),
              source := "wallet:list" } := by
  constructor
  · intro hr
    unfold tryWalletList at hr
    split at hr
    · cases hr
    · rename_i address haddr
      split at hr
      · cases hr
      · rename_i list hlist
        split at hr
        · cases hr
        · rename_i hit hfind
          obtain ⟨hp, before, after, hsplit, hbefore⟩ := List.find?_eq_some.mp hfind
          have hhit : hit.tokenId = toString tokenId := by simpa using hp
          have hb : ∀ n ∈ before, n.tokenId ≠ toString tokenId := by
            intro n hn
            simpa using hbefore n hn
          split at hr
          · rename_i htr
            cases hv : hit.imageUrl with
            | falsy => rw [hv] at htr; simp [JsVal.truthy] at htr
            | other => rw [hv] at hr; simp [resolveIPFSValue] at hr
            | str s =>
              rw [hv] at hr htr
              simp only [resolveIPFSValue, Except.ok.injEq, Option.some.injEq] at hr
              refine ⟨address, list, before, hit, after, s, haddr, hlist, hsplit, hb, hhit, hv,
                ?_, ?_⟩
              · intro hs
                rw [hs] at htr
                simp [JsVal.truthy] at htr
              · rw [← hr]
          · cases hr
  · rintro ⟨address, list, before, hit, after, s, haddr, hlist, hsplit, hb, hhit, hv, hs, rfl⟩
    have hfind : list.find? (fun n => n.tokenId == toString tokenId) = some hit := by
      rw [List.find?_eq_some]
      refine ⟨by simpa using hhit, before, after, hsplit, ?_⟩
      intro n hn
      simpa using hb n hn
    have htr : hit.imageUrl.truthy = true := by
      rw [hv]
      simp [JsVal.truthy, hs]
    unfold tryWalletList
    rw [hv] at htr
    simp only [haddr, hlist, hfind, hv, resolveIPFSValue]
    rw [if_pos htr]

end MetadataLemmas

/-- C9 (amended): `fetchTokenMetadata` never raises and returns the outcome of
the first attempt that succeeds, in the order wallet `tokenURI`, wallet `uri`,
read-only `tokenURI`, indexing-service list; when none succeeds the result is
`imageUrl = null` with source "none". An attempt on one of the first three
sources succeeds exactly when the source yields a locator and a parsed
document whose `image || image_url` value is a string or falsy: a document
with neither member is a success with no image URL. The list attempt succeeds
exactly when an address is connected, the indexing service answers with a
list, and the first entry of that list whose token id prints like the
requested one has a non-empty string `imageUrl`; its result is that entry with
the normalised `imageUrl`. -/
theorem fetchTokenMetadata_first_success (env : MetaEnv) (tokenId : Nat) :
    (∃ r, fetchTokenMetadata env tokenId = Except.ok r) ∧
    fetchTokenMetadata env tokenId =
      Except.ok (firstSuccess [tryWalletTokenURI env tokenId, tryWalletUri env tokenId,
        tryReadOnlyTokenURI env tokenId, tryWalletList env tokenId]) ∧
    (∀ (json : JsonDoc), json.image.truthy = false → json.image_url = JsVal.falsy →
      resolveIPFSValue (json.image.or json.image_url) = Except.ok none) ∧
    (∀ (v : JsVal), (∃ imageUrl, resolveIPFSValue v = Except.ok imageUrl) ↔ v ≠ JsVal.other) ∧
    (∀ r : TokenMetadata, tryWalletTokenURI env tokenId = Except.ok (some r) ↔
      ∃ (tokenURI : Nat → Except String String) (uri : String) (json : JsonDoc)
          (imageUrl : Option String),
        env.walletTokenURI = some tokenURI ∧ tokenURI tokenId = Except.ok uri ∧
        env.fetchJson (resolveIPFS uri) = Except.ok (some json) ∧
        resolveIPFSValue (json.image.or json.image_url) = Except.ok imageUrl ∧
        r = { imageUrl := imageUrl, raw := some (Sum.inl json),
              source := "erc721:tokenURI" }) ∧
    (∀ r : TokenMetadata, tryWalletUri env tokenId = Except.ok (some r) ↔
      ∃ (uriOf : Nat → Except String String) (uri : String) (json : JsonDoc)
          (imageUrl : Option String),
        env.walletUri = some uriOf ∧ uriOf tokenId = Except.ok uri ∧
        env.fetchJson (resolveIPFS
          (if !(uri == "") && includes uri "\x7bid\x7d"
           then replaceFirst uri "\x7bid\x7d" (toERC1155Hex tokenId) else uri)) =
          Except.ok (some json) ∧
        resolveIPFSValue (json.image.or json.image_url) = Except.ok imageUrl ∧
        r = { imageUrl := imageUrl, raw := some (Sum.inl json), source := "erc1155:uri" }) ∧
    (∀ r : TokenMetadata, tryReadOnlyTokenURI env tokenId = Except.ok (some r) ↔
      ∃ (uri : String) (json : JsonDoc) (imageUrl : Option String),
        env.readOnlyTokenURI tokenId = Except.ok uri ∧
        env.fetchJson (resolveIPFS uri) = Except.ok (some json) ∧
        resolveIPFSValue (json.image.or json.image_url) = Except.ok imageUrl ∧
        r = { imageUrl := imageUrl, raw := some (Sum.inl json),
              source := "readonly:tokenURI" }) ∧
    (∀ r : TokenMetadata, tryWalletList env tokenId = Except.ok (some r) ↔
      ∃ (address : String) (list before : List NftItem) (hit : NftItem)
          (after : List NftItem) (s : String),
        orNull env.address = some address ∧
        env.fetchNFTsForAddress address = Except.ok list ∧
        list = before ++ hit :: after ∧
        (∀ n ∈ before, n.tokenId ≠ toString tokenId) ∧
        hit.tokenId = toString tokenId ∧
        hit.imageUrl = JsVal.str s ∧ s ≠ "" ∧
        r = { imageUrl := some (resolveIPFS s), raw := some (Sum.inr hit),
              source := "wallet:list" }) := by
  have hB : fetchTokenMetadata env tokenId =
      Except.ok (firstSuccess [tryWalletTokenURI env tokenId, tryWalletUri env tokenId,
        tryReadOnlyTokenURI env tokenId, tryWalletList env tokenId]) := by
    unfold fetchTokenMetadata
    generalize tryWalletTokenURI env tokenId = a1
    generalize tryWalletUri env tokenId = a2
    generalize tryReadOnlyTokenURI env tokenId = a3
    generalize tryWalletList env tokenId = a4
    rcases a1 with e1 | _ | r1 <;> rcases a2 with e2 | _ | r2 <;>
      rcases a3 with e3 | _ | r3 <;> rcases a4 with e4 | _ | r4 <;> rfl
  refine ⟨⟨_, hB⟩, hB, ?_, ?_, tryWalletTokenURI_eq_some env tokenId,
    tryWalletUri_eq_some env tokenId, tryReadOnlyTokenURI_eq_some env tokenId,
    tryWalletList_eq_some env tokenId⟩
  · intro json h1 h2
    unfold JsVal.or
    rw [h1, h2]
    rfl
  · intro v
    cases v <;> simp [resolveIPFSValue]

section HitTestLemmas

/-- The floor of a quotient by a positive tile size picks the tile whose
pixel interval contains the coordinate. -/
theorem floor_div_tile (a : ℚ) (t x : Int) (ht : 0 < t) :
    ⌊a / (t : ℚ)⌋ = x ↔ (x : ℚ) * t ≤ a ∧ a < ((x : ℚ) + 1) * t := by
  have htq : (0 : ℚ) < (t : ℚ) := by exact_mod_cast ht
  rw [Int.floor_eq_iff, le_div_iff₀ htq, div_lt_iff₀ htq]

theorem includesChars_iff (h cs : List Char) : includesChars h cs = true ↔ h <:+: cs := by
  induction cs with
  | nil =>
    simp only [includesChars, List.isEmpty_iff, List.infix_nil]
  | cons c cs ih =>
    simp only [includesChars, Bool.or_eq_true, List.isPrefixOf_iff_prefix, ih,
      List.infix_cons_iff]

theorem toLowerCase_eq_of_sameUpToCase (u v : String) (h : SameUpToCase u v) :
    toLowerCase u = toLowerCase v := by
  have key : ∀ l1 l2 : List Char, List.Forall₂ (fun a b => a.toLower = b.toLower) l1 l2 →
      l1.map Char.toLower = l2.map Char.toLower := by
    intro l1 l2 hf
    induction hf with
    | nil => rfl
    | cons hab _ ih => simp only [List.map_cons, hab, ih]
  unfold toLowerCase
  rw [key u.data v.data h]

theorem eq_empty_iff_of_sameUpToCase (u v : String) (h : SameUpToCase u v) :
    u = "" ↔ v = "" := by
  unfold SameUpToCase at h
  have hl := h.length_eq
  constructor
  · intro hu
    subst hu
    have : v.data = [] := List.length_eq_zero.mp (by rw [← hl]; rfl)
    exact String.ext this
  · intro hv
    subst hv
    have : u.data = [] := List.length_eq_zero.mp (by rw [hl]; rfl)
    exact String.ext this

end HitTestLemmas

/-- C12: for a non-empty string `u`, `isPlaceholderUrl(u)` is true exactly
when the lower-cased `u` contains one of "placeholder", "unrevealed",
"pre-reveal", "prereveal" as a substring; hence two non-empty strings that
differ only in the case of their letters are classified alike. -/
theorem isPlaceholderUrl_iff_hint (u : String) (hu : u ≠ "") :
    (isPlaceholderUrl (some u) = true ↔
      ∃ h ∈ ["placeholder", "unrevealed", "pre-reveal", "prereveal"],
        h.data <:+: (toLowerCase u).data) ∧
    (∀ v : String, SameUpToCase u v →
      isPlaceholderUrl (some v) = isPlaceholderUrl (some u)) := by
  have key : ∀ w : String, w ≠ "" →
      (isPlaceholderUrl (some w) = true ↔
        ∃ h ∈ ["placeholder", "unrevealed", "pre-reveal", "prereveal"],
          h.data <:+: (toLowerCase w).data) := by
    intro w hw
    unfold isPlaceholderUrl
    have hne : (w == "") = false := by
      rw [beq_eq_false_iff_ne]
      exact hw
    simp only [hne, Bool.false_eq_true, if_false, PLACEHOLDER_HINTS, List.any_eq_true,
      includes, includesChars_iff]
  refine ⟨key u hu, ?_⟩
  intro v huv
  have hv : v ≠ "" := fun h => hu ((eq_empty_iff_of_sameUpToCase u v huv).mpr h)
  have hl := toLowerCase_eq_of_sameUpToCase u v huv
  have h1 := key u hu
  have h2 := key v hv
  rw [← hl] at h2
  cases hb : isPlaceholderUrl (some u) with
  | true => exact h2.mpr (h1.mp hb)
  | false =>
    rw [Bool.eq_false_iff]
    intro hvt
    have := h1.mpr (h2.mp hvt)
    rw [hb] at this
    exact Bool.false_ne_true this

theorem isPlaceholderUrl_iff_hint_witness :
    "https://cdn.example.org/PRE-REVEAL/7.png" ≠ "" ∧
      isPlaceholderUrl (some "https://cdn.example.org/pre-reveal/7.PNG") =
        isPlaceholderUrl (some "https://cdn.example.org/PRE-REVEAL/7.png") :=
  ⟨by decide,
    (isPlaceholderUrl_iff_hint "https://cdn.example.org/PRE-REVEAL/7.png" (by decide)).2
      "https://cdn.example.org/pre-reveal/7.PNG" (by unfold SameUpToCase; decide)⟩

/-- C15: with tilePx > 0, `screenToTile(sx, sy)` is the one integer pair (x, y)
with originX + x*tilePx <= sx < originX + (x+1)*tilePx and likewise for y;
the tap handler selects that tile exactly when 0 <= x < 100 and 0 <= y < 100,
which is exactly when the point lies in the grid's bounding box
[originX, originX + 100*tilePx) x [originY, originY + 100*tilePx). -/
theorem screenToTile_hit_test (v : Viewport) (sx sy : ℚ) (ht : 0 < v.tilePx) :
    ((v.originX + ((screenToTile v sx sy).1 : ℚ) * v.tilePx ≤ sx ∧
        sx < v.originX + (((screenToTile v sx sy).1 : ℚ) + 1) * v.tilePx) ∧
      (v.originY + ((screenToTile v sx sy).2 : ℚ) * v.tilePx ≤ sy ∧
        sy < v.originY + (((screenToTile v sx sy).2 : ℚ) + 1) * v.tilePx)) ∧
    (∀ x y : Int,
      v.originX + (x : ℚ) * v.tilePx ≤ sx → sx < v.originX + ((x : ℚ) + 1) * v.tilePx →
      v.originY + (y : ℚ) * v.tilePx ≤ sy → sy < v.originY + ((y : ℚ) + 1) * v.tilePx →
      (x, y) = screenToTile v sx sy) ∧
    (onTap v sx sy = some (screenToTile v sx sy) ↔
      (0 ≤ (screenToTile v sx sy).1 ∧ (screenToTile v sx sy).1 < 100 ∧
        0 ≤ (screenToTile v sx sy).2 ∧ (screenToTile v sx sy).2 < 100)) ∧
    ((onTap v sx sy).isSome = true ↔
      (v.originX ≤ sx ∧ sx < v.originX + 100 * (v.tilePx : ℚ) ∧
        v.originY ≤ sy ∧ sy < v.originY + 100 * (v.tilePx : ℚ))) ∧
    ((onTap v sx sy).isSome = false → onTap v sx sy = none) := by
  have hx := (floor_div_tile (sx - v.originX) v.tilePx _ ht).mp rfl
  have hy := (floor_div_tile (sy - v.originY) v.tilePx _ ht).mp rfl
  have htq : (0 : ℚ) < (v.tilePx : ℚ) := by exact_mod_cast ht
  have hsel : onTap v sx sy = some (screenToTile v sx sy) ↔
      (0 ≤ (screenToTile v sx sy).1 ∧ (screenToTile v sx sy).1 < 100 ∧
        0 ≤ (screenToTile v sx sy).2 ∧ (screenToTile v sx sy).2 < 100) := by
    unfold onTap
    simp only [GRID_SIZE, ge_iff_le, Nat.cast_ofNat]
    constructor
    · intro h
      by_contra hc
      rw [if_neg hc] at h
      cases h
    · intro h
      rw [if_pos h]
  have hbox : ∀ (a : ℚ), (0 ≤ ⌊a / (v.tilePx : ℚ)⌋ ∧ ⌊a / (v.tilePx : ℚ)⌋ < 100) ↔
      (0 ≤ a ∧ a < 100 * (v.tilePx : ℚ)) := by
    intro a
    rw [Int.floor_nonneg, Int.floor_lt, div_nonneg_iff, div_lt_iff₀ htq]
    constructor
    · rintro ⟨h1 | h1, h2⟩
      · exact ⟨h1.1, by push_cast at h2; linarith⟩
      · exact absurd h1.2 (not_le.mpr htq)
    · rintro ⟨h1, h2⟩
      exact ⟨Or.inl ⟨h1, le_of_lt htq⟩, by push_cast; linarith⟩
  refine ⟨⟨⟨?_, ?_⟩, ⟨?_, ?_⟩⟩, ?_, hsel, ?_, ?_⟩
  · show v.originX + ((⌊(sx - v.originX) / (v.tilePx : ℚ)⌋ : Int) : ℚ) * v.tilePx ≤ sx
    linarith [hx.1]
  · show sx < v.originX + (((⌊(sx - v.originX) / (v.tilePx : ℚ)⌋ : Int) : ℚ) + 1) * v.tilePx
    linarith [hx.2]
  · show v.originY + ((⌊(sy - v.originY) / (v.tilePx : ℚ)⌋ : Int) : ℚ) * v.tilePx ≤ sy
    linarith [hy.1]
  · show sy < v.originY + (((⌊(sy - v.originY) / (v.tilePx : ℚ)⌋ : Int) : ℚ) + 1) * v.tilePx
    linarith [hy.2]
  · intro x y h1 h2 h3 h4
    have ex : ⌊(sx - v.originX) / (v.tilePx : ℚ)⌋ = x :=
      (floor_div_tile _ _ _ ht).mpr ⟨by linarith, by linarith⟩
    have ey : ⌊(sy - v.originY) / (v.tilePx : ℚ)⌋ = y :=
      (floor_div_tile _ _ _ ht).mpr ⟨by linarith, by linarith⟩
    show (x, y) = (⌊(sx - v.originX) / (v.tilePx : ℚ)⌋, ⌊(sy - v.originY) / (v.tilePx : ℚ)⌋)
    rw [ex, ey]
  · have h1 := hbox (sx - v.originX)
    have h2 := hbox (sy - v.originY)
    have hiff : (onTap v sx sy).isSome = true ↔
        ((0 ≤ (screenToTile v sx sy).1 ∧ (screenToTile v sx sy).1 < 100) ∧
          (0 ≤ (screenToTile v sx sy).2 ∧ (screenToTile v sx sy).2 < 100)) := by
      constructor
      · intro h
        have : onTap v sx sy = some (screenToTile v sx sy) := by
          unfold onTap at h ⊢
          simp only at h ⊢
          split
          · rfl
          · rename_i hc
            rw [if_neg hc] at h
            cases h
        have := hsel.mp this
        exact ⟨⟨this.1, this.2.1⟩, this.2.2.1, this.2.2.2⟩
      · rintro ⟨⟨a, b⟩, c, d⟩
        rw [hsel.mpr ⟨a, b, c, d⟩]
        rfl
    rw [hiff]
    show ((0 ≤ ⌊(sx - v.originX) / (v.tilePx : ℚ)⌋ ∧ ⌊(sx - v.originX) / (v.tilePx : ℚ)⌋ < 100) ∧
      (0 ≤ ⌊(sy - v.originY) / (v.tilePx : ℚ)⌋ ∧ ⌊(sy - v.originY) / (v.tilePx : ℚ)⌋ < 100)) ↔ _
    rw [h1, h2]
    constructor
    · rintro ⟨⟨a, b⟩, c, d⟩
      exact ⟨by linarith, by linarith, by linarith, by linarith⟩
    · rintro ⟨a, b, c, d⟩
      exact ⟨⟨by linarith, by linarith⟩, by linarith, by linarith⟩
  · intro h
    cases ho : onTap v sx sy with
    | none => rfl
    | some t => rw [ho] at h; cases h

theorem screenToTile_hit_test_witness :
    0 < vOdd.tilePx ∧ (onTap vOdd 3 5 = some (screenToTile vOdd 3 5) ↔
      (0 ≤ (screenToTile vOdd 3 5).1 ∧ (screenToTile vOdd 3 5).1 < 100 ∧
        0 ≤ (screenToTile vOdd 3 5).2 ∧ (screenToTile vOdd 3 5).2 < 100)) :=
  have ht : 0 < vOdd.tilePx := by norm_num [vOdd, Viewport.initial]
  ⟨ht, (screenToTile_hit_test vOdd 3 5 ht).2.2.1⟩

section LocatorLemmas

/-- Dropping a run of `p`-characters at both ends: what is dropped satisfies
`p`, and what is left neither begins nor ends with a `p`-character. -/
theorem strip_both_ends (p : Char → Bool) (l : List Char) :
    ∃ a b : List Char,
      l = a ++ ((l.dropWhile p).reverse.dropWhile p).reverse ++ b ∧
      (∀ c ∈ a, p c = true) ∧ (∀ c ∈ b, p c = true) ∧
      (∀ c, ((l.dropWhile p).reverse.dropWhile p).reverse.head? = some c → p c = false) ∧
      (∀ c, ((l.dropWhile p).reverse.dropWhile p).reverse.getLast? = some c → p c = false) := by
  have h1 : l = l.takeWhile p ++ l.dropWhile p := (List.takeWhile_append_dropWhile p l).symm
  have h2 : l.dropWhile p =
      ((l.dropWhile p).reverse.dropWhile p).reverse ++
        ((l.dropWhile p).reverse.takeWhile p).reverse := by
    rw [← List.reverse_append, List.takeWhile_append_dropWhile, List.reverse_reverse]
  have hlast : ∀ c, ((l.dropWhile p).reverse.dropWhile p).reverse.getLast? = some c →
      p c = false := by
    intro c hc
    rw [List.getLast?_reverse] at hc
    have := List.head?_dropWhile_not p (l.dropWhile p).reverse
    rw [hc] at this
    exact this
  refine ⟨l.takeWhile p, ((l.dropWhile p).reverse.takeWhile p).reverse, ?_, ?_, ?_, ?_, hlast⟩
  · rw [List.append_assoc, ← h2]
    exact h1
  · intro c hc
    exact List.mem_takeWhile_imp hc
  · intro c hc
    rw [List.mem_reverse] at hc
    exact List.mem_takeWhile_imp hc
  · intro c hc
    cases hm : ((l.dropWhile p).reverse.dropWhile p).reverse with
    | nil => rw [hm] at hc; cases hc
    | cons d rest =>
      rw [hm] at hc
      simp only [List.head?_cons, Option.some.injEq] at hc
      subst hc
      have h3 := List.head?_dropWhile_not p l
      rw [h2, hm] at h3
      simpa using h3

end LocatorLemmas

/-- C17: for every string `p`, `resolveIPFS("ipfs://" ++ p)` is
"https://ipfs.io/ipfs/" ++ p; for every other non-empty locator the result is
the trimmed input without its leading and trailing runs of double quotes, so
it neither begins nor ends with a double-quote character. -/
theorem resolveIPFS_spec :
    (∀ p : String, resolveIPFS ("ipfs://" ++ p) = "https://ipfs.io/ipfs/" ++ p) ∧
    (∀ u : String, u ≠ "" → startsWith u "ipfs://" = false →
      ∃ a b : List Char,
        trimChars u.data = a ++ (resolveIPFS u).data ++ b ∧
        (∀ c ∈ a, c = Char.ofNat 34) ∧ (∀ c ∈ b, c = Char.ofNat 34) ∧
        (resolveIPFS u).data.head? ≠ some (Char.ofNat 34) ∧
        (resolveIPFS u).data.getLast? ≠ some (Char.ofNat 34)) := by
  constructor
  · intro p
    have hd : ("ipfs://" ++ p).data = 'i' :: 'p' :: 'f' :: 's' :: ':' :: '/' :: '/' :: p.data := rfl
    have hne : (("ipfs://" ++ p) == "") = false := by
      rw [beq_eq_false_iff_ne]
      intro h
      have := congrArg String.data h
      rw [hd] at this
      cases this
    have hs : startsWith ("ipfs://" ++ p) "ipfs://" = true := by
      unfold startsWith
      rw [hd]
      simp [List.isPrefixOf]
    have hr : replaceFirst ("ipfs://" ++ p) "ipfs://" "" = p := by
      unfold replaceFirst
      rw [hd]
      apply String.ext
      simp [replaceFirstChars, List.isPrefixOf]
    unfold resolveIPFS
    simp only [hne, hs, hr, Bool.false_eq_true, if_false, if_true]
  · intro u hu hs
    have hne : (u == "") = false := by
      rw [beq_eq_false_iff_ne]
      exact hu
    have hres : (resolveIPFS u).data = stripQuotes (trimChars u.data) := by
      unfold resolveIPFS
      simp only [hne, hs, Bool.false_eq_true, if_false]
    obtain ⟨a, b, h1, h2, h3, h4, h5⟩ := strip_both_ends isQuote (trimChars u.data)
    have hq : ∀ c, isQuote c = true → c = Char.ofNat 34 := by
      intro c hc
      unfold isQuote at hc
      exact beq_iff_eq.mp hc
    refine ⟨a, b, ?_, fun c hc => hq c (h2 c hc), fun c hc => hq c (h3 c hc), ?_, ?_⟩
    · rw [hres]
      exact h1
    · rw [hres]
      intro hc
      have := h4 _ hc
      simp [isQuote] at this
    · rw [hres]
      intro hc
      have := h5 _ hc
      simp [isQuote] at this

section NumeralLemmas

theorem digitChar_mem_hexDigits (d : Nat) (h : d < 16) : Nat.digitChar d ∈ hexDigits := by
  interval_cases d <;> decide

theorem digitValue_digitChar (d : Nat) (h : d < 16) : digitValue (Nat.digitChar d) = d := by
  interval_cases d <;> decide

theorem toLower_of_mem_hexDigits (c : Char) (h : c ∈ hexDigits) : c.toLower = c := by
  simp only [hexDigits, List.mem_cons, List.mem_singleton, List.mem_nil_iff, or_false] at h
  rcases h with h | h | h | h | h | h | h | h | h | h | h | h | h | h | h | h <;>
    (subst h; decide)

theorem toDigitsCore_mem (fuel : Nat) :
    ∀ (n : Nat) (ds : List Char) (c : Char), c ∈ Nat.toDigitsCore 16 fuel n ds →
      c ∈ ds ∨ c ∈ hexDigits := by
  induction fuel with
  | zero =>
    intro n ds c h
    exact Or.inl h
  | succ f ih =>
    intro n ds c h
    simp only [Nat.toDigitsCore] at h
    split at h
    · rcases List.mem_cons.mp h with h | h
      · exact Or.inr (h ▸ digitChar_mem_hexDigits _ (Nat.mod_lt _ (by norm_num)))
      · exact Or.inl h
    · rcases ih _ _ c h with h | h
      · rcases List.mem_cons.mp h with h | h
        · exact Or.inr (h ▸ digitChar_mem_hexDigits _ (Nat.mod_lt _ (by norm_num)))
        · exact Or.inl h
      · exact Or.inr h

theorem toDigitsCore_value (b : Nat) (hb : 2 ≤ b) (hb16 : b ≤ 16) (fuel : Nat) :
    ∀ (n : Nat) (ds : List Char), n < fuel →
      (Nat.toDigitsCore b fuel n ds).foldl (fun acc c => acc * b + digitValue c) 0 =
        ds.foldl (fun acc c => acc * b + digitValue c) n := by
  induction fuel with
  | zero =>
    intro n ds h
    omega
  | succ f ih =>
    intro n ds h
    have hd : digitValue (Nat.digitChar (n % b)) = n % b :=
      digitValue_digitChar _ (lt_of_lt_of_le (Nat.mod_lt _ (by omega)) hb16)
    simp only [Nat.toDigitsCore]
    split
    · rename_i h0
      simp only [List.foldl_cons, Nat.zero_mul, Nat.zero_add, hd]
      have : n % b = n := by
        have := Nat.div_add_mod n b
        rw [h0] at this
        omega
      rw [this]
    · rename_i h0
      have hlt : n / b < f := by
        have : n / b < n := Nat.div_lt_self (by
          by_contra hc
          have : n = 0 := by omega
          subst this
          simp at h0) hb
        omega
      rw [ih (n / b) _ hlt]
      simp only [List.foldl_cons, hd]
      rw [Nat.div_add_mod' n b]

theorem numeralValue_toDigits (b : Nat) (hb : 2 ≤ b) (hb16 : b ≤ 16) (n : Nat) :
    numeralValue b (Nat.toDigits b n) = n := by
  unfold numeralValue Nat.toDigits
  rw [toDigitsCore_value b hb hb16 (n + 1) n [] (Nat.lt_succ_self n)]
  rfl

theorem numeralValue_zeros (b k : Nat) (l : List Char) :
    numeralValue b (List.replicate k '0' ++ l) = numeralValue b l := by
  unfold numeralValue
  rw [List.foldl_append]
  congr 1
  induction k with
  | zero => rfl
  | succ k ih =>
    rw [List.replicate_succ, List.foldl_cons]
    have hz : digitValue '0' = 0 := by decide
    have : (0 * b + digitValue '0') = 0 := by rw [hz, Nat.zero_mul]
    rw [this]
    exact ih

theorem map_toLower_hex (l : List Char) (h : ∀ c ∈ l, c ∈ hexDigits) :
    l.map Char.toLower = l := by
  induction l with
  | nil => rfl
  | cons c cs ih =>
    rw [List.map_cons, toLower_of_mem_hexDigits c (h c (List.mem_cons_self _ _)),
      ih (fun d hd => h d (List.mem_cons_of_mem _ hd))]

/-- What `toERC1155Hex` returns, spelled out. -/
theorem toERC1155Hex_data (tokenId : Nat) (h : tokenId < 16 ^ 64) :
    (toERC1155Hex tokenId).data =
      List.replicate (64 - (Nat.toDigits 16 tokenId).length) '0' ++ Nat.toDigits 16 tokenId ∧
    (Nat.toDigits 16 tokenId).length ≤ 64 ∧
    (∀ c ∈ Nat.toDigits 16 tokenId, c ∈ hexDigits) := by
  have hlen : (Nat.toDigits 16 tokenId).length ≤ 64 :=
    Nat.toDigitsCore_length 16 (by norm_num) (tokenId + 1) tokenId 64 h (by norm_num)
  have hmem : ∀ c ∈ Nat.toDigits 16 tokenId, c ∈ hexDigits := by
    intro c hc
    rcases toDigitsCore_mem _ _ _ c hc with h1 | h1
    · cases h1
    · exact h1
  have hpad : ∀ c ∈ List.replicate (64 - (Nat.toDigits 16 tokenId).length) '0' ++
      Nat.toDigits 16 tokenId, c ∈ hexDigits := by
    intro c hc
    rcases List.mem_append.mp hc with h1 | h1
    · rw [(List.mem_replicate.mp h1).2]
      decide
    · exact hmem c h1
  refine ⟨?_, hlen, hmem⟩
  unfold toERC1155Hex toLowerCase
  simp only
  by_cases hl : (Nat.toDigits 16 tokenId).length < 64
  · rw [if_pos hl]
    exact map_toLower_hex _ hpad
  · rw [if_neg hl]
    have h64 : 64 - (Nat.toDigits 16 tokenId).length = 0 := by omega
    rw [h64, List.replicate_zero, List.nil_append]
    exact map_toLower_hex _ hmem

end NumeralLemmas

/-- C16: for every token id below 16^64, `toERC1155Hex` returns exactly 64
characters, each one of 0-9 a-f, consisting of '0' padding followed by the
hexadecimal digits of the id, and read as a hexadecimal numeral the string
denotes the id; so two ids below 16^64 with the same result are equal. -/
theorem toERC1155Hex_spec (tokenId : Nat) (h : tokenId < 16 ^ 64) :
    (toERC1155Hex tokenId).data.length = 64 ∧
    (∀ c ∈ (toERC1155Hex tokenId).data, c ∈ hexDigits) ∧
    (∃ k : Nat, (toERC1155Hex tokenId).data =
      List.replicate k '0' ++ Nat.toDigits 16 tokenId) ∧
    numeralValue 16 (toERC1155Hex tokenId).data = tokenId ∧
    (∀ other : Nat, other < 16 ^ 64 → toERC1155Hex other = toERC1155Hex tokenId →
      other = tokenId) := by
  have hval : ∀ n : Nat, n < 16 ^ 64 → numeralValue 16 (toERC1155Hex n).data = n := by
    intro n hn
    rw [(toERC1155Hex_data n hn).1, numeralValue_zeros]
    exact numeralValue_toDigits 16 (by norm_num) (by norm_num) n
  obtain ⟨hd, hlen, hmem⟩ := toERC1155Hex_data tokenId h
  refine ⟨?_, ?_, ⟨_, hd⟩, hval tokenId h, ?_⟩
  · rw [hd, List.length_append, List.length_replicate]
    omega
  · intro c hc
    rw [hd] at hc
    rcases List.mem_append.mp hc with h1 | h1
    · rw [(List.mem_replicate.mp h1).2]
      decide
    · exact hmem c h1
  · intro other ho heq
    rw [← hval other ho, heq, hval tokenId h]

theorem toERC1155Hex_spec_witness :
    255 < 16 ^ 64 ∧ numeralValue 16 (toERC1155Hex 255).data = 255 :=
  ⟨by norm_num, (toERC1155Hex_spec 255 (by norm_num)).2.2.2.1⟩

section RetryLemmas

/-- The delay `rpcCallWithRetry` sleeps after its `(i + 1)`-th failure. -/
theorem retry_jitter_bounds (random : Nat → ℚ) (hrand : ∀ k, 0 ≤ random k ∧ random k < 1)
    (k : Nat) : 0 ≤ ⌊random k * 150⌋ ∧ ⌊random k * 150⌋ ≤ 149 := by
  obtain ⟨h0, h1⟩ := hrand k
  constructor
  · exact Int.floor_nonneg.mpr (by linarith)
  · have : ⌊random k * 150⌋ < 150 := by
      rw [Int.floor_lt]
      push_cast
      linarith
    omega

/-- The loop of `rpcCallWithRetry` entered after `attempt` failures: how many
calls it ends with, which of them failed, what it returns and what it sleeps. -/
theorem rpcCallWithRetryLoop_spec {ε α : Type} (fn : Nat → Except ε α)
    (retries baseDelay : Nat) (random : Nat → ℚ) :
    ∀ (n attempt : Nat) (delays : List Int), retries - attempt = n → attempt ≤ retries →
      (attempt + 1 ≤ (rpcCallWithRetryLoop fn retries baseDelay random attempt delays).calls ∧
        (rpcCallWithRetryLoop fn retries baseDelay random attempt delays).calls ≤ retries + 1) ∧
      (∀ j, attempt ≤ j →
        j + 1 < (rpcCallWithRetryLoop fn retries baseDelay random attempt delays).calls →
        ∃ e, fn j = Except.error e) ∧
      (rpcCallWithRetryLoop fn retries baseDelay random attempt delays).result =
        fn ((rpcCallWithRetryLoop fn retries baseDelay random attempt delays).calls - 1) ∧
      ((∃ e, (rpcCallWithRetryLoop fn retries baseDelay random attempt delays).result =
          Except.error e) →
        (rpcCallWithRetryLoop fn retries baseDelay random attempt delays).calls = retries + 1) ∧
      (rpcCallWithRetryLoop fn retries baseDelay random attempt delays).delays =
        delays ++ (List.range' attempt
          ((rpcCallWithRetryLoop fn retries baseDelay random attempt delays).calls - 1 - attempt)).map
            (fun i => (baseDelay : Int) * 2 ^ i + ⌊random (i + 1) * 150⌋) := by
  intro n
  induction n with
  | zero =>
    intro attempt delays hn hle
    have hlast : attempt + 1 > retries := by omega
    rw [rpcCallWithRetryLoop]
    cases hf : fn attempt with
    | ok v =>
      simp only [Nat.add_sub_cancel, Nat.sub_self, List.range'_zero, List.map_nil,
        List.append_nil, hf]
      refine ⟨⟨le_refl _, by omega⟩, ?_, trivial, ?_, trivial⟩
      · intro j h1 h2
        omega
      · rintro ⟨e, he⟩
        cases he
    | error err =>
      simp only [hlast, if_true, Nat.add_sub_cancel, Nat.sub_self, List.range'_zero,
        List.map_nil, List.append_nil, hf]
      refine ⟨⟨le_refl _, by omega⟩, ?_, trivial, ?_, trivial⟩
      · intro j h1 h2
        omega
      · intro _
        omega
  | succ n ih =>
    intro attempt delays hn hle
    rw [rpcCallWithRetryLoop]
    cases hf : fn attempt with
    | ok v =>
      simp only [Nat.add_sub_cancel, Nat.sub_self, List.range'_zero, List.map_nil,
        List.append_nil, hf]
      refine ⟨⟨le_refl _, by omega⟩, ?_, trivial, ?_, trivial⟩
      · intro j h1 h2
        omega
      · rintro ⟨e, he⟩
        cases he
    | error err =>
      have hnot : ¬ attempt + 1 > retries := by omega
      simp only [hnot, if_false, Nat.add_sub_cancel]
      obtain ⟨⟨h1, h2⟩, h3, h4, h5, h6⟩ := ih (attempt + 1)
        (delays ++ [(baseDelay : Int) * 2 ^ attempt + ⌊random (attempt + 1) * 150⌋])
        (by omega) (by omega)
      refine ⟨⟨by omega, h2⟩, ?_, h4, h5, ?_⟩
      · intro j hj1 hj2
        by_cases hja : j = attempt
        · subst hja
          exact ⟨err, hf⟩
        · exact h3 j (by omega) hj2
      · rw [h6, List.append_assoc]
        congr 1
        have hc : (rpcCallWithRetryLoop fn retries baseDelay random (attempt + 1)
            (delays ++ [(baseDelay : Int) * 2 ^ attempt +
              ⌊random (attempt + 1) * 150⌋])).calls - 1 - attempt =
          ((rpcCallWithRetryLoop fn retries baseDelay random (attempt + 1)
            (delays ++ [(baseDelay : Int) * 2 ^ attempt +
              ⌊random (attempt + 1) * 150⌋])).calls - 1 - (attempt + 1)) + 1 := by
          omega
        rw [hc, List.range'_succ, List.map_cons]
        rfl

end RetryLemmas

/-- C19: `rpcCallWithRetry(fn, { retries, baseDelay })` calls `fn` at least
once and at most retries + 1 times; it returns `v` exactly when some call among
the first retries + 1 returns `v` and all calls before it failed; it rethrows
`e` exactly when all retries + 1 calls fail and the last one fails with `e`; it
sleeps once before each retry, and the delay before the `(k + 1)`-th retry
(`k = 0, 1, ...`) is baseDelay * 2^k plus a jitter between 0 and 149, given that
`Math.random()` lies in [0, 1). -/
theorem rpcCallWithRetry_spec {ε α : Type} (fn : Nat → Except ε α) (retries baseDelay : Nat)
    (random : Nat → ℚ) (hrand : ∀ k, 0 ≤ random k ∧ random k < 1) :
    (1 ≤ (rpcCallWithRetry fn retries baseDelay random).calls ∧
      (rpcCallWithRetry fn retries baseDelay random).calls ≤ retries + 1) ∧
    (∀ v, (rpcCallWithRetry fn retries baseDelay random).result = Except.ok v ↔
      ∃ k, k ≤ retries ∧ fn k = Except.ok v ∧ ∀ j, j < k → ∃ e, fn j = Except.error e) ∧
    (∀ e, (rpcCallWithRetry fn retries baseDelay random).result = Except.error e ↔
      (∀ j, j ≤ retries → ∃ e', fn j = Except.error e') ∧ fn retries = Except.error e) ∧
    (rpcCallWithRetry fn retries baseDelay random).delays.length =
      (rpcCallWithRetry fn retries baseDelay random).calls - 1 ∧
    (∀ (k : Nat) (d : Int), (rpcCallWithRetry fn retries baseDelay random).delays[k]? = some d →
      ∃ jitter : Int, 0 ≤ jitter ∧ jitter ≤ 149 ∧ d = (baseDelay : Int) * 2 ^ k + jitter) := by
  obtain ⟨⟨h1, h2⟩, h3, h4, h5, h6⟩ :=
    rpcCallWithRetryLoop_spec fn retries baseDelay random retries 0 [] rfl (Nat.zero_le _)
  have hcalls : ∀ k v, k ≤ retries → fn k = Except.ok v →
      (∀ j, j < k → ∃ e, fn j = Except.error e) →
      (rpcCallWithRetryLoop fn retries baseDelay random 0 []).calls - 1 = k := by
    intro k v hk hv hbefore
    by_contra hne
    rcases Nat.lt_or_gt_of_ne hne with hlt | hgt
    · obtain ⟨e, he⟩ := hbefore _ hlt
      have := h5 ⟨e, by rw [h4]; exact he⟩
      omega
    · obtain ⟨e, he⟩ := h3 k (Nat.zero_le _) (by omega)
      rw [hv] at he
      cases he
  unfold rpcCallWithRetry
  refine ⟨⟨h1, h2⟩, ?_, ?_, ?_, ?_⟩
  · intro v
    constructor
    · intro hv
      refine ⟨(rpcCallWithRetryLoop fn retries baseDelay random 0 []).calls - 1, by omega,
        by rw [← h4]; exact hv, ?_⟩
      intro j hj
      exact h3 j (Nat.zero_le _) (by omega)
    · rintro ⟨k, hk, hv, hbefore⟩
      rw [h4, hcalls k v hk hv hbefore]
      exact hv
  · intro e
    constructor
    · intro he
      have hc := h5 ⟨e, he⟩
      have hlast : fn retries = Except.error e := by
        rw [h4, hc] at he
        simpa using he
      refine ⟨?_, hlast⟩
      intro j hj
      by_cases hjr : j = retries
      · subst hjr
        exact ⟨e, hlast⟩
      · exact h3 j (Nat.zero_le _) (by omega)
    · rintro ⟨hall, hlast⟩
      cases hr : (rpcCallWithRetryLoop fn retries baseDelay random 0 []).result with
      | error e' =>
        have hc := h5 ⟨e', hr⟩
        rw [h4, hc] at hr
        simp only [Nat.add_sub_cancel] at hr
        rw [hlast] at hr
        exact hr.symm
      | ok v =>
        exfalso
        rw [h4] at hr
        obtain ⟨e', he'⟩ := hall ((rpcCallWithRetryLoop fn retries baseDelay random 0 []).calls - 1)
          (by omega)
        rw [he'] at hr
        cases hr
  · rw [h6]
    simp
  · intro k d hd
    rw [h6] at hd
    simp only [List.nil_append, Nat.sub_zero, List.getElem?_map, Option.map_eq_some'] at hd
    obtain ⟨i, hi, rfl⟩ := hd
    have hik : i = k := by
      obtain ⟨hlt, hget⟩ := List.getElem?_eq_some.mp hi
      rw [List.getElem_range'] at hget
      omega
    subst hik
    obtain ⟨j0, j1⟩ := retry_jitter_bounds random hrand (i + 1)
    exact ⟨_, j0, j1, rfl⟩

theorem rpcCallWithRetry_spec_witness :
    (∀ k, 0 ≤ rpcOneBad.random k ∧ rpcOneBad.random k < 1) ∧
      (rpcCallWithRetry rpcOneBad.getBlockNumber 4 400 rpcOneBad.random).calls ≤ 4 + 1 :=
  have hr : ∀ k, 0 ≤ rpcOneBad.random k ∧ rpcOneBad.random k < 1 := by
    intro k
    show (0 : ℚ) ≤ 0 ∧ (0 : ℚ) < 1
    norm_num
  ⟨hr, (rpcCallWithRetry_spec rpcOneBad.getBlockNumber 4 400 rpcOneBad.random hr).1.2⟩

section RangeLemmas

theorem getLogsBatchedLoop_step (rpc : RpcEnv) (toBlock step : Int) (fuel : Nat) (start : Int)
    (logs : List Log) :
    getLogsBatchedLoop rpc toBlock step (fuel + 1) start logs =
      if start ≤ toBlock then
        match fetchRange rpc
          (start, if start + step - 1 > toBlock then toBlock else start + step - 1) with
        | Except.ok batchLogs =>
          getLogsBatchedLoop rpc toBlock step fuel (start + step) (logs ++ batchLogs)
        | Except.error err => some (Except.error err)
      else some (Except.ok logs) := rfl

theorem getLogsBatchedRequests_step (rpc : RpcEnv) (toBlock step : Int) (fuel : Nat)
    (start : Int) :
    getLogsBatchedRequests rpc toBlock step (fuel + 1) start =
      if start ≤ toBlock then
        match fetchRange rpc
          (start, if start + step - 1 > toBlock then toBlock else start + step - 1) with
        | Except.ok _ =>
          (start, if start + step - 1 > toBlock then toBlock else start + step - 1) ::
            getLogsBatchedRequests rpc toBlock step fuel (start + step)
        | Except.error _ =>
          [(start, if start + step - 1 > toBlock then toBlock else start + step - 1)]
      else [] := rfl

/-- With a positive step and fuel for every iteration, the loop ends: with
the logs or with an error. -/
theorem getLogsBatchedLoop_isSome (rpc : RpcEnv) (toBlock step : Int) :
    ∀ (fuel : Nat) (start : Int) (acc : List Log), 1 ≤ fuel →
      toBlock - start < ((fuel : Int) - 1) * step →
      (getLogsBatchedLoop rpc toBlock step fuel start acc).isSome = true := by
  intro fuel
  induction fuel with
  | zero =>
    intro start acc h1
    omega
  | succ f ih =>
    intro start acc _ hlt
    rw [getLogsBatchedLoop_step]
    push_cast at hlt
    by_cases hle : start ≤ toBlock
    · rw [if_pos hle]
      cases fetchRange rpc
        (start, if start + step - 1 > toBlock then toBlock else start + step - 1) with
      | error e => rfl
      | ok b =>
        simp only
        have hf : 1 ≤ f := by
          by_contra hc
          have : f = 0 := by omega
          subst this
          simp only [Nat.cast_zero, zero_mul] at hlt
          linarith
        apply ih (start + step) _ hf
        have : (toBlock - (start + step) : Int) = (toBlock - start) - step := by ring
        rw [this]
        have : ((f : Int) - 1) * step = (f : Int) * step - step := by ring
        rw [this]
        simp only [add_sub_cancel_right] at hlt
        linarith
    · rw [if_neg hle]
      rfl

/-- The shape of the requested sub-ranges, whatever the fetches return. -/
theorem getLogsBatchedRequests_shape (rpc : RpcEnv) (toBlock step : Int) (hs : 1 ≤ step) :
    ∀ (fuel : Nat) (start : Int),
      (∀ r ∈ getLogsBatchedRequests rpc toBlock step fuel start,
        start ≤ r.1 ∧ r.1 ≤ r.2 ∧ r.2 ≤ toBlock ∧ r.2 - r.1 + 1 ≤ step) ∧
      List.Chain' (fun a b : Int × Int => b.1 = a.2 + 1)
        (getLogsBatchedRequests rpc toBlock step fuel start) ∧
      (∀ r, (getLogsBatchedRequests rpc toBlock step fuel start).head? = some r →
        r.1 = start) := by
  intro fuel
  induction fuel with
  | zero =>
    intro start
    refine ⟨fun r hr => (by cases hr), List.chain'_nil, fun r hr => (by cases hr)⟩
  | succ f ih =>
    intro start
    rw [getLogsBatchedRequests_step]
    by_cases hle : start ≤ toBlock
    · rw [if_pos hle]
      have hfirst : start ≤ (if start + step - 1 > toBlock then toBlock else start + step - 1) ∧
          (if start + step - 1 > toBlock then toBlock else start + step - 1) ≤ toBlock ∧
          (if start + step - 1 > toBlock then toBlock else start + step - 1) - start + 1 ≤ step := by
        by_cases hc : start + step - 1 > toBlock
        · rw [if_pos hc]
          exact ⟨hle, le_refl _, by linarith⟩
        · rw [if_neg hc]
          exact ⟨by linarith, by linarith, by linarith⟩
      cases fetchRange rpc
        (start, if start + step - 1 > toBlock then toBlock else start + step - 1) with
      | error e =>
        simp only
        refine ⟨?_, List.chain'_singleton _, ?_⟩
        · intro r hr
          rw [List.mem_singleton] at hr
          subst hr
          exact ⟨le_refl _, hfirst.1, hfirst.2.1, hfirst.2.2⟩
        · intro r hr
          simp only [List.head?_cons, Option.some.injEq] at hr
          subst hr
          rfl
      | ok b =>
        simp only
        obtain ⟨h1, h2, h3⟩ := ih (start + step)
        refine ⟨?_, ?_, ?_⟩
        · intro r hr
          rcases List.mem_cons.mp hr with hr | hr
          · subst hr
            exact ⟨le_refl _, hfirst.1, hfirst.2.1, hfirst.2.2⟩
          · obtain ⟨a, b', c, d⟩ := h1 r hr
            exact ⟨by linarith, b', c, d⟩
        · rw [List.chain'_cons']
          refine ⟨?_, h2⟩
          intro y hy
          have hy1 : y.1 = start + step := h3 y hy
          have hymem : y ∈ getLogsBatchedRequests rpc toBlock step f (start + step) :=
            List.mem_of_mem_head? hy
          have hyle : y.1 ≤ toBlock := by
            obtain ⟨_, b', c, _⟩ := h1 y hymem
            linarith
          have hc : ¬ start + step - 1 > toBlock := by
            intro hc
            linarith
          show y.1 = (if start + step - 1 > toBlock then toBlock else start + step - 1) + 1
          rw [if_neg hc, hy1]
          ring
        · intro r hr
          simp only [List.head?_cons, Option.some.injEq] at hr
          subst hr
          rfl
    · rw [if_neg hle]
      refine ⟨fun r hr => (by cases hr), List.chain'_nil, fun r hr => (by cases hr)⟩

/-- When the loop ends normally, every request succeeded, the result is the
batches in request order, and the requests cover every block up to `toBlock`. -/
theorem getLogsBatchedLoop_result (rpc : RpcEnv) (toBlock step : Int) :
    ∀ (fuel : Nat) (start : Int) (acc logs : List Log),
      getLogsBatchedLoop rpc toBlock step fuel start acc = some (Except.ok logs) →
      ∃ batches : List (List Log),
        (getLogsBatchedRequests rpc toBlock step fuel start).map (fetchRange rpc) =
          batches.map Except.ok ∧
        logs = acc ++ batches.flatten ∧
        (∀ b : Int, start ≤ b → b ≤ toBlock →
          ∃ r ∈ getLogsBatchedRequests rpc toBlock step fuel start, r.1 ≤ b ∧ b ≤ r.2) := by
  intro fuel
  induction fuel with
  | zero =>
    intro start acc logs h
    simp [getLogsBatchedLoop] at h
  | succ f ih =>
    intro start acc logs h
    rw [getLogsBatchedLoop_step] at h
    rw [getLogsBatchedRequests_step]
    by_cases hle : start ≤ toBlock
    · rw [if_pos hle] at h ⊢
      cases hc : fetchRange rpc
        (start, if start + step - 1 > toBlock then toBlock else start + step - 1) with
      | error e =>
        rw [hc] at h
        simp at h
      | ok batch =>
        rw [hc] at h
        simp only at h ⊢
        obtain ⟨batches, hb1, hb2, hb3⟩ := ih (start + step) (acc ++ batch) logs h
        refine ⟨batch :: batches, ?_, ?_, ?_⟩
        · rw [List.map_cons, List.map_cons, hc, hb1]
        · rw [hb2, List.flatten_cons, List.append_assoc]
        · intro b hb hbt
          by_cases hin : b ≤ (if start + step - 1 > toBlock then toBlock else start + step - 1)
          · exact ⟨_, List.mem_cons_self _ _, hb, hin⟩
          · have hnext : start + step ≤ b := by
              by_cases hgt : start + step - 1 > toBlock
              · rw [if_pos hgt] at hin
                exact absurd hbt hin
              · rw [if_neg hgt] at hin
                linarith
            obtain ⟨r, hr, hr1, hr2⟩ := hb3 b hnext hbt
            exact ⟨r, List.mem_cons_of_mem _ hr, hr1, hr2⟩
    · rw [if_neg hle] at h ⊢
      cases h
      refine ⟨[], rfl, by simp, ?_⟩
      intro b hb hbt
      exact absurd (le_trans hb hbt) hle

theorem subRanges_nil (start toBlock step : Int) (hs : 1 ≤ step) (h : toBlock < start) :
    subRanges start toBlock step = [] := by
  unfold subRanges
  have h1 : (toBlock - start) / step < 0 :=
    Int.ediv_lt_of_lt_mul (by linarith) (by linarith)
  have h2 : ((toBlock - start) / step + 1).toNat = 0 := by
    apply Int.toNat_eq_zero.mpr
    linarith
  rw [h2]
  rfl

theorem subRanges_cons (start toBlock step : Int) (hs : 1 ≤ step) (h : start ≤ toBlock) :
    subRanges start toBlock step =
      (start, if start + step - 1 > toBlock then toBlock else start + step - 1) ::
        subRanges (start + step) toBlock step := by
  unfold subRanges
  have hs0 : step ≠ 0 := by linarith
  have hd : 0 ≤ (toBlock - start) / step := Int.ediv_nonneg (by linarith) (by linarith)
  have h1 : (toBlock - (start + step)) / step = (toBlock - start) / step - 1 := by
    have := Int.add_mul_ediv_right (toBlock - start) (-1) hs0
    have e : toBlock - (start + step) = toBlock - start + -1 * step := by ring
    rw [e, this]
    ring
  have h2 : ((toBlock - start) / step + 1).toNat = ((toBlock - start) / step).toNat + 1 := by
    omega
  have h3 : ((toBlock - (start + step)) / step + 1).toNat = ((toBlock - start) / step).toNat := by
    rw [h1]
    congr 1
    ring
  rw [h2, h3, List.range_succ_eq_map, List.map_cons, List.map_map]
  congr 1
  · have e1 : start + ((0 : Nat) : Int) * step = start := by simp
    have e2 : start + (((0 : Nat) : Int) + 1) * step - 1 = start + step - 1 := by simp
    rw [e1, e2]
    congr 1
    by_cases hc : start + step - 1 > toBlock
    · rw [if_pos hc]
      exact min_eq_left (le_of_lt hc)
    · rw [if_neg hc]
      exact min_eq_right (not_lt.mp hc)
  · apply List.map_congr_left
    intro k _
    simp only [Function.comp, Nat.succ_eq_add_one, Nat.cast_add, Nat.cast_one]
    congr 1
    · ring
    · congr 1
      ring

theorem fetchRange_rpcQuiet (range : Int × Int) : fetchRange rpcQuiet range = Except.ok [] :=
  rpcCallWithRetry_first_ok _ 4 400 _ [] rfl

theorem requestedPrefix_rpcQuiet (ranges : List (Int × Int)) :
    requestedPrefix rpcQuiet ranges = ranges := by
  induction ranges with
  | nil => rfl
  | cons r rest ih =>
    unfold requestedPrefix
    rw [fetchRange_rpcQuiet, ih]

theorem collectBatches_rpcQuiet (ranges : List (Int × Int)) :
    collectBatches rpcQuiet ranges = Except.ok [] := by
  induction ranges with
  | nil => rfl
  | cons r rest ih =>
    unfold collectBatches
    rw [fetchRange_rpcQuiet, ih]
    rfl

/-- With a positive step and fuel for every iteration, the loop returns what
collecting the batches of the closed-form sub-ranges gives. -/
theorem getLogsBatchedLoop_eq_collect (rpc : RpcEnv) (toBlock step : Int) (hs : 1 ≤ step) :
    ∀ (fuel : Nat) (start : Int) (acc : List Log), 1 ≤ fuel →
      toBlock - start < ((fuel : Int) - 1) * step →
      getLogsBatchedLoop rpc toBlock step fuel start acc =
        some (match collectBatches rpc (subRanges start toBlock step) with
          | Except.error err => Except.error err
          | Except.ok logs => Except.ok (acc ++ logs)) := by
  intro fuel
  induction fuel with
  | zero =>
    intro start acc h1
    omega
  | succ f ih =>
    intro start acc _ hlt
    rw [getLogsBatchedLoop_step]
    push_cast at hlt
    simp only [add_sub_cancel_right] at hlt
    by_cases hle : start ≤ toBlock
    · rw [if_pos hle, subRanges_cons start toBlock step hs hle]
      unfold collectBatches
      cases fetchRange rpc
        (start, if start + step - 1 > toBlock then toBlock else start + step - 1) with
      | error e => rfl
      | ok b =>
        simp only
        have hf : 1 ≤ f := by
          by_contra hc
          have : f = 0 := by omega
          subst this
          simp only [Nat.cast_zero, zero_mul] at hlt
          linarith
        rw [ih (start + step) (acc ++ b) hf (by
          have e1 : (toBlock - (start + step) : Int) = (toBlock - start) - step := by ring
          have e2 : ((f : Int) - 1) * step = (f : Int) * step - step := by ring
          rw [e1, e2]
          linarith)]
        cases collectBatches rpc (subRanges (start + step) toBlock step) with
        | error e => rfl
        | ok logs =>
          simp only [List.append_assoc]
    · rw [if_neg hle, subRanges_nil start toBlock step hs (not_le.mp hle)]
      simp [collectBatches]

/-- With a positive step and fuel for every iteration, the requests are the
closed-form sub-ranges up to the first one whose fetch fails. -/
theorem getLogsBatchedRequests_eq_prefix (rpc : RpcEnv) (toBlock step : Int) (hs : 1 ≤ step) :
    ∀ (fuel : Nat) (start : Int), 1 ≤ fuel →
      toBlock - start < ((fuel : Int) - 1) * step →
      getLogsBatchedRequests rpc toBlock step fuel start =
        requestedPrefix rpc (subRanges start toBlock step) := by
  intro fuel
  induction fuel with
  | zero =>
    intro start h1
    omega
  | succ f ih =>
    intro start _ hlt
    rw [getLogsBatchedRequests_step]
    push_cast at hlt
    simp only [add_sub_cancel_right] at hlt
    by_cases hle : start ≤ toBlock
    · rw [if_pos hle, subRanges_cons start toBlock step hs hle]
      unfold requestedPrefix
      cases fetchRange rpc
        (start, if start + step - 1 > toBlock then toBlock else start + step - 1) with
      | error e => rfl
      | ok b =>
        simp only
        have hf : 1 ≤ f := by
          by_contra hc
          have : f = 0 := by omega
          subst this
          simp only [Nat.cast_zero, zero_mul] at hlt
          linarith
        rw [ih (start + step) hf (by
          have e1 : (toBlock - (start + step) : Int) = (toBlock - start) - step := by ring
          have e2 : ((f : Int) - 1) * step = (f : Int) * step - step := by ring
          rw [e1, e2]
          linarith)]
    · rw [if_neg hle, subRanges_nil start toBlock step hs (not_le.mp hle)]
      rfl

/-- The closed-form sub-ranges start at `start`, each begins one block after
the previous one ends, each lies in `[start, toBlock]` and holds at most `step`
blocks, and together they hold every block of `[start, toBlock]`. -/
theorem subRanges_shape (start toBlock step : Int) (hs : 1 ≤ step) :
    (∀ r ∈ subRanges start toBlock step,
      start ≤ r.1 ∧ r.1 ≤ r.2 ∧ r.2 ≤ toBlock ∧ r.2 - r.1 + 1 ≤ step) ∧
    List.Chain' (fun a b : Int × Int => b.1 = a.2 + 1) (subRanges start toBlock step) ∧
    (∀ r, (subRanges start toBlock step).head? = some r → r.1 = start) ∧
    (∀ b : Int, start ≤ b → b ≤ toBlock →
      ∃ r ∈ subRanges start toBlock step, r.1 ≤ b ∧ b ≤ r.2) := by
  obtain ⟨fuel, h1, hlt⟩ : ∃ fuel : Nat, 1 ≤ fuel ∧
      toBlock - start < ((fuel : Int) - 1) * step := by
    refine ⟨(toBlock - start).toNat + 2, by omega, ?_⟩
    have h0 : toBlock - start ≤ ((toBlock - start).toNat : Int) := Int.self_le_toNat _
    have h2 : (0 : Int) ≤ ((toBlock - start).toNat : Int) := Int.natCast_nonneg _
    push_cast
    nlinarith
  have hreq := getLogsBatchedRequests_eq_prefix rpcQuiet toBlock step hs fuel start h1 hlt
  rw [requestedPrefix_rpcQuiet] at hreq
  have hloop := getLogsBatchedLoop_eq_collect rpcQuiet toBlock step hs fuel start [] h1 hlt
  rw [collectBatches_rpcQuiet] at hloop
  obtain ⟨g1, g2, g3⟩ := getLogsBatchedRequests_shape rpcQuiet toBlock step hs fuel start
  obtain ⟨_, _, _, g4⟩ := getLogsBatchedLoop_result rpcQuiet toBlock step fuel start [] _ hloop
  rw [hreq] at g1 g2 g3 g4
  exact ⟨g1, g2, g3, g4⟩

end RangeLemmas

/-- C18: for fromBlock <= toBlock and step >= 1, `getLogsBatched` terminates
(the loop ends within toBlock - fromBlock + 1 iterations); the sub-ranges it
requests start at fromBlock, each begins one block after the previous one ends
(so they are ascending, disjoint and contiguous), each lies in
[fromBlock, toBlock] and holds at most `step` blocks; and when it returns, every
block of [fromBlock, toBlock] lies in a requested sub-range and the returned
list is the concatenation of the batches in request order. In closed form:
with the sub-ranges [fromBlock + k * step, min(toBlock, fromBlock + (k + 1) *
step - 1)] for k = 0, 1, ..., (toBlock - fromBlock) / step, which start at
fromBlock, are contiguous, lie in [fromBlock, toBlock], hold at most `step`
blocks each and together hold every block of [fromBlock, toBlock],
`getLogsBatched` returns exactly what fetching these sub-ranges in order and
concatenating the batches gives (the first error, when a fetch fails), and it
requests exactly these sub-ranges in order, up to the first whose fetch
fails. -/
theorem getLogsBatched_spec (rpc : RpcEnv) (fromBlock toBlock step : Int) (fuel : Nat)
    (hft : fromBlock ≤ toBlock) (hs : 1 ≤ step)
    (hfuel : (toBlock - fromBlock).toNat + 2 ≤ fuel) :
    (getLogsBatched rpc fuel fromBlock toBlock step).isSome = true ∧
    ((getLogsBatchedRequests rpc toBlock step fuel fromBlock).head?.map Prod.fst =
      some fromBlock) ∧
    List.Chain' (fun a b : Int × Int => b.1 = a.2 + 1)
      (getLogsBatchedRequests rpc toBlock step fuel fromBlock) ∧
    (∀ r ∈ getLogsBatchedRequests rpc toBlock step fuel fromBlock,
      fromBlock ≤ r.1 ∧ r.1 ≤ r.2 ∧ r.2 ≤ toBlock ∧ r.2 - r.1 + 1 ≤ step) ∧
    (∀ logs, getLogsBatched rpc fuel fromBlock toBlock step = some (Except.ok logs) →
      (∀ b : Int, fromBlock ≤ b → b ≤ toBlock →
        ∃ r ∈ getLogsBatchedRequests rpc toBlock step fuel fromBlock, r.1 ≤ b ∧ b ≤ r.2) ∧
      ∃ batches : List (List Log),
        (getLogsBatchedRequests rpc toBlock step fuel fromBlock).map (fetchRange rpc) =
          batches.map Except.ok ∧
        logs = batches.flatten) ∧
    getLogsBatched rpc fuel fromBlock toBlock step =
      some (collectBatches rpc (subRanges fromBlock toBlock step)) ∧
    getLogsBatchedRequests rpc toBlock step fuel fromBlock =
      requestedPrefix rpc (subRanges fromBlock toBlock step) ∧
    (subRanges fromBlock toBlock step).head?.map Prod.fst = some fromBlock ∧
    List.Chain' (fun a b : Int × Int => b.1 = a.2 + 1) (subRanges fromBlock toBlock step) ∧
    (∀ r ∈ subRanges fromBlock toBlock step,
      fromBlock ≤ r.1 ∧ r.1 ≤ r.2 ∧ r.2 ≤ toBlock ∧ r.2 - r.1 + 1 ≤ step) ∧
    (∀ b : Int, fromBlock ≤ b → b ≤ toBlock →
      ∃ r ∈ subRanges fromBlock toBlock step, r.1 ≤ b ∧ b ≤ r.2) := by
  obtain ⟨f, rfl⟩ : ∃ f, fuel = f + 1 := ⟨fuel - 1, by omega⟩
  have hlt : toBlock - fromBlock < (((f + 1 : Nat) : Int) - 1) * step := by
    have h0 : 0 ≤ toBlock - fromBlock := by linarith
    have h1 : ((toBlock - fromBlock).toNat : Int) = toBlock - fromBlock := Int.toNat_of_nonneg h0
    have h2 : ((toBlock - fromBlock).toNat : Int) + 1 ≤ (f : Int) := by
      have : (toBlock - fromBlock).toNat + 1 ≤ f := by omega
      exact_mod_cast this
    push_cast
    simp only [add_sub_cancel_right]
    have h3 : (f : Int) ≤ (f : Int) * step := by
      have hf0 : (0 : Int) ≤ (f : Int) := Int.natCast_nonneg f
      nlinarith
    linarith
  obtain ⟨g1, g2, g3⟩ := getLogsBatchedRequests_shape rpc toBlock step hs (f + 1) fromBlock
  obtain ⟨k1, k2, _, k4⟩ := subRanges_shape fromBlock toBlock step hs
  refine ⟨getLogsBatchedLoop_isSome rpc toBlock step (f + 1) fromBlock [] (by omega) hlt,
    ?_, g2, g1, ?_, ?_,
    getLogsBatchedRequests_eq_prefix rpc toBlock step hs (f + 1) fromBlock (by omega) hlt,
    ?_, k2, k1, k4⟩
  · rw [getLogsBatchedRequests_step, if_pos hft]
    cases fetchRange rpc
      (fromBlock, if fromBlock + step - 1 > toBlock then toBlock else fromBlock + step - 1) <;>
      rfl
  · intro logs hlogs
    obtain ⟨batches, hb1, hb2, hb3⟩ :=
      getLogsBatchedLoop_result rpc toBlock step (f + 1) fromBlock [] logs hlogs
    exact ⟨hb3, batches, hb1, by rw [hb2, List.nil_append]⟩
  · unfold getLogsBatched
    rw [getLogsBatchedLoop_eq_collect rpc toBlock step hs (f + 1) fromBlock [] (by omega) hlt]
    cases collectBatches rpc (subRanges fromBlock toBlock step) <;> rfl
  · rw [subRanges_cons fromBlock toBlock step hs hft]
    rfl

theorem getLogsBatched_spec_witness :
    ((0 : Int) ≤ 500 ∧ (1 : Int) ≤ 200 ∧ ((500 : Int) - 0).toNat + 2 ≤ 502) ∧
      (getLogsBatched rpcEcho 502 0 500 200).isSome = true :=
  ⟨⟨by norm_num, by norm_num, by decide⟩,
    (getLogsBatched_spec rpcEcho 0 500 200 502 (by norm_num) (by norm_num) (by decide)).1⟩

/-- C13 (the code at the failing input): on a 400 x 400 canvas with 8-pixel
tiles and the origin at the canvas corner, `drawGrid` iterates up to column and
row 50, and the left edge of column 50 is at pixel 400, the canvas width: tile
(50, 0) is iterated but not on screen. -/
theorem drawGrid_iterates_offscreen_tile :
    (drawGridWindow vCorner).endX = 50 ∧ (drawGridWindow vCorner).iterates 50 0 ∧
      vCorner.tilePx = 8 ∧ vCorner.originX + (50 : ℚ) * vCorner.tilePx = vCorner.width ∧
      ¬ onScreen vCorner 50 0 := by
  have h8 : tilePxOf 1 = 8 := by
    unfold tilePxOf
    have : ⌊(8 : ℚ) * 1⌋ = 8 := by
      rw [Int.floor_eq_iff]; constructor <;> norm_num
    rw [this]; rfl
  have hc : ⌈((400 : ℚ) - 0) / ((8 : Int) : ℚ)⌉ = 50 := by
    rw [Int.ceil_eq_iff]; constructor <;> norm_num
  have hf : ⌊(-(0 : ℚ)) / ((8 : Int) : ℚ)⌋ = 0 := by
    rw [Int.floor_eq_iff]; constructor <;> norm_num
  have hw : drawGridWindow vCorner = { startX := 0, startY := 0, endX := 50, endY := 50 } := by
    simp only [drawGridWindow, vCorner, Viewport.initial, h8, hc, hf, GRID_SIZE]
    norm_num
  refine ⟨by rw [hw], ?_, rfl, ?_, ?_⟩
  · rw [hw]
    unfold TileWindow.iterates
    norm_num
  · simp only [vCorner, Viewport.initial]
    norm_num
  · unfold onScreen
    simp only [vCorner, Viewport.initial]
    norm_num

/-- C14 (the code at the failing input): `markTileAsOwned` runs for two tiles
with the same image URL before the first image request ends. Both calls of
`loadImage` miss `imageCache` and dispatch a request: two requests for the same
URL are in flight. -/
theorem loadImage_duplicate_inflight_requests :
    sTwoLoads.tasks =
        [Task.thenLoad 0 artUrl LoadHandle.inflight, Task.thenLoad 1 artUrl LoadHandle.inflight] ∧
      inflightRequests sTwoLoads artUrl = 2 := by
  constructor <;> decide

section PoolLemmas

theorem pool_next_idle (p : Pool) (h : p.queue = []) : p.next = p := by
  unfold Pool.next
  rw [h]

theorem pool_next_full (p : Pool) (task : Nat) (rest : List Nat) (h : p.queue = task :: rest)
    (hfull : p.active ≥ p.concurrency) : p.next = p := by
  unfold Pool.next
  rw [h]
  simp only
  rw [if_pos hfull]

theorem pool_next_start (p : Pool) (task : Nat) (rest : List Nat) (h : p.queue = task :: rest)
    (hfree : ¬ p.active ≥ p.concurrency) :
    p.next =
      { p with
        active := p.active + 1
        queue := rest
        started := p.started ++ [task]
        running := p.running ++ [task] } := by
  unfold Pool.next
  rw [h]
  simp only
  rw [if_neg hfree]

/-- What holds of a pool after `next()`. -/
theorem pool_next_invariant (p : Pool)
    (ha : p.active = p.running.length) (hle : p.running.length ≤ p.concurrency)
    (hq : p.running.length < p.concurrency →
      p.queue.length ≤ 1 ∨ p.running.length + 1 = p.concurrency) :
    p.next.concurrency = p.concurrency ∧ p.next.active = p.next.running.length ∧
      p.next.running.length ≤ p.concurrency ∧
      (p.next.running.length < p.concurrency → p.next.queue = []) ∧
      p.next.started ++ p.next.queue = p.started ++ p.queue := by
  cases hqueue : p.queue with
  | nil =>
    rw [pool_next_idle p hqueue]
    exact ⟨rfl, ha, hle, fun _ => hqueue, by rw [hqueue]⟩
  | cons task rest =>
    by_cases hfull : p.active ≥ p.concurrency
    · rw [pool_next_full p task rest hqueue hfull]
      refine ⟨rfl, ha, hle, ?_, by rw [hqueue]⟩
      intro hlt
      omega
    · rw [pool_next_start p task rest hqueue hfull]
      refine ⟨rfl, ?_, ?_, ?_, ?_⟩
      · show p.active + 1 = (p.running ++ [task]).length
        rw [List.length_append, List.length_singleton, ha]
      · show (p.running ++ [task]).length ≤ p.concurrency
        rw [List.length_append, List.length_singleton]
        omega
      · show (p.running ++ [task]).length < p.concurrency → rest = []
        rw [List.length_append, List.length_singleton]
        intro hlt
        rcases hq (by omega) with h1 | h1
        · rw [hqueue] at h1
          simp only [List.length_cons] at h1
          exact List.length_eq_zero.mp (by omega)
        · omega
      · show (p.started ++ [task]) ++ rest = p.started ++ task :: rest
        simp

theorem pool_settled_running (p : Pool) (task : Nat) (h : task ∈ p.running) :
    p.settled task =
      Pool.next { p with active := p.active - 1, running := p.running.erase task } := by
  unfold Pool.settled
  rw [if_pos h]

theorem pool_settled_other (p : Pool) (task : Nat) (h : task ∉ p.running) :
    p.settled task = p := by
  unfold Pool.settled
  rw [if_neg h]

theorem pool_step_invariant (p : Pool) (e : PoolEvent)
    (ha : p.active = p.running.length) (hle : p.running.length ≤ p.concurrency)
    (hq : p.running.length < p.concurrency → p.queue = []) :
    (p.step e).concurrency = p.concurrency ∧ (p.step e).active = (p.step e).running.length ∧
      (p.step e).running.length ≤ p.concurrency ∧
      ((p.step e).running.length < p.concurrency → (p.step e).queue = []) ∧
      (p.step e).started ++ (p.step e).queue = p.started ++ p.queue ++ submissions [e] := by
  cases e with
  | submit task =>
    obtain ⟨h1, h2, h3, h4, h5⟩ := pool_next_invariant { p with queue := p.queue ++ [task] }
      ha hle (by
        intro hlt
        left
        show (p.queue ++ [task]).length ≤ 1
        rw [hq hlt]
        simp)
    have hst : p.step (PoolEvent.submit task) =
        Pool.next { p with queue := p.queue ++ [task] } := rfl
    rw [hst]
    refine ⟨h1, h2, h3, h4, ?_⟩
    rw [h5]
    simp [submissions]
  | settled task =>
    have hst : p.step (PoolEvent.settled task) = p.settled task := rfl
    rw [hst]
    by_cases hmem : task ∈ p.running
    · rw [pool_settled_running p task hmem]
      have hlen : (p.running.erase task).length = p.running.length - 1 :=
        List.length_erase_of_mem hmem
      have hpos : 0 < p.running.length := List.length_pos_of_mem hmem
      obtain ⟨h1, h2, h3, h4, h5⟩ := pool_next_invariant
        { p with active := p.active - 1, running := p.running.erase task }
        (by show p.active - 1 = (p.running.erase task).length; omega)
        (by show (p.running.erase task).length ≤ p.concurrency; omega)
        (by
          show (p.running.erase task).length < p.concurrency →
            p.queue.length ≤ 1 ∨ (p.running.erase task).length + 1 = p.concurrency
          intro _
          by_cases hfull : p.running.length < p.concurrency
          · left
            rw [hq hfull]
            simp
          · right
            omega)
      refine ⟨h1, h2, h3, h4, ?_⟩
      rw [h5]
      simp [submissions]
    · rw [pool_settled_other p task hmem]
      exact ⟨rfl, ha, hle, hq, by simp [submissions]⟩

theorem submissions_append (a b : List PoolEvent) :
    submissions (a ++ b) = submissions a ++ submissions b := by
  induction a with
  | nil => rfl
  | cons e rest ih =>
    cases e with
    | submit task =>
      show task :: submissions (rest ++ b) = task :: submissions rest ++ submissions b
      rw [ih]
      rfl
    | settled task =>
      show submissions (rest ++ b) = submissions rest ++ submissions b
      exact ih

theorem pool_run_invariant (events : List PoolEvent) :
    ∀ (p : Pool), p.active = p.running.length → p.running.length ≤ p.concurrency →
      (p.running.length < p.concurrency → p.queue = []) →
      (p.run events).concurrency = p.concurrency ∧
        (p.run events).active = (p.run events).running.length ∧
        (p.run events).running.length ≤ p.concurrency ∧
        ((p.run events).running.length < p.concurrency → (p.run events).queue = []) ∧
        (p.run events).started ++ (p.run events).queue =
          p.started ++ p.queue ++ submissions events := by
  induction events with
  | nil =>
    intro p ha hle hq
    exact ⟨rfl, ha, hle, hq, by simp [Pool.run, submissions]⟩
  | cons e rest ih =>
    intro p ha hle hq
    obtain ⟨h1, h2, h3, h4, h5⟩ := pool_step_invariant p e ha hle hq
    obtain ⟨k1, k2, k3, k4, k5⟩ := ih (p.step e) h2 (by rw [h1]; exact h3)
      (by rw [h1]; exact h4)
    rw [h1] at k1 k3 k4
    refine ⟨k1, k2, k3, k4, ?_⟩
    show ((p.step e).run rest).started ++ ((p.step e).run rest).queue = _
    rw [k5, h5, List.append_assoc, ← submissions_append]
    rfl

theorem pool_run_snoc (p : Pool) (events : List PoolEvent) (e : PoolEvent) :
    p.run (events ++ [e]) = (p.run events).step e := by
  unfold Pool.run
  rw [List.foldl_append]
  rfl

/-- A completion while a task is queued: the slot goes to the head of the queue. -/
theorem pool_settled_starts_next (p : Pool) (task q : Nat) (rest : List Nat)
    (ha : p.active = p.running.length) (hle : p.running.length ≤ p.concurrency)
    (hmem : task ∈ p.running) (hq : p.queue = q :: rest) :
    p.settled task =
      { p with
        queue := rest
        started := p.started ++ [q]
        running := p.running.erase task ++ [q] } := by
  have hpos : 0 < p.running.length := List.length_pos_of_mem hmem
  rw [pool_settled_running p task hmem,
    pool_next_start { p with active := p.active - 1, running := p.running.erase task } q rest hq
      (by show ¬ p.active - 1 ≥ p.concurrency; omega)]
  have h1 : p.active - 1 + 1 = p.active := by omega
  simp only [h1]

/-- A completion while nothing is queued: the slot stays free. -/
theorem pool_settled_frees (p : Pool) (task : Nat) (hmem : task ∈ p.running)
    (hq : p.queue = []) :
    p.settled task = { p with active := p.active - 1, running := p.running.erase task } := by
  rw [pool_settled_running p task hmem]
  exact pool_next_idle _ hq

/-- A submission while a slot is free: the task starts at once. -/
theorem pool_submit_starts (p : Pool) (task : Nat) (ha : p.active = p.running.length)
    (hfree : p.running.length < p.concurrency) (hq : p.queue = []) :
    p.submit task =
      { p with
        active := p.active + 1
        started := p.started ++ [task]
        running := p.running ++ [task] } := by
  unfold Pool.submit
  rw [pool_next_start { p with queue := p.queue ++ [task] } task []
    (by show p.queue ++ [task] = [task]; rw [hq]; rfl)
    (by show ¬ p.active ≥ p.concurrency; omega)]
  simp only [hq]

/-- A submission while every slot is taken: the task waits at the back of the
queue. -/
theorem pool_submit_queues (p : Pool) (task : Nat) (ha : p.active = p.running.length)
    (hfull : ¬ p.running.length < p.concurrency) :
    p.submit task = { p with queue := p.queue ++ [task] } := by
  unfold Pool.submit
  obtain ⟨q, rest, hq⟩ := List.exists_cons_of_ne_nil
    (List.append_ne_nil_of_right_ne_nil p.queue (List.cons_ne_nil task []))
  exact pool_next_full { p with queue := p.queue ++ [task] } q rest hq
    (by show p.active ≥ p.concurrency; omega)

end PoolLemmas

/-- C20: for a pool `pLimit(c)` with c >= 1 and every sequence of submissions
and completions, the number of tasks started and not yet settled never
exceeds c (and equals the counter `active`); the tasks started so far followed
by the tasks still queued are the submitted tasks in submission order, so
tasks start first in, first out; whenever fewer than c tasks are in flight
the queue is empty, that is, every submitted task has been started; and each
further event acts as follows: when a running task settles while the queue is
q :: rest, that task leaves the running tasks and q, the task queued first, is
started in its place, leaving rest queued; when it settles while the queue is
empty, it leaves the running tasks and nothing else changes; a task submitted
while fewer than c tasks run is started at once; and a task submitted while c
tasks run is put at the back of the queue and nothing is started. -/
theorem pLimit_spec (c : Nat) (_hc : 1 ≤ c) (events : List PoolEvent) :
    ((pLimit c).run events).running.length ≤ c ∧
      ((pLimit c).run events).active = ((pLimit c).run events).running.length ∧
      ((pLimit c).run events).started ++ ((pLimit c).run events).queue = submissions events ∧
      (((pLimit c).run events).running.length < c → ((pLimit c).run events).queue = []) ∧
      (∀ task q rest, task ∈ ((pLimit c).run events).running →
        ((pLimit c).run events).queue = q :: rest →
        (pLimit c).run (events ++ [PoolEvent.settled task]) =
          { (pLimit c).run events with
            queue := rest
            started := ((pLimit c).run events).started ++ [q]
            running := ((pLimit c).run events).running.erase task ++ [q] }) ∧
      (∀ task, task ∈ ((pLimit c).run events).running →
        ((pLimit c).run events).queue = [] →
        (pLimit c).run (events ++ [PoolEvent.settled task]) =
          { (pLimit c).run events with
            active := ((pLimit c).run events).active - 1
            running := ((pLimit c).run events).running.erase task }) ∧
      (∀ task, ((pLimit c).run events).running.length < c →
        (pLimit c).run (events ++ [PoolEvent.submit task]) =
          { (pLimit c).run events with
            active := ((pLimit c).run events).active + 1
            started := ((pLimit c).run events).started ++ [task]
            running := ((pLimit c).run events).running ++ [task] }) ∧
      (∀ task, ¬ ((pLimit c).run events).running.length < c →
        (pLimit c).run (events ++ [PoolEvent.submit task]) =
          { (pLimit c).run events with
            queue := ((pLimit c).run events).queue ++ [task] }) := by
  obtain ⟨h1, h2, h3, h4, h5⟩ := pool_run_invariant events (pLimit c) rfl (Nat.zero_le _)
    (fun _ => rfl)
  have hc : ((pLimit c).run events).concurrency = c := h1
  refine ⟨h3, h2, by simpa [pLimit] using h5, h4, ?_, ?_, ?_, ?_⟩
  · intro task q rest hmem hq
    rw [pool_run_snoc]
    exact pool_settled_starts_next _ task q rest h2 (by rw [hc]; exact h3) hmem hq
  · intro task hmem hq
    rw [pool_run_snoc]
    exact pool_settled_frees _ task hmem hq
  · intro task hfree
    rw [pool_run_snoc]
    exact pool_submit_starts _ task h2 (by rw [hc]; exact hfree) (h4 hfree)
  · intro task hfull
    rw [pool_run_snoc]
    exact pool_submit_queues _ task h2 (by rw [hc]; exact hfull)

theorem pLimit_spec_witness :
    1 ≤ 2 ∧ ((pLimit 2).run [PoolEvent.submit 0, PoolEvent.submit 1, PoolEvent.submit 2,
      PoolEvent.settled 1]).running.length ≤ 2 :=
  ⟨by decide, (pLimit_spec 2 (by decide) [PoolEvent.submit 0, PoolEvent.submit 1,
    PoolEvent.submit 2, PoolEvent.settled 1]).1⟩

section ReloadLemmas

theorem Number_toString (n : Nat) : Number (toString n) = n :=
  numeralValue_toDigits 10 (by norm_num) (by norm_num) n

/-- Parsing the persisted record gives back the cache that was written. -/
theorem reload_record (c : List (Nat × Option String)) :
    (persistedRecord c).map (fun e => (Number e.1, e.2)) = c := by
  unfold persistedRecord
  rw [List.map_map]
  have : ((fun e : String × Option String => (Number e.1, e.2)) ∘
      (fun e : Nat × Option String => (toString e.1, e.2))) = id := by
    funext e
    show (Number (toString e.1), e.2) = e
    rw [Number_toString]
  rw [this, List.map_id]

theorem mem_keys_objSet (c : List (Nat × Option String)) (k : Nat) (v : Option String)
    (j : Nat) : j ∈ (objSet c k v).map Prod.fst ↔ j = k ∨ j ∈ c.map Prod.fst := by
  induction c with
  | nil => simp [objSet]
  | cons p rest ih =>
    obtain ⟨k', v'⟩ := p
    unfold objSet
    by_cases h1 : k' = k
    · subst h1
      simp
    · rw [if_neg h1]
      by_cases h2 : k < k'
      · rw [if_pos h2]
        simp
      · rw [if_neg h2]
        simp only [List.map_cons, List.mem_cons, ih]
        constructor
        · rintro (h | h | h)
          · exact Or.inr (Or.inl h)
          · exact Or.inl h
          · exact Or.inr (Or.inr h)
        · rintro (h | h | h)
          · exact Or.inr (Or.inl h)
          · exact Or.inl h
          · exact Or.inr (Or.inr h)

theorem wellKeyed_objSet (c : List (Nat × Option String)) (k : Nat) (v : Option String)
    (h : WellKeyed c) : WellKeyed (objSet c k v) := by
  unfold WellKeyed at *
  induction c with
  | nil => simp [objSet]
  | cons p rest ih =>
    obtain ⟨k', v'⟩ := p
    rw [List.map_cons, List.pairwise_cons] at h
    unfold objSet
    by_cases h1 : k' = k
    · subst h1
      rw [if_pos rfl, List.map_cons, List.pairwise_cons]
      exact h
    · rw [if_neg h1]
      by_cases h2 : k < k'
      · rw [if_pos h2, List.map_cons, List.pairwise_cons, List.map_cons, List.pairwise_cons]
        refine ⟨?_, h⟩
        intro j hj
        rcases List.mem_cons.mp hj with hm | hm
        · rw [hm]; exact h2
        · exact lt_trans h2 (h.1 j hm)
      · rw [if_neg h2, List.map_cons, List.pairwise_cons]
        refine ⟨?_, ih h.2⟩
        intro j hj
        rcases (mem_keys_objSet rest k v j).mp hj with hm | hm
        · rw [hm]
          show k' < k
          omega
        · exact h.1 j hm

/-- In a well-keyed cache the entry of a key is the one `mapGet` finds. -/
theorem entry_unique (c : List (Nat × Option String)) (hc : WellKeyed c) (k : Nat)
    (v : Option String) (hg : mapGet c k = some v) :
    ∀ e ∈ c, e.1 = k → e.2 = v := by
  unfold WellKeyed at hc
  induction c with
  | nil => intro e he; cases he
  | cons p rest ih =>
    obtain ⟨k', v'⟩ := p
    rw [List.map_cons, List.pairwise_cons] at hc
    intro e he hek
    unfold mapGet at hg
    by_cases h1 : k' = k
    · rw [if_pos h1] at hg
      rcases List.mem_cons.mp he with hm | hm
      · rw [hm]
        exact Option.some.inj hg
      · exfalso
        have : k' < e.1 := hc.1 e.1 (List.mem_map_of_mem _ hm)
        omega
    · rw [if_neg h1] at hg
      rcases List.mem_cons.mp he with hm | hm
      · rw [hm] at hek
        exact absurd hek h1
      · exact ih hc.2 hg e hm hek

theorem mem_of_mapGet (c : List (Nat × Option String)) (k : Nat) (v : Option String)
    (hg : mapGet c k = some v) : (k, v) ∈ c := by
  induction c with
  | nil => cases hg
  | cons p rest ih =>
    obtain ⟨k', v'⟩ := p
    unfold mapGet at hg
    by_cases h1 : k' = k
    · rw [if_pos h1] at hg
      rw [h1, Option.some.inj hg]
      exact List.mem_cons_self _ _
    · rw [if_neg h1] at hg
      exact List.mem_cons_of_mem _ (ih hg)

/-- What the loop of `hydrateFromCache` leaves behind. -/
theorem hydrate_foldl_spec (entries : List (Nat × Option String)) :
    ∀ s : State,
      (entries.foldl hydrateEntry s).tileImages = s.tileImages ∧
      (entries.foldl hydrateEntry s).imageCache = s.imageCache ∧
      (entries.foldl hydrateEntry s).imageCachePersist = s.imageCachePersist ∧
      (∀ id, id ∈ (entries.foldl hydrateEntry s).ownedSet ↔
        id ∈ s.ownedSet ∨ id ∈ entries.map Prod.fst) ∧
      (∀ id, id ∈ (entries.foldl hydrateEntry s).logoTiles ↔
        id ∈ s.logoTiles ∨ ∃ e ∈ entries, e.1 = id ∧ orNull e.2 = none) ∧
      (∀ t, t ∈ (entries.foldl hydrateEntry s).tasks ↔
        t ∈ s.tasks ∨ ∃ e ∈ entries, ∃ u, orNull e.2 = some u ∧
          t = Task.thenLoad e.1 u (loadImage s.imageCache u)) := by
  induction entries with
  | nil =>
    intro s
    simp
  | cons e rest ih =>
    intro s
    obtain ⟨h1, h2, h3, h4, h5, h6⟩ := ih (hydrateEntry s e)
    have hs : (hydrateEntry s e).tileImages = s.tileImages ∧
        (hydrateEntry s e).imageCache = s.imageCache ∧
        (hydrateEntry s e).imageCachePersist = s.imageCachePersist ∧
        (hydrateEntry s e).ownedSet = setAdd s.ownedSet e.1 ∧
        (∀ id, id ∈ (hydrateEntry s e).logoTiles ↔
          id ∈ s.logoTiles ∨ (e.1 = id ∧ orNull e.2 = none)) ∧
        (∀ t, t ∈ (hydrateEntry s e).tasks ↔
          t ∈ s.tasks ∨ ∃ u, orNull e.2 = some u ∧
            t = Task.thenLoad e.1 u (loadImage s.imageCache u)) := by
      unfold hydrateEntry
      cases ho : orNull e.2 with
      | none =>
        refine ⟨rfl, rfl, rfl, rfl, ?_, ?_⟩
        · intro id
          show id ∈ setAdd s.logoTiles e.1 ↔ _
          rw [mem_setAdd]
          constructor
          · rintro (h | h)
            · exact Or.inl h
            · exact Or.inr ⟨h.symm, rfl⟩
          · rintro (h | ⟨h, -⟩)
            · exact Or.inl h
            · exact Or.inr h.symm
        · intro t
          show t ∈ s.tasks ↔ _
          constructor
          · exact Or.inl
          · rintro (h | ⟨u, hu, -⟩)
            · exact h
            · cases hu
      | some url =>
        refine ⟨rfl, rfl, rfl, rfl, ?_, ?_⟩
        · intro id
          show id ∈ s.logoTiles ↔ _
          constructor
          · exact Or.inl
          · rintro (h | ⟨-, h⟩)
            · exact h
            · cases h
        · intro t
          show t ∈ s.tasks ++ [Task.thenLoad e.1 url (loadImage s.imageCache url)] ↔ _
          rw [List.mem_append, List.mem_singleton]
          constructor
          · rintro (h | h)
            · exact Or.inl h
            · exact Or.inr ⟨url, rfl, h⟩
          · rintro (h | ⟨u, hu, h⟩)
            · exact Or.inl h
            · cases hu
              exact Or.inr h
    obtain ⟨g1, g2, g3, g4, g5, g6⟩ := hs
    rw [List.foldl_cons]
    refine ⟨by rw [h1, g1], by rw [h2, g2], by rw [h3, g3], ?_, ?_, ?_⟩
    · intro id
      rw [h4, g4, mem_setAdd, List.map_cons, List.mem_cons]
      exact or_assoc
    · intro id
      rw [h5, g5]
      simp only [List.mem_cons, exists_eq_or_imp]
      exact or_assoc
    · intro t
      rw [h6, g6, g2]
      simp only [List.mem_cons, exists_eq_or_imp]
      exact or_assoc

end ReloadLemmas

/-- C11 (as stated, refuted): `handleMintOrTransfer` cached `artUrl` for token 7
and, the image request having failed, put the tile in `logoTiles`. After the
cache is written out, parsed in a fresh session and hydrated, tile 7 is owned
but no longer in `logoTiles`: its membership is not what it was before the
reload. -/
theorem reload_drops_placeholder_of_url_entry :
    getCachedImage sMintLoadFailed.imageCachePersist 7 = some artUrl ∧
      7 ∈ sMintLoadFailed.logoTiles ∧
      7 ∈ (reloadSession (persistedRecord sMintLoadFailed.imageCachePersist)).ownedSet ∧
      7 ∉ (reloadSession (persistedRecord sMintLoadFailed.imageCachePersist)).logoTiles := by
  refine ⟨by decide, by decide, by decide, by decide⟩

/-- C11 (amended): let `setCachedImage(id, url)` write an assignment into a
cache, and let the cache be serialised, parsed in a fresh session and
hydrated. Then the fresh session holds the same cache and the id is owned. For
a null assignment the id is in `logoTiles`, no image is requested for it and
`tileImages` is empty. For a URL assignment the id is not in `logoTiles`
(whatever its membership was before the reload), exactly one kind of
continuation waits for it, an in-flight request for that URL, and when that
request succeeds `tileImages` maps the id to the loaded image. -/
theorem cache_roundtrip (c : List (Nat × Option String)) (hc : WellKeyed c) (id : Nat)
    (url : Option String) :
    (reloadSession (persistedRecord (setCachedImage c id url))).imageCachePersist =
      setCachedImage c id url ∧
    id ∈ (reloadSession (persistedRecord (setCachedImage c id url))).ownedSet ∧
    (reloadSession (persistedRecord (setCachedImage c id url))).tileImages = [] ∧
    (truthy url = false →
      id ∈ (reloadSession (persistedRecord (setCachedImage c id url))).logoTiles ∧
      ∀ (u : String) (h : LoadHandle),
        Task.thenLoad id u h ∉
          (reloadSession (persistedRecord (setCachedImage c id url))).tasks) ∧
    (∀ u : String, url = some u → truthy url = true →
      id ∉ (reloadSession (persistedRecord (setCachedImage c id url))).logoTiles ∧
      Task.thenLoad id u LoadHandle.inflight ∈
        (reloadSession (persistedRecord (setCachedImage c id url))).tasks ∧
      (∀ (u' : String) (h : LoadHandle),
        Task.thenLoad id u' h ∈
          (reloadSession (persistedRecord (setCachedImage c id url))).tasks →
        u' = u ∧ h = LoadHandle.inflight) ∧
      (∀ (i : Nat) (img : Img) (r : Bool),
        (reloadSession (persistedRecord (setCachedImage c id url))).tasks.get? i =
          some (Task.thenLoad id u LoadHandle.inflight) →
        mapGet (settle (reloadSession (persistedRecord (setCachedImage c id url))) i
          (Signal.image (some img) r)).tileImages id = some img)) := by
  have hrel : reloadSession (persistedRecord (setCachedImage c id url)) =
      (setCachedImage c id url).foldl hydrateEntry
        { State.empty with imageCachePersist := setCachedImage c id url } := by
    unfold reloadSession hydrateFromCache
    rw [reload_record]
  obtain ⟨h1, h2, h3, h4, h5, h6⟩ := hydrate_foldl_spec (setCachedImage c id url)
    { State.empty with imageCachePersist := setCachedImage c id url }
  have hwk : WellKeyed (setCachedImage c id url) := wellKeyed_objSet c id _ hc
  have hget : mapGet (setCachedImage c id url) id = some (orNull url) :=
    mapGet_objSet_self c id _
  have hmem : (id, orNull url) ∈ setCachedImage c id url := mem_of_mapGet _ _ _ hget
  have huniq := entry_unique _ hwk id _ hget
  have hload : ∀ u : String, orNull (orNull url) = some u →
      loadImage ([] : List (String × Img)) u = LoadHandle.inflight := by
    intro u hu
    have htr := (orNull_eq_some _ u hu).2
    unfold loadImage
    have hne : (u == "") = false := by
      cases hb : (u == "") with
      | false => rfl
      | true => simp [truthy, hb] at htr
    rw [hne]
    rfl
  rw [hrel]
  refine ⟨h3, ?_, h1, ?_, ?_⟩
  · rw [h4]
    right
    exact List.mem_map_of_mem Prod.fst hmem
  · intro hu
    have hnull : orNull url = none := orNull_of_not_truthy url (by simp [hu])
    constructor
    · rw [h5]
      right
      exact ⟨_, hmem, rfl, by rw [hnull]; rfl⟩
    · intro u h ht
      rw [h6] at ht
      rcases ht with ht | ⟨e, he, u', hu', ht⟩
      · cases ht
      · have hid : e.1 = id := by
          injection ht with a _ _
          exact a.symm
        rw [huniq e he hid, hnull] at hu'
        cases hu'
  · intro u hurl hu
    have hval : orNull url = some u := by rw [orNull_of_truthy url hu, hurl]
    refine ⟨?_, ?_, ?_, ?_⟩
    · rw [h5]
      rintro (h | ⟨e, he, hid, hnone⟩)
      · cases h
      · rw [huniq e he hid, orNull_orNull, hval] at hnone
        cases hnone
    · rw [h6]
      right
      refine ⟨_, hmem, u, by rw [orNull_orNull, hval], ?_⟩
      show Task.thenLoad id u LoadHandle.inflight = Task.thenLoad id u (loadImage [] u)
      rw [hload u (by rw [orNull_orNull, hval])]
    · intro u' h ht
      rw [h6] at ht
      rcases ht with ht | ⟨e, he, u'', hu'', ht⟩
      · cases ht
      · injection ht with a b d
        have hid : e.1 = id := a.symm
        rw [huniq e he hid] at hu''
        have hu2 : u'' = u := by
          rw [orNull_orNull, hval] at hu''
          exact (Option.some.inj hu'').symm
        subst hu2
        refine ⟨b, ?_⟩
        rw [d]
        exact hload u'' (by rw [orNull_orNull, hval])
    · intro i img r hi
      rw [settle_of_get _ i _ _ hi]
      simp only [resume]
      unfold thenLoadContinue
      simp only [LoadHandle.result]
      exact mapGet_mapSet_self _ _ _

theorem cache_roundtrip_witness :
    WellKeyed sMintLoadFailed.imageCachePersist ∧
      7 ∈ (reloadSession (persistedRecord
        (setCachedImage sMintLoadFailed.imageCachePersist 7 none))).ownedSet :=
  have hw : WellKeyed sMintLoadFailed.imageCachePersist := by
    unfold WellKeyed
    decide
  ⟨hw, (cache_roundtrip sMintLoadFailed.imageCachePersist hw 7 none).2.1⟩

section VisibleLemmas

/-- The tile size `drawGrid` works with is at least 4 pixels. -/
theorem tilePxOf_ge_four (scale : ℚ) : 4 ≤ tilePxOf scale := le_max_left _ _

/-- One axis of the window: a tile index in 0..99 whose pixel interval meets
`[0, extent)` lies between the computed start and end. -/
theorem window_axis_contains (origin extent : ℚ) (t x : Int) (ht : 0 < t)
    (h0 : 0 ≤ x) (h99 : x ≤ 99)
    (hleft : origin + (x : ℚ) * t < extent) (hright : 0 < origin + ((x : ℚ) + 1) * t) :
    max 0 ⌊-origin / (t : ℚ)⌋ ≤ x ∧
      x ≤ min ((GRID_SIZE : Int) - 1) ⌈(extent - origin) / (t : ℚ)⌉ := by
  have htq : (0 : ℚ) < (t : ℚ) := by exact_mod_cast ht
  constructor
  · apply max_le h0
    have : ⌊-origin / (t : ℚ)⌋ < x + 1 := by
      rw [Int.floor_lt, div_lt_iff₀ htq]
      push_cast
      linarith
    omega
  · apply le_min
    · simp only [GRID_SIZE]
      omega
    · have : x < ⌈(extent - origin) / (t : ℚ)⌉ := by
        rw [Int.lt_ceil, lt_div_iff₀ htq]
        linarith
      omega

end VisibleLemmas

/-- C21: for every viewport and canvas size, with the tile size `drawGrid`
works with (`max(4, floor(8 * scale))`, which is the stored `tilePx` whenever
that matches `scale`), every grid tile (x, y) with 0 <= x, y <= 99 whose pixel
rectangle meets the canvas [0, width) x [0, height) satisfies
startX <= x <= endX and startY <= y <= endY: the window skips no on-screen
tile. -/
theorem drawGrid_window_contains_visible (v : Viewport) (x y : Int)
    (_hw : 0 < v.width) (_hh : 0 < v.height)
    (hx : 0 ≤ x ∧ x ≤ 99) (hy : 0 ≤ y ∧ y ≤ 99) :
    (4 ≤ (drawGridViewport v).tilePx) ∧
    (onScreen (drawGridViewport v) x y → (drawGridWindow v).iterates x y) ∧
    (TilePxSynced v → 4 ≤ v.tilePx ∧ (onScreen v x y → (drawGridWindow v).iterates x y)) := by
  have h4 : 4 ≤ tilePxOf v.scale := tilePxOf_ge_four v.scale
  have key : onScreen (drawGridViewport v) x y → (drawGridWindow v).iterates x y := by
    rintro ⟨a, b, c, d⟩
    obtain ⟨sx, ex⟩ := window_axis_contains v.originX v.width (tilePxOf v.scale) x
      (by omega) hx.1 hx.2 a b
    obtain ⟨sy, ey⟩ := window_axis_contains v.originY v.height (tilePxOf v.scale) y
      (by omega) hy.1 hy.2 c d
    exact ⟨sx, ex, sy, ey⟩
  refine ⟨h4, key, ?_⟩
  intro hs
  have hv : drawGridViewport v = v := by
    unfold drawGridViewport
    rw [← hs]
  rw [hv] at key
  exact ⟨by rw [hs]; exact h4, key⟩

theorem drawGrid_window_contains_visible_witness :
    ((0 < vCorner.width ∧ 0 < vCorner.height) ∧
      ((0 : Int) ≤ 49 ∧ (49 : Int) ≤ 99) ∧ ((0 : Int) ≤ 0 ∧ (0 : Int) ≤ 99) ∧
      onScreen (drawGridViewport vCorner) 49 0) ∧
      (drawGridWindow vCorner).iterates 49 0 :=
  have hw : 0 < vCorner.width := by norm_num [vCorner, Viewport.initial]
  have hh : 0 < vCorner.height := by norm_num [vCorner, Viewport.initial]
  have h8 : tilePxOf 1 = 8 := by
    unfold tilePxOf
    have : ⌊(8 : ℚ) * 1⌋ = 8 := by
      rw [Int.floor_eq_iff]; constructor <;> norm_num
    rw [this]; rfl
  have hon : onScreen (drawGridViewport vCorner) 49 0 := by
    simp only [onScreen, drawGridViewport, vCorner, Viewport.initial, h8]
    norm_num
  ⟨⟨⟨hw, hh⟩, by decide, by decide, hon⟩,
    (drawGrid_window_contains_visible vCorner 49 0 hw hh (by decide) (by decide)).2.1 hon⟩

section InterleaveLemmas

theorem tileView_eq (s s1 : State) (id : Nat)
    (h1 : id ∈ s1.ownedSet ↔ id ∈ s.ownedSet)
    (h2 : mapGet s1.tileImages id = mapGet s.tileImages id)
    (h3 : id ∈ s1.logoTiles ↔ id ∈ s.logoTiles)
    (h4 : getCachedImage s1.imageCachePersist id = getCachedImage s.imageCachePersist id) :
    tileView s1 id = tileView s id := by
  unfold tileView
  rw [h2, h4, decide_eq_decide.mpr h1, decide_eq_decide.mpr h3]

theorem tileView_tasks (s : State) (tasks : List Task) (id : Nat) :
    tileView { s with tasks := tasks } id = tileView s id := rfl

theorem mem_setAdd_of_ne (xs : List Nat) (k id : Nat) (h : id ≠ k) :
    id ∈ setAdd xs k ↔ id ∈ xs := by
  rw [mem_setAdd]
  exact ⟨fun hm => hm.resolve_right h, Or.inl⟩

theorem mem_setDelete_of_ne (xs : List Nat) (k id : Nat) (h : id ≠ k) :
    id ∈ setDelete xs k ↔ id ∈ xs := by
  rw [mem_setDelete]
  exact ⟨fun hm => hm.1, fun hm => ⟨hm, h⟩⟩

theorem markTileAsOwned_frame (s : State) (x y : Nat) (u : Option String) (id : Nat)
    (h : id ≠ tileId x y) : tileView (markTileAsOwned s x y u) id = tileView s id := by
  unfold markTileAsOwned
  cases orNull u with
  | none =>
    exact tileView_eq _ _ id (mem_setAdd_of_ne _ _ _ h) rfl (mem_setAdd_of_ne _ _ _ h)
      (getCachedImage_setCachedImage_ne _ _ _ _ h)
  | some url =>
    exact tileView_eq _ _ id (mem_setAdd_of_ne _ _ _ h) rfl Iff.rfl
      (getCachedImage_setCachedImage_ne _ _ _ _ h)

theorem handleMintOrTransfer_frame (s : State) (k id : Nat) (h : id ≠ k) :
    tileView (handleMintOrTransfer s k) id = tileView s id :=
  tileView_eq _ _ id (mem_setAdd_of_ne _ _ _ h) rfl Iff.rfl rfl

theorem mintCatch_frame (s : State) (k id : Nat) (h : id ≠ k) :
    tileView (mintCatch s k) id = tileView s id :=
  tileView_eq _ _ id (mem_setAdd_of_ne _ _ _ h) rfl (mem_setAdd_of_ne _ _ _ h)
    (getCachedImage_setCachedImage_ne _ _ _ _ h)

theorem mintAfterMeta_frame (s : State) (k : Nat) (u : Option String) (id : Nat) (h : id ≠ k) :
    tileView (mintAfterMeta s k u) id = tileView s id := by
  unfold mintAfterMeta
  cases orNull u with
  | none =>
    exact tileView_eq _ _ id Iff.rfl rfl (mem_setAdd_of_ne _ _ _ h)
      (getCachedImage_setCachedImage_ne _ _ _ _ h)
  | some url =>
    exact tileView_eq _ _ id Iff.rfl rfl Iff.rfl (getCachedImage_setCachedImage_ne _ _ _ _ h)

theorem mintAfterLoad_frame (s : State) (k : Nat) (url : String) (hd : LoadHandle)
    (arrived : Option Img) (r : Bool) (id : Nat) (h : id ≠ k) :
    tileView (mintAfterLoad s k url hd arrived r) id = tileView s id := by
  unfold mintAfterLoad
  cases hd.result arrived with
  | none =>
    cases r with
    | true =>
      simp only [if_true]
      rw [mintCatch_frame _ _ _ h]
      exact tileView_eq _ _ id Iff.rfl rfl (mem_setAdd_of_ne _ _ _ h) rfl
    | false =>
      exact tileView_eq _ _ id Iff.rfl rfl (mem_setAdd_of_ne _ _ _ h) rfl
  | some img =>
    cases r with
    | true =>
      simp only [if_true]
      rw [mintCatch_frame _ _ _ h]
      exact tileView_eq _ _ id Iff.rfl (mapGet_mapSet_ne _ _ _ _ h) Iff.rfl rfl
    | false =>
      exact tileView_eq _ _ id Iff.rfl (mapGet_mapSet_ne _ _ _ _ h) Iff.rfl rfl

theorem thenLoadContinue_frame (s : State) (k : Nat) (url : String) (hd : LoadHandle)
    (arrived : Option Img) (id : Nat) (h : id ≠ k) :
    tileView (thenLoadContinue s k url hd arrived) id = tileView s id := by
  unfold thenLoadContinue
  cases hd.result arrived with
  | none => rfl
  | some img => exact tileView_eq _ _ id Iff.rfl (mapGet_mapSet_ne _ _ _ _ h) Iff.rfl rfl

theorem refreshAfterMeta_frame (s : State) (k : Nat) (u : Option String) (id : Nat)
    (h : id ≠ k) : tileView (refreshAfterMeta s k u) id = tileView s id := by
  unfold refreshAfterMeta
  cases orNull u with
  | none => rfl
  | some url =>
    simp only
    split
    · exact tileView_eq _ _ id Iff.rfl rfl Iff.rfl (getCachedImage_setCachedImage_ne _ _ _ _ h)
    · rfl

theorem refreshAfterLoad_frame (s : State) (k : Nat) (url : String) (hd : LoadHandle)
    (arrived : Option Img) (id : Nat) (h : id ≠ k) :
    tileView (refreshAfterLoad s k url hd arrived) id = tileView s id := by
  unfold refreshAfterLoad
  cases hd.result arrived with
  | none => rfl
  | some img =>
    exact tileView_eq _ _ id Iff.rfl (mapGet_mapSet_ne _ _ _ _ h) (mem_setDelete_of_ne _ _ _ h)
      rfl

/-- A continuation that works on another tile leaves the view of tile `id`
as it is. -/
theorem resume_frame (s0 s1 : State) (t : Task) (sig : Signal) (id : Nat)
    (hr : resume s0 t sig = some s1) (h : id ≠ t.tile) : tileView s1 id = tileView s0 id := by
  cases t <;> cases sig <;> simp only [resume, Option.some.injEq] at hr <;>
    first
      | exact absurd hr (by simp)
      | (subst hr
         first
           | rfl
           | exact thenLoadContinue_frame _ _ _ _ _ _ h
           | exact mintAfterMeta_frame _ _ _ _ h
           | exact mintCatch_frame _ _ _ h
           | exact mintAfterLoad_frame _ _ _ _ _ _ _ h
           | exact refreshAfterMeta_frame _ _ _ _ h
           | exact refreshAfterLoad_frame _ _ _ _ _ _ h
           | exact markTileAsOwned_frame _ _ _ _ _ h)

theorem loadMintedTilesOnStartup_frame (s : State) (rpc : RpcEnv) (id : Nat) :
    tileView (loadMintedTilesOnStartup s rpc) id = tileView s id := by
  unfold loadMintedTilesOnStartup
  split
  · rfl
  · split
    · rfl
    · rfl
    · split <;> rfl

theorem hydrateFromCache_frame (s : State) (id : Nat)
    (h : id ∉ s.imageCachePersist.map Prod.fst) :
    tileView (hydrateFromCache s) id = tileView s id := by
  unfold hydrateFromCache
  obtain ⟨h1, -, h3, h4, h5, -⟩ := hydrate_foldl_spec s.imageCachePersist s
  refine tileView_eq _ _ id ?_ (by rw [h1]) ?_ (by rw [h3])
  · rw [h4]
    exact ⟨fun hm => hm.resolve_right h, Or.inl⟩
  · rw [h5]
    refine ⟨fun hm => hm.resolve_right ?_, Or.inl⟩
    rintro ⟨e, he, hid, -⟩
    exact h (List.mem_map.mpr ⟨e, he, hid⟩)

/-- An event that is not an operation on tile `id` leaves the view of tile
`id` as it is. -/
theorem step_frame (s : State) (e : Event) (id : Nat) (h : touches s id e = false) :
    tileView (step s e) id = tileView s id := by
  cases e with
  | markTileAsOwned x y u =>
    have hne : id ≠ tileId x y := by
      intro hc
      simp [touches, hc] at h
    exact markTileAsOwned_frame s x y u id hne
  | hydrateFromCache =>
    have hn : id ∉ s.imageCachePersist.map Prod.fst := by
      simpa [touches] using h
    exact hydrateFromCache_frame s id hn
  | handleMintOrTransfer k =>
    have hne : id ≠ k := by
      intro hc
      simp [touches, hc] at h
    exact handleMintOrTransfer_frame s k id hne
  | refreshPendingReveals => rfl
  | loadMintedTilesOnStartup rpc => exact loadMintedTilesOnStartup_frame s rpc id
  | settle i sig =>
    show tileView (settle s i sig) id = tileView s id
    unfold settle
    cases ht : s.tasks.get? i with
    | none => rfl
    | some t =>
      simp only
      cases hr : resume { s with tasks := s.tasks.eraseIdx i } t sig with
      | none => rfl
      | some s1 =>
        have h2 : (t.tile == id) = false := by
          simp only [touches] at h
          rw [ht] at h
          exact h
        have hne : id ≠ t.tile := by
          intro hc
          simp [hc] at h2
        exact (resume_frame _ s1 t sig id hr hne).trans (tileView_tasks s _ id)

/-- Events none of which is an operation on tile `id` leave the view of tile
`id` as it is. -/
theorem run_frame (id : Nat) (es : List Event) :
    ∀ s : State, Untouched id s es → tileView (run s es) id = tileView s id := by
  induction es with
  | nil =>
    intro s _
    rfl
  | cons e rest ih =>
    intro s h
    obtain ⟨h1, h2⟩ := h
    exact (ih (step s e) h2).trans (step_frame s e id h1)

end InterleaveLemmas

/-- C7 (as stated, refuted): tile 0 is owned without an image and a
re-resolution task for it is queued. The resolver gives the task `artUrl`,
which is non-null, not a placeholder and differs from the cached `null`, so
the task caches `artUrl` and requests the image. While the image loads,
`handleMintOrTransfer` runs for token 0 and gets a resolver answer without
image URL, which sets the cache entry to `null`. The image then loads: the
tile is in `tileImages` and not in `logoTiles`, but its cache entry is `null`,
not the new URL. -/
theorem refresh_cache_entry_overwritten_while_loading :
    sRefreshing.tasks.get? 0 = some (Task.refreshMeta 0) ∧
      (truthy (some artUrl) = true ∧ isPlaceholderUrl (some artUrl) = false ∧
        orNull (some artUrl) ≠ getCachedImage sRefreshing.imageCachePersist 0) ∧
      (run sRefreshing [Event.settle 0 (Signal.meta (some artUrl)),
        Event.handleMintOrTransfer 0, Event.settle 1 (Signal.meta none)]).tasks.get? 0 =
          some (Task.refreshLoad 0 artUrl LoadHandle.inflight) ∧
      LoadHandle.inflight.result (some 1) = some 1 ∧
      mapGet sRefreshRaced.tileImages 0 = some 1 ∧ 0 ∉ sRefreshRaced.logoTiles ∧
      getCachedImage sRefreshRaced.imageCachePersist 0 = none := by
  refine ⟨by decide, ⟨by decide, by decide, by decide⟩, by decide, by decide, by decide,
    by decide, by decide⟩

/-- C7 (amended): a re-resolution task for tile `id` that gets the resolver's
answer `u` leaves the cache, `tileImages` and `logoTiles` as they are unless
`u` is non-null, is not a placeholder URL and differs from the cached URL of
`id` (a rejected fetch changes nothing either); when the three conditions hold
the task sets the cache entry to the new URL, changes nothing else and
requests the image. Whatever happens while the image loads, when the load
succeeds the task maps `id` to the loaded image in `tileImages` and removes
`id` from `logoTiles`, and when it fails the task changes none of the three;
in both cases the task leaves the cache as it finds it, so afterwards the
cache entry is the new URL provided no other operation on tile `id` ran while
the image was loading. -/
theorem refresh_task_updates (s : State) (i id : Nat) (u : Option String)
    (ht : s.tasks.get? i = some (Task.refreshMeta id)) :
    (¬ (truthy u = true ∧ isPlaceholderUrl u = false ∧
          orNull u ≠ getCachedImage s.imageCachePersist id) →
      settle s i (Signal.meta u) = { s with tasks := s.tasks.eraseIdx i }) ∧
    settle s i Signal.raise = { s with tasks := s.tasks.eraseIdx i } ∧
    (truthy u = true → isPlaceholderUrl u = false →
      orNull u ≠ getCachedImage s.imageCachePersist id →
      ∃ url : String, u = some url ∧
        settle s i (Signal.meta u) =
          { s with
            imageCachePersist := setCachedImage s.imageCachePersist id (some url)
            tasks := s.tasks.eraseIdx i ++
              [Task.refreshLoad id url (loadImage s.imageCache url)] } ∧
        getCachedImage (settle s i (Signal.meta u)).imageCachePersist id = some url ∧
        ∀ (es : List Event) (j : Nat) (arrived : Option Img) (r : Bool),
          (run (settle s i (Signal.meta u)) es).tasks.get? j =
            some (Task.refreshLoad id url (loadImage s.imageCache url)) →
          (∀ img : Img, (loadImage s.imageCache url).result arrived = some img →
            mapGet (settle (run (settle s i (Signal.meta u)) es) j
              (Signal.image arrived r)).tileImages id = some img ∧
            id ∉ (settle (run (settle s i (Signal.meta u)) es) j
              (Signal.image arrived r)).logoTiles) ∧
          ((loadImage s.imageCache url).result arrived = none →
            (settle (run (settle s i (Signal.meta u)) es) j
              (Signal.image arrived r)).tileImages =
              (run (settle s i (Signal.meta u)) es).tileImages ∧
            (settle (run (settle s i (Signal.meta u)) es) j
              (Signal.image arrived r)).logoTiles =
              (run (settle s i (Signal.meta u)) es).logoTiles) ∧
          (settle (run (settle s i (Signal.meta u)) es) j
            (Signal.image arrived r)).imageCachePersist =
            (run (settle s i (Signal.meta u)) es).imageCachePersist ∧
          (Untouched id (settle s i (Signal.meta u)) es →
            getCachedImage (settle (run (settle s i (Signal.meta u)) es) j
              (Signal.image arrived r)).imageCachePersist id = some url)) := by
  refine ⟨?_, ?_, ?_⟩
  · intro hn
    rw [settle_of_get s i _ _ ht]
    simp only [resume]
    exact refreshAfterMeta_skip _ id u hn
  · rw [settle_of_get s i _ _ ht]
    simp only [resume]
    rfl
  · intro h1 h2 h3
    cases u with
    | none => simp [truthy] at h1
    | some url =>
      refine ⟨url, rfl, ?_⟩
      rw [orNull_of_truthy _ h1] at h3
      have hmeta : settle s i (Signal.meta (some url)) =
          { s with
            imageCachePersist := setCachedImage s.imageCachePersist id (some url)
            tasks := s.tasks.eraseIdx i ++
              [Task.refreshLoad id url (loadImage s.imageCache url)] } := by
        rw [settle_of_get s i _ _ ht]
        simp only [resume]
        rw [refreshAfterMeta_update { s with tasks := s.tasks.eraseIdx i } id url h1 h2 h3]
      have hcache : getCachedImage (settle s i (Signal.meta (some url))).imageCachePersist id =
          some url := by
        rw [hmeta]
        show getCachedImage (setCachedImage s.imageCachePersist id (some url)) id = some url
        rw [getCachedImage_setCachedImage_self, orNull_of_truthy _ h1]
      refine ⟨hmeta, hcache, ?_⟩
      intro es j arrived r hj
      rw [settle_of_get _ j _ _ hj]
      simp only [resume]
      have hkeep : (refreshAfterLoad
          { run (settle s i (Signal.meta (some url))) es with
            tasks := (run (settle s i (Signal.meta (some url))) es).tasks.eraseIdx j }
          id url (loadImage s.imageCache url) arrived).imageCachePersist =
          (run (settle s i (Signal.meta (some url))) es).imageCachePersist := by
        unfold refreshAfterLoad
        cases (loadImage s.imageCache url).result arrived <;> rfl
      refine ⟨?_, ?_, hkeep, ?_⟩
      · intro img hload
        obtain ⟨ha, hb, -⟩ := refreshAfterLoad_success
          { run (settle s i (Signal.meta (some url))) es with
            tasks := (run (settle s i (Signal.meta (some url))) es).tasks.eraseIdx j }
          id url _ arrived img hload
        exact ⟨ha, hb⟩
      · intro hload
        unfold refreshAfterLoad
        rw [hload]
        exact ⟨rfl, rfl⟩
      · intro hun
        rw [hkeep]
        have hv := run_frame id es _ hun
        have hc : (tileView (run (settle s i (Signal.meta (some url))) es) id).cached =
            (tileView (settle s i (Signal.meta (some url))) id).cached := by rw [hv]
        exact hc.trans hcache

theorem refresh_task_updates_witness :
    sRefreshing.tasks.get? 0 = some (Task.refreshMeta 0) ∧
      settle sRefreshing 0 Signal.raise =
        { sRefreshing with tasks := sRefreshing.tasks.eraseIdx 0 } :=
  ⟨by decide, (refresh_task_updates sRefreshing 0 0 (some artUrl) (by decide)).2.1⟩

section MintLemmas

theorem degraded_of_view (s : State) (id : Nat) (image : Option Img)
    (h : tileView s id = { owned := true, image := image, placeholder := true, cached := none }) :
    Degraded s id ∧ mapGet s.tileImages id = image := by
  have h1 : (tileView s id).owned = true := by rw [h]
  have h2 : (tileView s id).placeholder = true := by rw [h]
  have h3 : (tileView s id).cached = none := by rw [h]
  have h4 : (tileView s id).image = image := by rw [h]
  exact ⟨⟨of_decide_eq_true h1, of_decide_eq_true h2, h3⟩, h4⟩

theorem hasImage_of_view (s : State) (id : Nat) (h : (tileView s id).image = none) :
    s.hasImage id = false := by
  unfold State.hasImage
  have h1 : mapGet s.tileImages id = none := h
  rw [h1]
  rfl

theorem tileView_handleMintOrTransfer (s : State) (id : Nat) :
    tileView (handleMintOrTransfer s id) id = { tileView s id with owned := true } := by
  unfold tileView handleMintOrTransfer
  simp only [decide_eq_true (self_mem_setAdd s.ownedSet id)]

theorem tileView_mintCatch (s : State) (id : Nat) :
    tileView (mintCatch s id) id =
      { owned := true, image := (tileView s id).image, placeholder := true, cached := none } := by
  unfold tileView mintCatch
  simp only [decide_eq_true (self_mem_setAdd s.ownedSet id),
    decide_eq_true (self_mem_setAdd s.logoTiles id), getCachedImage_setCachedImage_self]
  rfl

theorem tileView_mintAfterMeta_none (s : State) (id : Nat) (u : Option String)
    (hu : truthy u = false) :
    tileView (mintAfterMeta s id u) id =
      { tileView s id with placeholder := true, cached := none } := by
  unfold mintAfterMeta
  rw [orNull_of_not_truthy u (by simp [hu])]
  unfold tileView
  simp only [decide_eq_true (self_mem_setAdd s.logoTiles id), getCachedImage_setCachedImage_self]
  rfl

theorem tileView_mintAfterMeta_url (s : State) (id : Nat) (url : String)
    (hu : truthy (some url) = true) :
    tileView (mintAfterMeta s id (some url)) id = { tileView s id with cached := some url } := by
  unfold mintAfterMeta
  rw [orNull_of_truthy _ hu]
  unfold tileView
  simp only [getCachedImage_setCachedImage_self, orNull_of_truthy _ hu]

theorem tileView_mintAfterLoad_failed (s : State) (id : Nat) (url : String) (h : LoadHandle)
    (arrived : Option Img) (hload : h.result arrived = none) :
    tileView (mintAfterLoad s id url h arrived true) id =
        { owned := true, image := (tileView s id).image, placeholder := true, cached := none } ∧
      tileView (mintAfterLoad s id url h arrived false) id =
        { tileView s id with placeholder := true } := by
  unfold mintAfterLoad
  rw [hload]
  constructor
  · simp only [if_true]
    rw [tileView_mintCatch]
    rfl
  · simp only [Bool.false_eq_true, if_false]
    unfold tileView
    simp only [decide_eq_true (self_mem_setAdd s.logoTiles id)]

theorem tileView_mintAfterLoad_threw (s : State) (id : Nat) (url : String) (h : LoadHandle)
    (arrived : Option Img) (img : Img) (hload : h.result arrived = some img) :
    tileView (mintAfterLoad s id url h arrived true) id =
      { owned := true, image := some img, placeholder := true, cached := none } := by
  unfold mintAfterLoad
  rw [hload]
  simp only [if_true]
  rw [tileView_mintCatch]
  unfold tileView
  simp only [mapGet_mapSet_self]

/-- The state in which an undisturbed continuation resumes shows the tile as
the state in which it was suspended did. -/
theorem undisturbed_view (id : Nat) (s : State) (es : List Event) (j : Nat) (t : Task)
    (h : Undisturbed id s es j t) :
    tileView { run s es with tasks := (run s es).tasks.eraseIdx j } id = tileView s id :=
  (tileView_tasks (run s es) _ id).trans (run_frame id es s h.1)

theorem resumeAfter_of_get (s : State) (es : List Event) (j : Nat) (t : Task) (sig : Signal)
    (ht : (run s es).tasks.get? j = some t) :
    resumeAfter s es j sig =
      match resume { run s es with tasks := (run s es).tasks.eraseIdx j } t sig with
      | some s1 => s1
      | none => run s es :=
  settle_of_get (run s es) j t sig ht

theorem view_mintMeta_raise (id : Nat) (s : State) (es : List Event) (j : Nat)
    (h : Undisturbed id s es j (Task.mintMeta id)) :
    tileView (resumeAfter s es j Signal.raise) id =
      { owned := true, image := (tileView s id).image, placeholder := true, cached := none } := by
  rw [resumeAfter_of_get s es j _ _ h.2]
  simp only [resume]
  rw [tileView_mintCatch, undisturbed_view id s es j _ h]

theorem view_mintMeta_none (id : Nat) (s : State) (es : List Event) (j : Nat)
    (u : Option String) (hu : truthy u = false)
    (h : Undisturbed id s es j (Task.mintMeta id)) :
    tileView (resumeAfter s es j (Signal.meta u)) id =
      { tileView s id with placeholder := true, cached := none } := by
  rw [resumeAfter_of_get s es j _ _ h.2]
  simp only [resume]
  rw [tileView_mintAfterMeta_none _ _ _ hu, undisturbed_view id s es j _ h]

theorem view_mintMeta_url (id : Nat) (s : State) (es : List Event) (j : Nat)
    (url : String) (hu : truthy (some url) = true)
    (h : Undisturbed id s es j (Task.mintMeta id)) :
    tileView (resumeAfter s es j (Signal.meta (some url))) id =
      { tileView s id with cached := some url } := by
  rw [resumeAfter_of_get s es j _ _ h.2]
  simp only [resume]
  rw [tileView_mintAfterMeta_url _ _ _ hu, undisturbed_view id s es j _ h]

theorem view_mintSold_done (id : Nat) (s : State) (es : List Event) (j : Nat)
    (h : Undisturbed id s es j (Task.mintSold id)) :
    tileView (resumeAfter s es j Signal.done) id = tileView s id := by
  rw [resumeAfter_of_get s es j _ _ h.2]
  simp only [resume]
  exact undisturbed_view id s es j _ h

theorem view_mintSold_raise (id : Nat) (s : State) (es : List Event) (j : Nat)
    (h : Undisturbed id s es j (Task.mintSold id)) :
    tileView (resumeAfter s es j Signal.raise) id =
      { owned := true, image := (tileView s id).image, placeholder := true, cached := none } := by
  rw [resumeAfter_of_get s es j _ _ h.2]
  simp only [resume]
  rw [tileView_mintCatch, undisturbed_view id s es j _ h]

theorem view_mintLoad_failed (id : Nat) (s : State) (es : List Event) (j : Nat)
    (url : String) (hd : LoadHandle) (arrived : Option Img)
    (hload : hd.result arrived = none)
    (h : Undisturbed id s es j (Task.mintLoad id url hd)) :
    tileView (resumeAfter s es j (Signal.image arrived true)) id =
        { owned := true, image := (tileView s id).image, placeholder := true, cached := none } ∧
      tileView (resumeAfter s es j (Signal.image arrived false)) id =
        { tileView s id with placeholder := true } := by
  rw [resumeAfter_of_get s es j _ _ h.2, resumeAfter_of_get s es j _ _ h.2]
  simp only [resume]
  obtain ⟨h1, h2⟩ := tileView_mintAfterLoad_failed
    { run s es with tasks := (run s es).tasks.eraseIdx j } id url hd arrived hload
  rw [h1, h2, undisturbed_view id s es j _ h]
  exact ⟨rfl, rfl⟩

theorem view_mintLoad_threw (id : Nat) (s : State) (es : List Event) (j : Nat)
    (url : String) (hd : LoadHandle) (arrived : Option Img) (img : Img)
    (hload : hd.result arrived = some img)
    (h : Undisturbed id s es j (Task.mintLoad id url hd)) :
    tileView (resumeAfter s es j (Signal.image arrived true)) id =
      { owned := true, image := some img, placeholder := true, cached := none } := by
  rw [resumeAfter_of_get s es j _ _ h.2]
  simp only [resume]
  exact tileView_mintAfterLoad_threw _ id url hd arrived img hload

end MintLemmas

/-- C10 (as stated, refuted), two sessions in which the handler runs for a
tile without display image. In the first, for token 7, the handler stores the
loaded image and the redraw that follows throws: the `catch` block runs, yet
tile 7 is in `tileImages` after the handler. In the second, for token 0, the
resolver gives the handler no image URL and nothing throws, but while the
handler is suspended a re-resolution task for tile 0 obtains `artUrl` and
loads its image: after the handler tile 0 is in `tileImages`, is not in
`logoTiles`, and its cache entry is `artUrl`. -/
theorem handleMintOrTransfer_not_always_degraded :
    (State.empty.hasImage 7 = false ∧ sMintThrewAfterLoad.tasks = [] ∧
      Degraded sMintThrewAfterLoad 7 ∧ sMintThrewAfterLoad.hasImage 7 = true) ∧
    (sRefreshing.hasImage 0 = false ∧ sMintRacedByRefresh.tasks = [] ∧
      0 ∈ sMintRacedByRefresh.ownedSet ∧ sMintRacedByRefresh.hasImage 0 = true ∧
      0 ∉ sMintRacedByRefresh.logoTiles ∧
      getCachedImage sMintRacedByRefresh.imageCachePersist 0 = some artUrl) := by
  refine ⟨⟨by decide, by decide, ⟨by decide, by decide, by decide⟩, by decide⟩,
    by decide, by decide, by decide, by decide, by decide, by decide⟩

/-- C10 (amended): `handleMintOrTransfer` runs for a token that has no
display image, and while the handler is suspended (at the metadata fetch, at
the image load, at `preloadSoldImage()`) any events may happen that are not
operations on that tile. If the resolver yields no image URL (whether the rest
of the body then completes or throws), or the body throws at the metadata
fetch, or the image load fails and the body throws (right after the load or
later), then after the handler the tile is owned, is in `logoTiles`, has cache
entry `null` and is still absent from `tileImages`. If the body throws after a
successful load, the tile is owned, in `logoTiles` and has cache entry `null`,
and `tileImages` keeps the image the body had stored. -/
theorem handleMintOrTransfer_degrades (s : State) (tokenId : Nat)
    (hno : s.hasImage tokenId = false) :
    (∀ (es1 : List Event) (j1 : Nat) (u : Option String),
      Undisturbed tokenId (handleMintOrTransfer s tokenId) es1 j1 (Task.mintMeta tokenId) →
      truthy u = false →
      ∀ (es2 : List Event) (j2 : Nat) (tail : Signal),
        Undisturbed tokenId
          (resumeAfter (handleMintOrTransfer s tokenId) es1 j1 (Signal.meta u))
          es2 j2 (Task.mintSold tokenId) →
        (tail = Signal.done ∨ tail = Signal.raise) →
        Degraded (resumeAfter
          (resumeAfter (handleMintOrTransfer s tokenId) es1 j1 (Signal.meta u))
          es2 j2 tail) tokenId ∧
        (resumeAfter
          (resumeAfter (handleMintOrTransfer s tokenId) es1 j1 (Signal.meta u))
          es2 j2 tail).hasImage tokenId = false) ∧
    (∀ (es1 : List Event) (j1 : Nat),
      Undisturbed tokenId (handleMintOrTransfer s tokenId) es1 j1 (Task.mintMeta tokenId) →
      Degraded (resumeAfter (handleMintOrTransfer s tokenId) es1 j1 Signal.raise) tokenId ∧
      (resumeAfter (handleMintOrTransfer s tokenId) es1 j1 Signal.raise).hasImage tokenId =
        false) ∧
    (∀ (es1 : List Event) (j1 : Nat) (url : String),
      Undisturbed tokenId (handleMintOrTransfer s tokenId) es1 j1 (Task.mintMeta tokenId) →
      truthy (some url) = true →
      ∀ (es2 : List Event) (j2 : Nat) (h : LoadHandle) (arrived : Option Img),
        Undisturbed tokenId
          (resumeAfter (handleMintOrTransfer s tokenId) es1 j1 (Signal.meta (some url)))
          es2 j2 (Task.mintLoad tokenId url h) →
        (h.result arrived = none →
          (Degraded (resumeAfter
              (resumeAfter (handleMintOrTransfer s tokenId) es1 j1 (Signal.meta (some url)))
              es2 j2 (Signal.image arrived true)) tokenId ∧
            (resumeAfter
              (resumeAfter (handleMintOrTransfer s tokenId) es1 j1 (Signal.meta (some url)))
              es2 j2 (Signal.image arrived true)).hasImage tokenId = false) ∧
          (∀ (es3 : List Event) (j3 : Nat),
            Undisturbed tokenId
              (resumeAfter
                (resumeAfter (handleMintOrTransfer s tokenId) es1 j1 (Signal.meta (some url)))
                es2 j2 (Signal.image arrived false))
              es3 j3 (Task.mintSold tokenId) →
            Degraded (resumeAfter
              (resumeAfter
                (resumeAfter (handleMintOrTransfer s tokenId) es1 j1 (Signal.meta (some url)))
                es2 j2 (Signal.image arrived false))
              es3 j3 Signal.raise) tokenId ∧
            (resumeAfter
              (resumeAfter
                (resumeAfter (handleMintOrTransfer s tokenId) es1 j1 (Signal.meta (some url)))
                es2 j2 (Signal.image arrived false))
              es3 j3 Signal.raise).hasImage tokenId = false)) ∧
        (∀ img : Img, h.result arrived = some img →
          Degraded (resumeAfter
            (resumeAfter (handleMintOrTransfer s tokenId) es1 j1 (Signal.meta (some url)))
            es2 j2 (Signal.image arrived true)) tokenId ∧
          mapGet (resumeAfter
            (resumeAfter (handleMintOrTransfer s tokenId) es1 j1 (Signal.meta (some url)))
            es2 j2 (Signal.image arrived true)).tileImages tokenId = some img)) := by
  have himg : (tileView (handleMintOrTransfer s tokenId) tokenId).image = none := by
    have h0 : (mapGet s.tileImages tokenId).isSome = false := hno
    show mapGet s.tileImages tokenId = none
    cases hm : mapGet s.tileImages tokenId with
    | none => rfl
    | some img => rw [hm] at h0; cases h0
  refine ⟨?_, ?_, ?_⟩
  · intro es1 j1 u h1 hu es2 j2 tail h2 htail
    have v1 := view_mintMeta_none tokenId _ es1 j1 u hu h1
    rw [tileView_handleMintOrTransfer] at v1
    have hi : (tileView s tokenId).image = none := himg
    rcases htail with rfl | rfl
    · have v2 := view_mintSold_done tokenId _ es2 j2 h2
      rw [v1] at v2
      obtain ⟨hd, hm⟩ := degraded_of_view _ tokenId _ v2
      exact ⟨hd, hasImage_of_view _ _ (hm.trans hi)⟩
    · have v2 := view_mintSold_raise tokenId _ es2 j2 h2
      rw [v1] at v2
      obtain ⟨hd, hm⟩ := degraded_of_view _ tokenId _ v2
      exact ⟨hd, hasImage_of_view _ _ (hm.trans hi)⟩
  · intro es1 j1 h1
    have v1 := view_mintMeta_raise tokenId _ es1 j1 h1
    obtain ⟨hd, hm⟩ := degraded_of_view _ tokenId _ v1
    exact ⟨hd, hasImage_of_view _ _ (hm.trans himg)⟩
  · intro es1 j1 url h1 hu es2 j2 h arrived h2
    have v1 := view_mintMeta_url tokenId _ es1 j1 url hu h1
    have hi1 : (tileView (resumeAfter (handleMintOrTransfer s tokenId) es1 j1
        (Signal.meta (some url))) tokenId).image = none := by
      rw [v1]
      exact himg
    refine ⟨?_, ?_⟩
    · intro hload
      obtain ⟨v2, v3⟩ := view_mintLoad_failed tokenId _ es2 j2 url h arrived hload h2
      refine ⟨?_, ?_⟩
      · obtain ⟨hd, hm⟩ := degraded_of_view _ tokenId _ v2
        exact ⟨hd, hasImage_of_view _ _ (hm.trans hi1)⟩
      · intro es3 j3 h3
        have v4 := view_mintSold_raise tokenId _ es3 j3 h3
        obtain ⟨hd, hm⟩ := degraded_of_view _ tokenId _ v4
        refine ⟨hd, hasImage_of_view _ _ (hm.trans ?_)⟩
        rw [v3]
        exact hi1
    · intro img hload
      have v2 := view_mintLoad_threw tokenId _ es2 j2 url h arrived img hload h2
      exact degraded_of_view _ tokenId _ v2

theorem handleMintOrTransfer_degrades_witness :
    State.empty.hasImage 7 = false ∧
      Undisturbed 7 (handleMintOrTransfer State.empty 7) [Event.markTileAsOwned 1 1 none] 0
        (Task.mintMeta 7) ∧
      Degraded (resumeAfter (handleMintOrTransfer State.empty 7)
        [Event.markTileAsOwned 1 1 none] 0 Signal.raise) 7 :=
  ⟨by decide, ⟨⟨by decide, trivial⟩, by decide⟩,
    ((handleMintOrTransfer_degrades State.empty 7 (by decide)).2.1
      [Event.markTileAsOwned 1 1 none] 0 ⟨⟨by decide, trivial⟩, by decide⟩).1⟩
end BaseLand
